import Mathlib


/-!
# fiber-c: the `hello_switch` and `sieve_switch` examples over a fiber runtime

The two example programs are translated from `src/examples/*.c`.  The runtime they
call (`fiber_alloc`, `fiber_free`, `fiber_switch`, `fiber_switch_return`,
`fiber_main`) is declared in `fiber_switch.h`, which is not part of the sources; it
is modelled from the specification (sections 3 and 4).

A fiber's saved context is a program point of the C code (one constructor per call
site of a runtime primitive, carrying the locals that are live across the call).
The running fiber continues from its program point with two registers: the word
delivered by the transfer and the handle written to its rendezvous slot.

The increment of the `int32_t` candidate at `INT32_MAX` has no defined behaviour in
C; the compiled program wraps to `INT32_MIN` and goes on, and so does the model.
`malloc` may fail where the platform says so; the source does not test its result.
Where the program would fault or read memory it does not own (an access through the
`NULL` array, a read outside an array or of a slot never written, a division by
zero) the code requests `undefined` and the machine stops with that status.
-/

namespace FiberC

/-- Machine word passed through a transfer (`void*`, `intptr_t`). -/
abbrev Word := Int

/-- Opaque fiber handle; `none` is the reserved `NULL` sentinel. -/
abbrev FiberHandle := Option Nat

/-- Modelled from the spec: the `state` field of a fiber record (section 3). -/
inductive FiberState
  | Fresh
  | Suspended
  | Running
  | Finished
  deriving DecidableEq, Repr

/-- Modelled from the spec: how `*self_slot` of a `fiber_switch` call is filled.
`current` is the sentence of section 4.E read literally: the switching fiber writes
its own handle into the slot it passes.  `waker` is the rendezvous reading of the
same section ("yield to whoever woke me", "when control returns to this call
site"): the slot of a suspended call holds, when the call returns, the handle of the
fiber that transferred back. -/
inductive SlotRule
  | current
  | waker
  deriving DecidableEq, Repr

/-- Modelled from the spec: the fiber record behind a handle (section 3), without
the stack memory.  `last_caller` is the `caller_handle` that the trampoline received
at the first resumption (section 4.D), cached from then on. -/
structure FiberRec (K : Type) where
  state : FiberState
  saved_context : K
  last_caller : FiberHandle
  /-- Bookkeeping: destination of this fiber's most recent transfer out. -/
  switched_to : FiberHandle
  deriving DecidableEq, Repr

/-- The next runtime primitive or process exit requested by the running code. -/
inductive Request (E K : Type)
  | fiber_alloc (entry : E) (k : K)
  | fiber_free (h : FiberHandle) (k : K)
  | fiber_switch (dst : FiberHandle) (value : Word) (k : K)
  | fiber_switch_return (dst : FiberHandle) (value : Word)
  | ret (value : Word)
  | exit (code : Int)
  | abort
  | undefined
  deriving DecidableEq, Repr

/-- Effect of running the code of the current fiber up to its next request. -/
structure Step (E K G : Type) where
  out : List Char
  err : List Char
  mem : G
  req : Request E K

/-- A program: entry points `E`, program points `K`, shared memory `G`. -/
structure Prog (E K G : Type) where
  entry : E → K
  code : K → Word → FiberHandle → G → Step E K G

/-- How an execution stands: running, `prog` returned, `exit` or `abort` was called,
a runtime primitive met its fatal programming error, or the C code left defined
behaviour. -/
inductive Status
  | running
  | returned (value : Word)
  | exited (code : Int)
  | aborted
  | fatal
  | undefined
  deriving DecidableEq, Repr

/-- The whole machine: fiber table (index = handle, `none` = freed), the running
fiber with its program point and registers, shared memory, the two output streams
and the record of every `fiber_free` (handle, state at that moment).
`returned_from` is bookkeeping: it is `some dst` exactly in the state in which a
suspended `fiber_switch(dst, v, slot)` call has just returned. -/
structure Machine (K G : Type) where
  fibers : List (Option (FiberRec K))
  current : Nat
  pc : K
  rv : Word
  rh : FiberHandle
  mem : G
  stdout : List Char
  stderr : List Char
  freed : List (Nat × FiberState)
  returned_from : Option FiberHandle
  status : Status

/-- Record of a live fiber. -/
def Machine.lookup {K G : Type} (m : Machine K G) (h : Nat) : Option (FiberRec K) :=
  (m.fibers.get? h).join

/-- Modelled from the spec: the transfer shared by `fiber_switch`,
`fiber_switch_return` and the trampoline's teardown (section 4.E).  The destination
must be a live handle in state `Fresh` or `Suspended` other than the current fiber,
otherwise the transfer is the fatal programming error.  A `Fresh` destination
starts at its entry with `caller` equal to the switcher, which the trampoline caches
as `last_caller` (section 4.D); a `Suspended` one returns from its `fiber_switch`
with its slot filled according to `rule`. -/
def transfer {K G : Type} (rule : SlotRule) (m : Machine K G) (after : FiberState)
    (k : K) (dst : FiberHandle) (value : Word) : Machine K G :=
  match dst with
  | none => { m with status := Status.fatal }
  | some d =>
    if d = m.current then { m with status := Status.fatal } else
    match m.lookup d, m.lookup m.current with
    | some r, some c =>
      if r.state = FiberState.Fresh ∨ r.state = FiberState.Suspended then
        { m with
          fibers := (m.fibers.set m.current
              (some { c with state := after, saved_context := k, switched_to := dst })).set d
              (some { r with
                state := FiberState.Running
                last_caller :=
                  if r.state = FiberState.Fresh then some m.current else r.last_caller })
          current := d
          pc := r.saved_context
          rv := value
          rh := if r.state = FiberState.Fresh then some m.current else
            match rule with
            | SlotRule.waker => some m.current
            | SlotRule.current => some d
          returned_from := if r.state = FiberState.Fresh then none else some r.switched_to }
      else { m with status := Status.fatal }
    | _, _ => { m with status := Status.fatal }

/-- Modelled from the spec: `fiber_alloc` (section 4.C): a new record in state
`Fresh` whose synthetic context is the entry point; no user code runs. -/
def fiber_alloc {K G : Type} (m : Machine K G) (entry : K) (k : K) : Machine K G :=
  { m with
    fibers := m.fibers ++ [some ⟨FiberState.Fresh, entry, none, none⟩]
    pc := k
    rv := 0
    rh := some m.fibers.length
    returned_from := none }

/-- Modelled from the spec: `fiber_free` (sections 3 and 4.C): legal on a live
handle in state `Fresh`, `Suspended` or `Finished`; freeing the running fiber, a
freed handle or `NULL` is the fatal programming error. -/
def fiber_free {K G : Type} (m : Machine K G) (h : FiberHandle) (k : K) : Machine K G :=
  match h with
  | none => { m with status := Status.fatal }
  | some d =>
    match m.lookup d with
    | some r =>
      if r.state = FiberState.Running then { m with status := Status.fatal } else
        { m with
          fibers := m.fibers.set d none
          freed := m.freed ++ [(d, r.state)]
          pc := k
          rv := 0
          rh := none
          returned_from := none }
    | none => { m with status := Status.fatal }

/-- Modelled from the spec: one step of the runtime: the current fiber runs to its
next request, which is served.  An entry function that returns is torn down by the
trampoline (section 4.D): the fiber is marked `Finished` and control goes to its
`last_caller`; `prog` returning in the root ends `fiber_main` (section 4.E). -/
def step {E K G : Type} (P : Prog E K G) (rule : SlotRule) (m : Machine K G) :
    Machine K G :=
  match m.status with
  | Status.running =>
    let s := P.code m.pc m.rv m.rh m.mem
    let m1 : Machine K G :=
      { m with stdout := m.stdout ++ s.out, stderr := m.stderr ++ s.err, mem := s.mem }
    match s.req with
    | Request.fiber_alloc e k => fiber_alloc m1 (P.entry e) k
    | Request.fiber_free h k => fiber_free m1 h k
    | Request.fiber_switch dst v k => transfer rule m1 FiberState.Suspended k dst v
    | Request.fiber_switch_return dst v =>
      transfer rule m1 FiberState.Finished m1.pc dst v
    | Request.ret v =>
      if m1.current = 0 then { m1 with status := Status.returned v } else
        match m1.lookup m1.current with
        | some c => transfer rule m1 FiberState.Finished m1.pc c.last_caller v
        | none => { m1 with status := Status.fatal }
    | Request.exit c => { m1 with status := Status.exited c }
    | Request.abort => { m1 with status := Status.aborted }
    | Request.undefined => { m1 with status := Status.undefined }
  | _ => m

/-- Run at most `fuel` steps. -/
def exec {E K G : Type} (P : Prog E K G) (rule : SlotRule) :
    Nat → Machine K G → Machine K G
  | 0, m => m
  | fuel + 1, m => exec P rule fuel (step P rule m)

/-- Modelled from the spec: `fiber_main` (section 4.E) establishes the root context
(handle 0, running, no caller) and invokes `prog` under it. -/
def fiber_main {K G : Type} (prog : K) (mem : G) : Machine K G :=
  { fibers := [some ⟨FiberState.Running, prog, none, none⟩]
    current := 0
    pc := prog
    rv := 0
    rh := none
    mem := mem
    stdout := []
    stderr := []
    freed := []
    returned_from := none
    status := Status.running }

/-- The cast `(uint32_t)(uintptr_t)w`. -/
def toUInt32 (w : Word) : Nat := (w % 4294967296).toNat

/-- The cast `(int32_t)(intptr_t)w`. -/
def toInt32 (w : Word) : Int := (w + 2147483648) % 4294967296 - 2147483648

end FiberC

/-! ## `examples/hello_switch.c` -/

namespace HelloSwitch

open FiberC

/-- Entry points handed to `fiber_alloc`. -/
inductive Entry
  | hello
  | world
  deriving DecidableEq, Repr

/-- Program points: the entry of each function and the return site of each runtime
call (named by source line), with the locals live across the call. -/
inductive Pt
  | prog
  | prog_L45
  | prog_L52
  | prog_L57
  | hello
  | hello_L29 (arg : Word) (main_fiber : FiberHandle)
  | hello_L36 (main_fiber : FiberHandle)
  | hello_L38 (main_fiber : FiberHandle) (i : Nat)
  | world
  | world_L20
  | world_L24
  deriving DecidableEq, Repr

/-- The array `s` of `world`: "el ol" and its terminating NUL. -/
def world_s : List Char := ['e', 'l', ' ', 'o', 'l', Char.ofNat 0]

/-- The array `s` of `hello`: "hlowrd" and its terminating NUL. -/
def hello_s : List Char := ['h', 'l', 'o', 'w', 'r', 'd', Char.ofNat 0]

/-- The C function `strlen`: number of characters before the first NUL. -/
def strlen (s : List Char) : Nat := (s.takeWhile (fun c => c != Char.ofNat 0)).length

/-- Body of the `do` loop of `world` (lines 18 to 20); reading `s[i]` outside the
array is undefined. -/
def world_body (main_fiber : FiberHandle) (i : Nat) (world_done : Bool) :
    Step Entry Pt Bool :=
  match world_s.get? i with
  | some c =>
    ⟨[c], [], world_done,
      Request.fiber_switch main_fiber (((i + 1) % 4294967296 : Nat) : Int) Pt.world_L20⟩
  | none => ⟨[], [], world_done, Request.undefined⟩

/-- The function `world` (lines 13 to 26), from each of its program points: its
entry with `arg` in `rv` and `main_fiber` in `rh`, and the returns of the switches of
lines 20 and 24, whose slot is `main_fiber`. -/
def world (pt : Pt) (rv : Word) (rh : FiberHandle) (world_done : Bool) :
    Step Entry Pt Bool :=
  match pt with
  | Pt.world_L20 =>
    if toUInt32 rv < strlen world_s then world_body rh (toUInt32 rv) world_done
    else ⟨[], [], true, Request.fiber_switch rh (toUInt32 rv : Int) Pt.world_L24⟩
  | Pt.world_L24 => ⟨[], [], world_done, Request.ret 0⟩
  | Pt.world => world_body rh (toUInt32 rv) world_done
  | _ => ⟨[], [], world_done, Request.undefined⟩

/-- Body of the `do` loop of `hello` (lines 35 and 36). -/
def hello_body (main_fiber world_fiber : FiberHandle) (i : Nat) (world_done : Bool) :
    Step Entry Pt Bool :=
  match hello_s.get? i with
  | some c =>
    ⟨[c], [], world_done, Request.fiber_switch world_fiber (i : Int) (Pt.hello_L36 main_fiber)⟩
  | none => ⟨[], [], world_done, Request.undefined⟩

/-- The function `hello` (lines 28 to 41), from each of its program points: its
entry, the return of `fiber_alloc` (line 29), of the switch of line 36, whose slot is
`world_fiber`, and of `fiber_free` (line 38).  With `tail_switch = true` this is the
source; with `false` the call `fiber_switch_return(main_fiber, i)` of line 39 is
removed and line 40 returns. -/
def hello (tail_switch : Bool) (pt : Pt) (rv : Word) (rh : FiberHandle)
    (world_done : Bool) : Step Entry Pt Bool :=
  match pt with
  | Pt.hello_L29 arg main_fiber => hello_body main_fiber rh (toUInt32 arg) world_done
  | Pt.hello_L36 main_fiber =>
    if !world_done && main_fiber != none then
      hello_body main_fiber rh (toUInt32 rv) world_done
    else ⟨[], [], world_done, Request.fiber_free rh (Pt.hello_L38 main_fiber (toUInt32 rv))⟩
  | Pt.hello_L38 main_fiber i =>
    if tail_switch then ⟨[], [], world_done, Request.fiber_switch_return main_fiber (i : Int)⟩
    else ⟨[], [], world_done, Request.ret 0⟩
  | Pt.hello => ⟨[], [], world_done, Request.fiber_alloc Entry.world (Pt.hello_L29 rv rh)⟩
  | _ => ⟨[], [], world_done, Request.undefined⟩

/-- The function `prog` (lines 43 to 60), from each of its program points. -/
def prog (pt : Pt) (rh : FiberHandle) (world_done : Bool) : Step Entry Pt Bool :=
  match pt with
  | Pt.prog_L45 => ⟨[], [], false, Request.fiber_switch rh 0 Pt.prog_L52⟩
  | Pt.prog_L52 => ⟨[Char.ofNat 10], [], world_done, Request.fiber_free rh Pt.prog_L57⟩
  | Pt.prog_L57 => ⟨[], [], world_done, Request.ret 0⟩
  | Pt.prog => ⟨[], [], world_done, Request.fiber_alloc Entry.hello Pt.prog_L45⟩
  | _ => ⟨[], [], world_done, Request.undefined⟩

/-- The program `hello_switch.c`. -/
def program (tail_switch : Bool) : Prog Entry Pt Bool where
  entry := fun e =>
    match e with
    | Entry.hello => Pt.hello
    | Entry.world => Pt.world
  code := fun pt rv rh g =>
    match pt with
    | Pt.prog => prog pt rh g
    | Pt.prog_L45 => prog pt rh g
    | Pt.prog_L52 => prog pt rh g
    | Pt.prog_L57 => prog pt rh g
    | Pt.hello => hello tail_switch pt rv rh g
    | Pt.hello_L29 _ _ => hello tail_switch pt rv rh g
    | Pt.hello_L36 _ => hello tail_switch pt rv rh g
    | Pt.hello_L38 _ _ => hello tail_switch pt rv rh g
    | Pt.world => world pt rv rh g
    | Pt.world_L20 => world pt rv rh g
    | Pt.world_L24 => world pt rv rh g

/-- The call `fiber_main(prog, argc, argv)` of `main`; `world_done` is a static
`bool`, initially false. -/
def main : Machine Pt Bool := fiber_main Pt.prog false

end HelloSwitch

/-! ## `examples/sieve_switch.c` -/

namespace SieveSwitch

open FiberC

/-- The constant `MAX_PRIMES_LIMIT` (line 13). -/
def MAX_PRIMES_LIMIT : Int := 203280220

/-- The struct `tuple` (lines 15 to 18). -/
structure tuple where
  a : Bool
  b : Int
  deriving DecidableEq, Repr

/-- Entry points handed to `fiber_alloc`. -/
inductive Entry
  | run
  | filter
  deriving DecidableEq, Repr

/-- Locals of `run` that are live across its runtime calls.  `filters` is the
`malloc`ed array of `max_primes` handles; `none` is a slot never written. -/
structure RunLocals where
  quiet : Bool
  max_primes : Nat
  p : Nat
  i : Int
  filters : List (Option FiberHandle)
  caller : FiberHandle
  deriving DecidableEq, Repr

/-- Program points: the entry of each function and the return site of each runtime
call (named by source line), with the locals live across the call. -/
inductive Pt
  | prog (argv : List (List Char))
  | prog_L122 (quiet : Bool) (result : Int)
  | prog_L123
  | prog_L124
  | prog_L125 (fiber_result : Int)
  | run
  | run_L62 (l : RunLocals) (j : Nat)
  | run_L77 (l : RunLocals)
  | run_L78 (l : RunLocals)
  | run_L92 (l : RunLocals) (i : Nat)
  | run_L93 (l : RunLocals) (i : Nat)
  | filter
  | filter_L22 (my_prime : Int)
  | filter_L25 (my_prime : Int)
  deriving DecidableEq, Repr

/-- What the platform does where the standard leaves a choice: the text `printf`
writes for `%p` of `&filters[1]`, whether `strtol` sets `EINVAL` when no digits are
converted, whether `malloc` of an array of that many fiber handles succeeds, and the
byte that follows `sbuf` in the stack frame of `run`. -/
structure Platform where
  ptr_text : List Char
  strtol_einval : Bool
  malloc_ok : Nat → Bool
  stack_byte : Char

/-- Value of `errno` after `strtol`. -/
inductive Errno
  | zero
  | ERANGE
  | EINVAL
  deriving DecidableEq, Repr

/-- The C function `isdigit` in the C locale. -/
def isdigit (c : Char) : Bool := decide ('0' ≤ c) && decide (c ≤ '9')

/-- The C function `isspace` in the C locale. -/
def isspace (c : Char) : Bool :=
  c == ' ' || (decide (Char.ofNat 9 ≤ c) && decide (c ≤ Char.ofNat 13))

/-- Value of a string of decimal digits. -/
def digitsValue (ds : List Char) : Nat :=
  ds.foldl (fun acc c => 10 * acc + (c.toNat - 48)) 0

/-- The C function `strtol(s, NULL, 10)` with `long` of 64 bits: the value and the
`errno` it leaves (`errno` is zero before the call, line 111). -/
def strtol (pf : Platform) (s : List Char) : Int × Errno :=
  let s1 := s.dropWhile isspace
  let neg := s1.head? == some '-'
  let s2 := if s1.head? == some '-' || s1.head? == some '+' then s1.tail else s1
  let ds := s2.takeWhile isdigit
  if ds.isEmpty then (0, if pf.strtol_einval then Errno.EINVAL else Errno.zero)
  else if neg then
    if 9223372036854775808 < digitsValue ds then (-9223372036854775808, Errno.ERANGE)
    else (-(digitsValue ds : Int), Errno.zero)
  else
    if 9223372036854775807 < digitsValue ds then (9223372036854775807, Errno.ERANGE)
    else ((digitsValue ds : Int), Errno.zero)

/-- Text of `printf("%u", n)`. -/
def fmt_u (n : Nat) : List Char := Nat.toDigits 10 n

/-- Text of `printf("%" PRId32, i)`. -/
def fmt_d (i : Int) : List Char :=
  if i < 0 then '-' :: Nat.toDigits 10 i.natAbs else Nat.toDigits 10 i.natAbs

/-- The function `sanitise_input_number` (lines 30 to 35). -/
def sanitise_input_number (s : List Char) : Bool :=
  match s with
  | [] => true
  | c :: rest => if !isdigit c then false else sanitise_input_number rest

/-- The function `print_input_error_and_exit` (lines 37 to 40). -/
def print_input_error_and_exit (t : tuple) : Step Entry Pt tuple :=
  ⟨[], "error: input must be a positive integer in the interval [1, ".toList
      ++ fmt_d MAX_PRIMES_LIMIT ++ [']', Char.ofNat 10], t, Request.exit 1⟩

/-- The function `filter` (lines 20 to 28), from each of its program points.  The
variable `caller` is the slot of both switches, so it is the handle register on
return; `candidate % my_prime` with `my_prime == 0` is undefined. -/
def filter (pt : Pt) (rv : Word) (rh : FiberHandle) (t : tuple) : Step Entry Pt tuple :=
  match pt with
  | Pt.filter_L22 my_prime | Pt.filter_L25 my_prime =>
    if toInt32 rv > 0 then
      if my_prime = 0 then ⟨[], [], t, Request.undefined⟩
      else ⟨[], [], t, Request.fiber_switch rh
        (if Int.tmod (toInt32 rv) my_prime = 0 then 1 else 0) (Pt.filter_L25 my_prime)⟩
    else ⟨[], [], t, Request.ret 0⟩
  | Pt.filter => ⟨[], [], t, Request.fiber_switch rh 0 (Pt.filter_L22 (toInt32 rv))⟩
  | _ => ⟨[], [], t, Request.undefined⟩

/-- Lines 67 to 75 of `run`: `snprintf` into `sbuf[11]` writes at most 10 characters
of the text and a NUL and returns the full length `len`; the loop then writes
`sbuf[0 .. len-1]` to stdout.  `none` when the loop reads a byte of `sbuf` that was
not written. -/
def print_candidate (i : Int) : Option (List Char) :=
  let text := fmt_d i ++ [' ']
  let sbuf := text.take 10 ++ [Char.ofNat 0]
  if text.length ≤ sbuf.length then some (sbuf.take text.length) else none

/-- A step that requests `undefined` (the C code has no defined behaviour). -/
def undefinedStep (t : tuple) : Step Entry Pt tuple := ⟨[], [], t, Request.undefined⟩

/-- Lines 89 to 97 of `run`: the cleanup loop from index `i`, then the terminal
transfer to `caller`. -/
def run_cleanup (l : RunLocals) (i : Nat) (out : List Char) (t : tuple) :
    Step Entry Pt tuple :=
  if i < l.p then
    match l.filters.get? i with
    | some (some h) => ⟨out, [], t, Request.fiber_switch h 0 (Pt.run_L92 l i)⟩
    | _ => ⟨out, [], t, Request.undefined⟩
  else ⟨out, [], t, Request.fiber_switch_return l.caller 0⟩

/-- Lines 83 to 89 of `run`: the newline, the summary and the assertion. -/
def run_after_loop (l : RunLocals) (t : tuple) : Step Entry Pt tuple :=
  let out := (if l.quiet then [] else [Char.ofNat 10])
    ++ "Computed ".toList ++ fmt_u l.p ++ " primes.".toList ++ [Char.ofNat 10]
  if l.p = l.max_primes then run_cleanup l 0 out t
  else ⟨out, "Assertion failed".toList, t, Request.abort⟩

/-- Lines 65 to 77 of `run` when `divisible` is false: print the candidate unless
quiet, then allocate its filter.  For a candidate whose text has 12 characters (a
sign, ten digits and the space) the loop of lines 73 to 75 also writes the byte that
follows `sbuf`. -/
def run_not_divisible (pf : Platform) (l : RunLocals) (out : List Char) (t : tuple) :
    Step Entry Pt tuple :=
  if l.quiet then ⟨out, [], t, Request.fiber_alloc Entry.filter (Pt.run_L77 l)⟩
  else
    match print_candidate l.i with
    | some text => ⟨out ++ text, [], t, Request.fiber_alloc Entry.filter (Pt.run_L77 l)⟩
    | none =>
      ⟨out ++ (fmt_d l.i ++ [' ']).take 10 ++ [Char.ofNat 0, pf.stack_byte], [], t,
        Request.fiber_alloc Entry.filter (Pt.run_L77 l)⟩

/-- Lines 56 to 62 of `run`: the test of the `for` loop at index `j`, the debugging
output of lines 57 to 60 and the switch into `filters[j]`. -/
def run_for (pf : Platform) (l : RunLocals) (j : Nat) (t : tuple) : Step Entry Pt tuple :=
  if j < l.p then
    match l.filters.get? j with
    | some (some h) =>
      ⟨if l.i = 5 ∧ j = 1 then
          "Filter ".toList ++ fmt_u j ++ " fiber pointer: ".toList ++ pf.ptr_text
            ++ [Char.ofNat 10]
        else [],
        [], t, Request.fiber_switch h l.i (Pt.run_L62 l j)⟩
    | _ => undefinedStep t
  else run_not_divisible pf l [] t

/-- Line 53 of `run`: the test of the `while` loop. -/
def run_while (pf : Platform) (l : RunLocals) (t : tuple) : Step Entry Pt tuple :=
  if l.p < l.max_primes then run_for pf l 0 t else run_after_loop l t

/-- Line 81 of `run`: `i++` on an `int32_t`, then the `while` test again.  At
`INT32_MAX` the increment overflows: the compiled program wraps to `INT32_MIN`. -/
def run_incr (pf : Platform) (l : RunLocals) (t : tuple) : Step Entry Pt tuple :=
  run_while pf { l with i := toInt32 (l.i + 1) } t

/-- The function `run` (lines 42 to 100), from each of its program points: its entry
(`arg` points to the tuple, `caller` is in `rh`) and the returns of its runtime calls.
The slot of the switches of lines 62 and 92 is `filters[j]`, that of line 78 is the
local `filter_fiber`.  Line 51 does not test the result of `malloc`: where it fails
`filters` is `NULL`, an array without slots, and every access through it is
undefined. -/
def run (pf : Platform) (pt : Pt) (rv : Word) (rh : FiberHandle) (t : tuple) :
    Step Entry Pt tuple :=
  match pt with
  | Pt.run_L62 l j =>
    if rv ≠ 0 then run_incr pf { l with filters := l.filters.set j (some rh) } t
    else run_for pf { l with filters := l.filters.set j (some rh) }
      ((j + 1) % 4294967296) t
  | Pt.run_L77 l => ⟨[], [], t, Request.fiber_switch rh l.i (Pt.run_L78 l)⟩
  | Pt.run_L78 l =>
    if l.p < l.filters.length then
      run_incr pf { l with filters := l.filters.set l.p (some rh),
                           p := (l.p + 1) % 4294967296 } t
    else undefinedStep t
  | Pt.run_L92 l i =>
    ⟨[], [], t, Request.fiber_free rh
      (Pt.run_L93 { l with filters := l.filters.set i (some rh) } i)⟩
  | Pt.run_L93 l i => run_cleanup l ((i + 1) % 4294967296) [] t
  | Pt.run =>
    run_while pf
      { quiet := t.a, max_primes := toUInt32 t.b, p := 0, i := 2,
        filters := if pf.malloc_ok (toUInt32 t.b) then List.replicate (toUInt32 t.b) none
          else [],
        caller := rh } t
  | _ => undefinedStep t

/-- The function `prog` (lines 102 to 127), from each of its program points.
`argc` is the length of `argv`; reading `argv[n_idx]` at or beyond `argv[argc]` is
undefined. -/
def prog (pf : Platform) (pt : Pt) (rv : Word) (rh : FiberHandle) (t : tuple) :
    Step Entry Pt tuple :=
  match pt with
  | Pt.prog argv =>
    match argv.get? (if argv.length = 2 then 1 else 2) with
    | none => undefinedStep t
    | some s =>
      if !sanitise_input_number s then print_input_error_and_exit t
      else if decide ((strtol pf s).1 ≤ 0) &&
          ((strtol pf s).2 == Errno.ERANGE || (strtol pf s).2 == Errno.EINVAL
            || decide ((strtol pf s).1 > MAX_PRIMES_LIMIT)) then
        print_input_error_and_exit t
      else if argv.length < 2 ∨ argv.length > 3 then
        ⟨"usage: ".toList ++ argv.headD [] ++ " [-q] <n>".toList ++ [Char.ofNat 10], [], t,
          Request.exit 1⟩
      else
        ⟨[], [], ⟨argv.length == 3 && argv.get? 1 == some "-q".toList, (strtol pf s).1⟩,
          Request.fiber_alloc Entry.run Pt.prog_L123⟩
  | Pt.prog_L122 quiet result =>
    ⟨[], [], ⟨quiet, result⟩, Request.fiber_alloc Entry.run Pt.prog_L123⟩
  | Pt.prog_L123 => ⟨[], [], t, Request.fiber_switch rh 1 Pt.prog_L124⟩
  | Pt.prog_L124 => ⟨[], [], t, Request.fiber_free rh (Pt.prog_L125 (toInt32 rv))⟩
  | Pt.prog_L125 fiber_result => ⟨[], [], t, Request.ret fiber_result⟩
  | _ => undefinedStep t

/-- The program `sieve_switch.c`. -/
def program (pf : Platform) : Prog Entry Pt tuple where
  entry := fun e =>
    match e with
    | Entry.run => Pt.run
    | Entry.filter => Pt.filter
  code := fun pt rv rh t =>
    match pt with
    | Pt.prog _ => prog pf pt rv rh t
    | Pt.prog_L122 _ _ => prog pf pt rv rh t
    | Pt.prog_L123 => prog pf pt rv rh t
    | Pt.prog_L124 => prog pf pt rv rh t
    | Pt.prog_L125 _ => prog pf pt rv rh t
    | Pt.run => run pf pt rv rh t
    | Pt.run_L62 _ _ => run pf pt rv rh t
    | Pt.run_L77 _ => run pf pt rv rh t
    | Pt.run_L78 _ => run pf pt rv rh t
    | Pt.run_L92 _ _ => run pf pt rv rh t
    | Pt.run_L93 _ _ => run pf pt rv rh t
    | Pt.filter => filter pt rv rh t
    | Pt.filter_L22 _ => filter pt rv rh t
    | Pt.filter_L25 _ => filter pt rv rh t

/-- The call `fiber_main(prog, argc, argv)` of `main`. -/
def main (argv : List (List Char)) : Machine Pt tuple :=
  fiber_main (Pt.prog argv) ⟨false, 0⟩

/-- The machine at line 122 of `prog`, with `quiet` and `result` already computed
from the arguments. -/
def mainFrom (quiet : Bool) (result : Int) : Machine Pt tuple :=
  fiber_main (Pt.prog_L122 quiet result) ⟨false, 0⟩

end SieveSwitch


/-! ## Shapes of the reachable states of the sieve -/

namespace SieveSwitch

open FiberC

/-- Record of the root while `run` and the filters execute: suspended in the
switch of line 124. -/
def rootRec : FiberRec Pt := ⟨FiberState.Suspended, Pt.prog_L124, none, some 1⟩

/-- The array `filters` of size `M` once the first `p` filters are stored. -/
def arr (M p : Nat) : List (Option FiberHandle) :=
  (List.range p).map (fun k => some (some (k + 2))) ++ List.replicate (M - p) none

/-- The locals of `run` with `p` filters stored and candidate `c`. -/
def locals (quiet : Bool) (M p : Nat) (c : Int) : RunLocals :=
  ⟨quiet, M, p, c, arr M p, some 0⟩

/-- Program point of a suspended filter: its initial yield (line 22) when no
candidate has reached it yet, else the switch inside its loop (line 25). -/
def parkedPt (f : Nat × Bool) : Pt :=
  if f.2 then Pt.filter_L25 (f.1 : Int) else Pt.filter_L22 (f.1 : Int)

/-- Record of a suspended filter. -/
def parked (f : Nat × Bool) : Option (FiberRec Pt) :=
  some ⟨FiberState.Suspended, parkedPt f, some 1, some 1⟩

/-- Record of the filter that is running. -/
def active (f : Nat × Bool) : Option (FiberRec Pt) :=
  some ⟨FiberState.Running, parkedPt f, some 1, some 1⟩

/-- Record of a filter whose entry function has returned. -/
def finished (f : Nat × Bool) : Option (FiberRec Pt) :=
  some ⟨FiberState.Finished, parkedPt f, some 1, some 1⟩

/-- A running machine whose fiber table is the root, `run` and the filters `T`. -/
def mk (t : tuple) (r0 r1 : Option (FiberRec Pt)) (T : List (Option (FiberRec Pt)))
    (cur : Nat) (pc : Pt) (rv : Word) (rh : FiberHandle) (out : List Char)
    (freed : List (Nat × FiberState)) (rf : Option FiberHandle) : Machine Pt tuple :=
  { fibers := r0 :: r1 :: T, current := cur, pc := pc, rv := rv, rh := rh, mem := t,
    stdout := out, stderr := [], freed := freed, returned_from := rf,
    status := Status.running }

/-- The filter table once the candidate has wrapped to `INT32_MIN`: the first `j`
filters have returned, the others are suspended. -/
def wtab (F : List (Nat × Bool)) (j : Nat) : List (Option (FiberRec Pt)) :=
  (F.take j).map finished ++ (F.drop j).map parked

/-- Record of the filter started with `my_prime = INT32_MIN`, at its initial yield. -/
def minFilter : Option (FiberRec Pt) :=
  some ⟨FiberState.Suspended, Pt.filter_L22 (-2147483648), some 1, some 1⟩

/-- The primes below `c`, in increasing order. -/
def primesBelow (c : Nat) : List Nat := (List.range c).filter (fun q => decide (Nat.Prime q))

end SieveSwitch


namespace SieveSwitch
open FiberC

/-- The filter table during cleanup: the first `j` filters freed, the others
suspended. -/
def ctab (F : List (Nat × Bool)) (j : Nat) : List (Option (FiberRec Pt)) :=
  List.replicate j none ++ (F.drop j).map parked

/-- The record of frees after the first `j` filters are freed. -/
def frl (j : Nat) : List (Nat × FiberState) :=
  (List.range j).map (fun k => (k + 2, FiberState.Finished))

/-- The states of the sieve from the start of `prog` to the end of the main loop of
`run`, for `result = n` (so `max_primes = M`), each with a rank that decreases along
the execution.  `F` lists the filters (seed, reached by a candidate), `c` is the
candidate `i`, `j` the index of the `for` loop. -/
inductive MainShape (pf : Platform) (q : Bool) (n : Int) : Nat → Machine Pt tuple → Prop
  | init0 : MainShape pf q n (2147483648 * (2 * toUInt32 n + 6) + 3) (mainFrom q n)
  | init1 : MainShape pf q n (2147483648 * (2 * toUInt32 n + 6) + 2)
      (exec (program pf) SlotRule.waker 1 (mainFrom q n))
  | entry : MainShape pf q n (2147483648 * (2 * toUInt32 n + 6) + 1)
      (mk ⟨q, n⟩ (some rootRec) (some ⟨FiberState.Running, Pt.run, some 0, none⟩) [] 1
        Pt.run 1 (some 0) [] [] none)
  | route (F : List (Nat × Bool)) (c j : Nat) (f : Nat × Bool) (lc : FiberHandle)
      (out : List Char)
      (hF : F.map Prod.fst = primesBelow c) (hc : 2 ≤ c) (hc2 : c ≤ 2147483647)
      (hp : F.length < toUInt32 n) (hj : F[j]? = some f)
      (hnd : ∀ k g, k < j → F[k]? = some g → ¬ g.1 ∣ c) :
      MainShape pf q n ((2147483648 - c) * (2 * toUInt32 n + 6) + 2 * (F.length - j) + 4)
        (mk ⟨q, n⟩ (some rootRec)
          (some ⟨FiberState.Suspended, Pt.run_L62 (locals q (toUInt32 n) F.length c) j, lc,
            some (j + 2)⟩)
          ((F.map parked).set j (active f)) (j + 2) (parkedPt f) (c : Int) (some 1) out []
          (some (some 1)))
  | reply (F : List (Nat × Bool)) (c j : Nat) (f : Nat × Bool) (r1 : FiberRec Pt)
      (out : List Char) (hr1 : r1.state = FiberState.Running)
      (hF : F.map Prod.fst = primesBelow c) (hc : 2 ≤ c) (hc2 : c ≤ 2147483647)
      (hp : F.length < toUInt32 n) (hj : F[j]? = some f)
      (hnd : ∀ k g, k < j → F[k]? = some g → ¬ g.1 ∣ c) :
      MainShape pf q n ((2147483648 - c) * (2 * toUInt32 n + 6) + 2 * (F.length - j) + 3)
        (mk ⟨q, n⟩ (some rootRec) (some r1) (F.map parked) 1
          (Pt.run_L62 (locals q (toUInt32 n) F.length c) j)
          (if Int.tmod (c : Int) (f.1 : Int) = 0 then 1 else 0) (some (j + 2)) out []
          (some (some (j + 2))))
  | alloc (F : List (Nat × Bool)) (c : Nat) (r1 : FiberRec Pt) (out : List Char)
      (hr1 : r1.state = FiberState.Running)
      (hF : F.map Prod.fst = primesBelow c) (hc : Nat.Prime c) (hc2 : c ≤ 2147483647)
      (hp : F.length < toUInt32 n) :
      MainShape pf q n ((2147483648 - c) * (2 * toUInt32 n + 6) + 3)
        (mk ⟨q, n⟩ (some rootRec) (some r1)
          (F.map parked ++ [some ⟨FiberState.Fresh, Pt.filter, none, none⟩]) 1
          (Pt.run_L77 (locals q (toUInt32 n) F.length c)) 0 (some (F.length + 2)) out []
          none)
  | fresh (F : List (Nat × Bool)) (c : Nat) (lc : FiberHandle) (out : List Char)
      (hF : F.map Prod.fst = primesBelow c) (hc : Nat.Prime c) (hc2 : c ≤ 2147483647)
      (hp : F.length < toUInt32 n) :
      MainShape pf q n ((2147483648 - c) * (2 * toUInt32 n + 6) + 2)
        (mk ⟨q, n⟩ (some rootRec)
          (some ⟨FiberState.Suspended, Pt.run_L78 (locals q (toUInt32 n) F.length c), lc,
            some (F.length + 2)⟩)
          (F.map parked ++ [some ⟨FiberState.Running, Pt.filter, some 1, none⟩])
          (F.length + 2) Pt.filter (c : Int) (some 1) out [] none)
  | stored (F : List (Nat × Bool)) (c : Nat) (r1 : FiberRec Pt) (out : List Char)
      (hr1 : r1.state = FiberState.Running)
      (hF : F.map Prod.fst = primesBelow c) (hc : Nat.Prime c) (hc2 : c ≤ 2147483647)
      (hp : F.length < toUInt32 n) :
      MainShape pf q n ((2147483648 - c) * (2 * toUInt32 n + 6) + 1)
        (mk ⟨q, n⟩ (some rootRec) (some r1) (F.map parked ++ [parked (c, false)]) 1
          (Pt.run_L78 (locals q (toUInt32 n) F.length c)) 0 (some (F.length + 2)) out []
          (some (some (F.length + 2))))

/-- The states of the sieve from the end of the main loop of `run` to the return of
`prog`, with a rank that decreases by one at each step.  `F` lists the
`max_primes` filters, `c` is the successor of the last candidate tested (2 when there
is no filter, else the successor of the last prime), whose `int32_t` is the final
value of `i`; `j` is the index of the cleanup loop. -/
inductive CleanShape (pf : Platform) (q : Bool) (n : Int) : Nat → Machine Pt tuple → Prop
  | wind (F : List (Nat × Bool)) (c j : Nat) (f : Nat × Bool) (lc : FiberHandle)
      (out : List Char)
      (hF : F.map Prod.fst = primesBelow c) (hc : 2 ≤ c) (hc2 : c ≤ 2147483648)
      (hp : F.length = toUInt32 n) (hj : F[j]? = some f)
      (hx : (c = 2 ∧ F = []) ∨ Nat.Prime (c - 1)) :
      CleanShape pf q n (3 * (F.length - j) + 2)
        (mk ⟨q, n⟩ (some rootRec)
          (some ⟨FiberState.Suspended,
            Pt.run_L92 (locals q (toUInt32 n) F.length (toInt32 c)) j, lc, some (j + 2)⟩)
          ((ctab F j).set j (active f)) (j + 2) (parkedPt f) 0 (some 1) out (frl j)
          (some (some 1)))
  | back (F : List (Nat × Bool)) (c j : Nat) (f : Nat × Bool) (r1 : FiberRec Pt)
      (out : List Char) (hr1 : r1.state = FiberState.Running)
      (hF : F.map Prod.fst = primesBelow c) (hc : 2 ≤ c) (hc2 : c ≤ 2147483648)
      (hp : F.length = toUInt32 n) (hj : F[j]? = some f)
      (hx : (c = 2 ∧ F = []) ∨ Nat.Prime (c - 1)) :
      CleanShape pf q n (3 * (F.length - j) + 1)
        (mk ⟨q, n⟩ (some rootRec) (some r1) ((ctab F j).set j (finished f)) 1
          (Pt.run_L92 (locals q (toUInt32 n) F.length (toInt32 c)) j) 0 (some (j + 2)) out
          (frl j) (some (some (j + 2))))
  | freed (F : List (Nat × Bool)) (c j : Nat) (r1 : FiberRec Pt) (out : List Char)
      (hr1 : r1.state = FiberState.Running)
      (hF : F.map Prod.fst = primesBelow c) (hc : 2 ≤ c) (hc2 : c ≤ 2147483648)
      (hp : F.length = toUInt32 n) (hj : j < F.length)
      (hx : (c = 2 ∧ F = []) ∨ Nat.Prime (c - 1)) :
      CleanShape pf q n (3 * (F.length - j))
        (mk ⟨q, n⟩ (some rootRec) (some r1) (ctab F (j + 1)) 1
          (Pt.run_L93 (locals q (toUInt32 n) F.length (toInt32 c)) j) 0 none out
          (frl (j + 1)) none)
  | root (F : List (Nat × Bool)) (c : Nat) (k : Pt) (lc : FiberHandle) (out : List Char)
      (hF : F.map Prod.fst = primesBelow c) (hc : 2 ≤ c) (hc2 : c ≤ 2147483648)
      (hp : F.length = toUInt32 n) (hx : (c = 2 ∧ F = []) ∨ Nat.Prime (c - 1))
      (hk : k = Pt.run ∨
        ∃ j, k = Pt.run_L93 (locals q (toUInt32 n) F.length (toInt32 c)) j) :
      CleanShape pf q n 2
        (mk ⟨q, n⟩ (some ⟨FiberState.Running, Pt.prog_L124, none, some 1⟩)
          (some ⟨FiberState.Finished, k, lc, some 0⟩) (ctab F F.length) 0 Pt.prog_L124 0
          (some 1) out (frl F.length) (some (some 1)))
  | last (F : List (Nat × Bool)) (c : Nat) (out : List Char)
      (hF : F.map Prod.fst = primesBelow c) (hc : 2 ≤ c) (hc2 : c ≤ 2147483648)
      (hp : F.length = toUInt32 n) (hx : (c = 2 ∧ F = []) ∨ Nat.Prime (c - 1)) :
      CleanShape pf q n 1
        (mk ⟨q, n⟩ (some ⟨FiberState.Running, Pt.prog_L124, none, some 1⟩) none
          (ctab F F.length) 0 (Pt.prog_L125 0) 0 none out
          (frl F.length ++ [(1, FiberState.Finished)]) none)
  | done (F : List (Nat × Bool)) (c : Nat) (out : List Char)
      (hF : F.map Prod.fst = primesBelow c) (hc : 2 ≤ c) (hc2 : c ≤ 2147483648)
      (hp : F.length = toUInt32 n) (hx : (c = 2 ∧ F = []) ∨ Nat.Prime (c - 1)) :
      CleanShape pf q n 0
        { mk ⟨q, n⟩ (some ⟨FiberState.Running, Pt.prog_L124, none, some 1⟩) none
            (ctab F F.length) 0 (Pt.prog_L125 0) 0 none out
            (frl F.length ++ [(1, FiberState.Finished)]) none with
          status := Status.returned 0 }

/-- The states of the sieve once the candidate has wrapped to `INT32_MIN` inside the
main loop (`max_primes` above the number of primes up to `INT32_MAX`), with a rank
that decreases by one at each step.  `F` lists the filters of all these primes: each
receives the negative candidate and returns; a filter is started with `INT32_MIN`;
the next switch into `filters[0]`, which has returned, is the fatal error. -/
inductive WrapShape (pf : Platform) (q : Bool) (n : Int) : Nat → Machine Pt tuple → Prop
  | route (F : List (Nat × Bool)) (j : Nat) (f : Nat × Bool) (lc : FiberHandle)
      (out : List Char)
      (hF : F.map Prod.fst = primesBelow 2147483648) (hp : F.length < toUInt32 n)
      (hj : F[j]? = some f) :
      WrapShape pf q n (2 * (F.length - j) + 3)
        (mk ⟨q, n⟩ (some rootRec)
          (some ⟨FiberState.Suspended,
            Pt.run_L62 (locals q (toUInt32 n) F.length (-2147483648)) j, lc, some (j + 2)⟩)
          ((wtab F j).set j (active f)) (j + 2) (parkedPt f) (-2147483648) (some 1) out []
          (some (some 1)))
  | reply (F : List (Nat × Bool)) (j : Nat) (f : Nat × Bool) (r1 : FiberRec Pt)
      (out : List Char) (hr1 : r1.state = FiberState.Running)
      (hF : F.map Prod.fst = primesBelow 2147483648) (hp : F.length < toUInt32 n)
      (hj : F[j]? = some f) :
      WrapShape pf q n (2 * (F.length - j) + 2)
        (mk ⟨q, n⟩ (some rootRec) (some r1) (wtab F (j + 1)) 1
          (Pt.run_L62 (locals q (toUInt32 n) F.length (-2147483648)) j) 0 (some (j + 2))
          out [] (some (some (j + 2))))
  | alloc (F : List (Nat × Bool)) (r1 : FiberRec Pt) (out : List Char)
      (hr1 : r1.state = FiberState.Running)
      (hF : F.map Prod.fst = primesBelow 2147483648) (hp : F.length < toUInt32 n) :
      WrapShape pf q n 3
        (mk ⟨q, n⟩ (some rootRec) (some r1)
          (wtab F F.length ++ [some ⟨FiberState.Fresh, Pt.filter, none, none⟩]) 1
          (Pt.run_L77 (locals q (toUInt32 n) F.length (-2147483648))) 0
          (some (F.length + 2)) out [] none)
  | fresh (F : List (Nat × Bool)) (lc : FiberHandle) (out : List Char)
      (hF : F.map Prod.fst = primesBelow 2147483648) (hp : F.length < toUInt32 n) :
      WrapShape pf q n 2
        (mk ⟨q, n⟩ (some rootRec)
          (some ⟨FiberState.Suspended,
            Pt.run_L78 (locals q (toUInt32 n) F.length (-2147483648)), lc,
            some (F.length + 2)⟩)
          (wtab F F.length ++ [some ⟨FiberState.Running, Pt.filter, some 1, none⟩])
          (F.length + 2) Pt.filter (-2147483648) (some 1) out [] none)
  | stored (F : List (Nat × Bool)) (r1 : FiberRec Pt) (out : List Char)
      (hr1 : r1.state = FiberState.Running)
      (hF : F.map Prod.fst = primesBelow 2147483648) (hp : F.length < toUInt32 n) :
      WrapShape pf q n 1
        (mk ⟨q, n⟩ (some rootRec) (some r1) (wtab F F.length ++ [minFilter]) 1
          (Pt.run_L78 (locals q (toUInt32 n) F.length (-2147483648))) 0
          (some (F.length + 2)) out [] (some (some (F.length + 2))))
  | fatal (F : List (Nat × Bool)) (r1 : FiberRec Pt) (out : List Char)
      (hr1 : r1.state = FiberState.Running)
      (hF : F.map Prod.fst = primesBelow 2147483648) (hp : F.length < toUInt32 n) :
      WrapShape pf q n 0
        { mk ⟨q, n⟩ (some rootRec) (some r1) (wtab F F.length ++ [minFilter]) 1
            (Pt.run_L78 (locals q (toUInt32 n) F.length (-2147483648))) 0
            (some (F.length + 2)) out [] (some (some (F.length + 2))) with
          status := Status.fatal }

/-- The states of the sieve after the entry of `run` when `malloc` has failed and
`max_primes` is not 0: the candidate 2 is declared prime, its filter is started,
and the write of line 79 goes through the `NULL` array. -/
inductive NullShape (pf : Platform) (q : Bool) (n : Int) : Nat → Machine Pt tuple → Prop
  | alloc (r1 : FiberRec Pt) (out : List Char) (hr1 : r1.state = FiberState.Running)
      (hm : pf.malloc_ok (toUInt32 n) = false) (hM : 0 < toUInt32 n) :
      NullShape pf q n 3
        (mk ⟨q, n⟩ (some rootRec) (some r1)
          [some ⟨FiberState.Fresh, Pt.filter, none, none⟩] 1
          (Pt.run_L77 ⟨q, toUInt32 n, 0, 2, [], some 0⟩) 0 (some 2) out [] none)
  | fresh (lc : FiberHandle) (out : List Char)
      (hm : pf.malloc_ok (toUInt32 n) = false) (hM : 0 < toUInt32 n) :
      NullShape pf q n 2
        (mk ⟨q, n⟩ (some rootRec)
          (some ⟨FiberState.Suspended, Pt.run_L78 ⟨q, toUInt32 n, 0, 2, [], some 0⟩, lc,
            some 2⟩)
          [some ⟨FiberState.Running, Pt.filter, some 1, none⟩] 2 Pt.filter 2 (some 1) out
          [] none)
  | stored (r1 : FiberRec Pt) (out : List Char) (hr1 : r1.state = FiberState.Running)
      (hm : pf.malloc_ok (toUInt32 n) = false) (hM : 0 < toUInt32 n) :
      NullShape pf q n 1
        (mk ⟨q, n⟩ (some rootRec) (some r1) [parked (2, false)] 1
          (Pt.run_L78 ⟨q, toUInt32 n, 0, 2, [], some 0⟩) 0 (some 2) out [] (some (some 2)))
  | crashed (r1 : FiberRec Pt) (out : List Char) (hr1 : r1.state = FiberState.Running)
      (hm : pf.malloc_ok (toUInt32 n) = false) (hM : 0 < toUInt32 n) :
      NullShape pf q n 0
        { mk ⟨q, n⟩ (some rootRec) (some r1) [parked (2, false)] 1
            (Pt.run_L78 ⟨q, toUInt32 n, 0, 2, [], some 0⟩) 0 (some 2) out []
            (some (some 2)) with
          status := Status.undefined }

end SieveSwitch


/-! ## Properties of executions -/

namespace FiberC

/-- The request the running code makes next. -/
def nextRequest {E K G : Type} (P : Prog E K G) (m : Machine K G) : Request E K :=
  (P.code m.pc m.rv m.rh m.mem).req

/-- Destination of the transfer that the next step performs, if it performs one: the
`dst` of `fiber_switch` and `fiber_switch_return`, and the `last_caller` to which the
trampoline transfers when an entry function returns. -/
def nextTransfer {E K G : Type} (P : Prog E K G) (m : Machine K G) : Option FiberHandle :=
  match m.status with
  | Status.running =>
    match nextRequest P m with
    | Request.fiber_switch dst _ _ => some dst
    | Request.fiber_switch_return dst _ => some dst
    | Request.ret _ =>
      if m.current = 0 then none else some ((m.lookup m.current).bind (fun c => c.last_caller))
    | _ => none
  | _ => none

/-- Modelled from the spec: the preconditions of a transfer (section 4.E): `dst` is
a live handle in state `Fresh` or `Suspended` and is not the current fiber. -/
def transferOK {K G : Type} (m : Machine K G) (dst : FiberHandle) : Bool :=
  match dst with
  | none => false
  | some d =>
    d != m.current &&
      match m.lookup d with
      | some r => r.state == FiberState.Fresh || r.state == FiberState.Suspended
      | none => false

/-- The next step performs no transfer, or one whose preconditions hold. -/
def switchSafe {E K G : Type} (P : Prog E K G) (m : Machine K G) : Bool :=
  match nextTransfer P m with
  | none => true
  | some dst => transferOK m dst

/-- Modelled from the spec: `fiber_free` is legal on a live handle in state `Fresh`,
`Suspended` or `Finished` (section 3). -/
def freeOK {K G : Type} (m : Machine K G) (h : FiberHandle) : Bool :=
  match h with
  | none => false
  | some d =>
    match m.lookup d with
    | some r => r.state == FiberState.Fresh || r.state == FiberState.Suspended
        || r.state == FiberState.Finished
    | none => false

/-- The next step frees nothing, or a handle that is legal to free. -/
def freeSafe {E K G : Type} (P : Prog E K G) (m : Machine K G) : Bool :=
  match m.status with
  | Status.running =>
    match nextRequest P m with
    | Request.fiber_free h _ => freeOK m h
    | _ => true
  | _ => true

/-- Every fiber that `fiber_alloc` returned (every handle but the root's) is freed and
appears exactly once in the record of frees. -/
def allFreedOnce {K G : Type} (m : Machine K G) : Bool :=
  (List.range m.fibers.length).all (fun d =>
    d == 0 ||
      match m.fibers.get? d with
      | some none => (m.freed.map Prod.fst).count d == 1
      | _ => false)

/-- Once `prog` has returned, every allocated fiber has been freed exactly once. -/
def freedAtReturn {K G : Type} (m : Machine K G) : Bool :=
  match m.status with
  | Status.returned _ => allFreedOnce m
  | _ => true

/-- In a state in which a `fiber_switch(h, v, &h)` call has just returned, the slot
`h` holds the handle it held when the call was made. -/
def handleStable {K G : Type} (m : Machine K G) : Bool :=
  match m.status, m.returned_from with
  | Status.running, some h => m.rh == h
  | _, _ => true

end FiberC

namespace SieveSwitch

open FiberC

/-- The seed `my_prime` of a filter suspended at its initial yield or in its loop. -/
def seedOf : Pt → Option Int
  | Pt.filter_L22 q => some q
  | Pt.filter_L25 q => some q
  | _ => none

/-- A platform for concrete runs: `%p` prints `0x1`, `strtol` leaves `errno` alone
when it converts nothing, `malloc` succeeds, the byte after `sbuf` is 0. -/
def pf0 : Platform := ⟨['0', 'x', '1'], false, fun _ => true, Char.ofNat 0⟩

/-- A platform on which `malloc` fails for an array of 2^32 - 1 handles. -/
def pf1 : Platform :=
  ⟨['0', 'x', '1'], false, fun k => decide (k < 4294967295), Char.ofNat 0⟩

end SieveSwitch


/-! ## Observations on the states of hello -/

namespace HelloSwitch

open FiberC

/-- The index `i` at which the next step executes `putc(s[i], stdout)` in `hello`
(line 35): on entry to the loop after `fiber_alloc`, or when the test of line 37
sends it round again. -/
def helloIndex (m : Machine Pt Bool) : Option Nat :=
  match m.status, m.pc with
  | Status.running, Pt.hello_L29 arg _ => some (toUInt32 arg)
  | Status.running, Pt.hello_L36 main_fiber =>
    if !m.mem && main_fiber != none then some (toUInt32 m.rv) else none
  | _, _ => none

/-- The index `i` at which the next step executes `putc(s[i], stdout)` in `world`
(line 18): on entry, or when the test of line 21 sends it round again. -/
def worldIndex (m : Machine Pt Bool) : Option Nat :=
  match m.status, m.pc with
  | Status.running, Pt.world => some (toUInt32 m.rv)
  | Status.running, Pt.world_L20 =>
    if toUInt32 m.rv < strlen world_s then some (toUInt32 m.rv) else none
  | _, _ => none

/-- Every index about to be read is below the length of its string. -/
def indexInBounds (m : Machine Pt Bool) : Bool :=
  (helloIndex m).all (fun i => decide (i < strlen hello_s)) &&
    (worldIndex m).all (fun i => decide (i < strlen world_s))

end HelloSwitch

/-! ## Observations on the states of the sieve -/

namespace SieveSwitch

open FiberC

/-- The locals of `run` carried by one of its program points. -/
def localsOf : Pt → Option RunLocals
  | Pt.run_L62 l _ => some l
  | Pt.run_L77 l => some l
  | Pt.run_L78 l => some l
  | Pt.run_L92 l _ => some l
  | Pt.run_L93 l _ => some l
  | _ => none

/-- The locals of `run` (handle 1) in a state: those of its program point while it
runs, else those of its saved context. -/
def runLocals (m : Machine Pt tuple) : Option RunLocals :=
  if m.current = 1 then localsOf m.pc
  else (m.lookup 1).bind (fun r => localsOf r.saved_context)

/-- The candidate `i` of `run` in a state. -/
def candOf (m : Machine Pt tuple) : Option Int := (runLocals m).map (fun l => l.i)

/-- The locals of `run` carried by a program point inside its main loop (lines 53 to
82). -/
def loopLocalsOf : Pt → Option RunLocals
  | Pt.run_L62 l _ => some l
  | Pt.run_L77 l => some l
  | Pt.run_L78 l => some l
  | _ => none

/-- The candidate that `run` is testing: the value of `i` in a running state in which
`run` is inside the body of its main loop. -/
def testing (m : Machine Pt tuple) : Option Int :=
  match m.status with
  | Status.running =>
    (if m.current = 1 then loopLocalsOf m.pc
      else (m.lookup 1).bind (fun r => loopLocalsOf r.saved_context)).map (fun l => l.i)
  | _ => none

/-- From one state to the next the candidate stays, grows by one, appears as 2, or
disappears with `run` freed. -/
def candStepOK (m m1 : Machine Pt tuple) : Bool :=
  match candOf m, candOf m1 with
  | none, none => true
  | none, some c1 => c1 == 2
  | some c, some c1 => c1 == c || c1 == c + 1
  | some _, none => (m1.lookup 1).isNone

/-- The state in which `run` is suspended in the switch of line 62: index `j` of the
filter switched into, candidate `i` and number `p` of filters. -/
def asking (m : Machine Pt tuple) : Option (Nat × Int × Nat) :=
  match m.status, m.lookup 1 with
  | Status.running, some ⟨FiberState.Suspended, Pt.run_L62 l j, _, _⟩ => some (j, l.i, l.p)
  | _, _ => none

/-- The next step of `run` executes line 81 with `i` equal to `INT32_MAX`: after a
`break` of the `for` loop (line 63) or after storing a new filter (line 79). -/
def intOverflow (m : Machine Pt tuple) : Bool :=
  m.current == 1 &&
    match m.pc with
    | Pt.run_L62 l _ => m.rv != 0 && l.i == 2147483647
    | Pt.run_L78 l => l.i == 2147483647
    | _ => false

/-- When `run` is about to execute `filters[p++] = filter_fiber` (line 79), the index
`p` is below `max_primes`, the size of the array. -/
def writeInBounds (m : Machine Pt tuple) : Bool :=
  match m.status, m.pc with
  | Status.running, Pt.run_L78 l =>
    decide (l.p < l.max_primes) && l.filters.length == l.max_primes
  | _, _ => true

/-- When `run` is suspended in a switch into `filters[j]` (lines 62 and 92), `j` is
below `p` and the slot holds the handle of the fiber that is now running. -/
def readsWritten (m : Machine Pt tuple) : Bool :=
  match m.status, m.lookup 1 with
  | Status.running, some ⟨FiberState.Suspended, Pt.run_L62 l j, _, _⟩ =>
    decide (j < l.p) && l.filters.get? j == some (some (some m.current))
  | Status.running, some ⟨FiberState.Suspended, Pt.run_L92 l j, _, _⟩ =>
    decide (j < l.p) && l.filters.get? j == some (some (some m.current))
  | _, _ => true

/-- The first `p` filters (handles from 2) are suspended in a switch of `filter`: the
initial yield (line 22) or the switch inside the loop (line 25). -/
def filtersParked (m : Machine Pt tuple) (p : Nat) : Bool :=
  (List.range p).all (fun k =>
    match m.lookup (k + 2) with
    | some r => r.state == FiberState.Suspended && (seedOf r.saved_context).isSome
    | none => false)

end SieveSwitch


/-! ## General facts about `exec` -/

namespace FiberC

theorem step_of_not_running {E K G : Type} (P : Prog E K G) (rule : SlotRule)
    (m : Machine K G) (h : m.status ≠ Status.running) : step P rule m = m := by
  unfold step
  split
  · rename_i h1
    exact absurd h1 h
  · rfl

theorem exec_of_not_running {E K G : Type} (P : Prog E K G) (rule : SlotRule)
    (fuel : Nat) (m : Machine K G) (h : m.status ≠ Status.running) :
    exec P rule fuel m = m := by
  induction fuel with
  | zero => rfl
  | succ k ih => rw [exec, step_of_not_running P rule m h, ih]

theorem exec_add {E K G : Type} (P : Prog E K G) (rule : SlotRule) (a b : Nat)
    (m : Machine K G) : exec P rule (a + b) m = exec P rule b (exec P rule a m) := by
  induction a generalizing m with
  | zero => simp [exec]
  | succ k ih => rw [Nat.succ_add, exec, exec, ih]

theorem exec_succ_right {E K G : Type} (P : Prog E K G) (rule : SlotRule) (a : Nat)
    (m : Machine K G) : exec P rule (a + 1) m = step P rule (exec P rule a m) := by
  rw [exec_add]
  rfl

/-- A property kept by every step holds along the whole execution. -/
theorem exec_invariant {E K G : Type} (P : Prog E K G) (rule : SlotRule)
    (Inv : Machine K G → Prop) (hstep : ∀ m, Inv m → Inv (step P rule m))
    (fuel : Nat) (m : Machine K G) (h : Inv m) : Inv (exec P rule fuel m) := by
  induction fuel generalizing m with
  | zero => exact h
  | succ k ih => exact ih _ (hstep m h)

/-- Once an execution has stopped after `a` steps, more fuel changes nothing. -/
theorem exec_stable {E K G : Type} (P : Prog E K G) (rule : SlotRule) (a fuel : Nat)
    (m : Machine K G) (h : (exec P rule a m).status ≠ Status.running) (hle : a ≤ fuel) :
    exec P rule fuel m = exec P rule a m := by
  obtain ⟨b, rfl⟩ := Nat.exists_eq_add_of_le hle
  rw [exec_add, exec_of_not_running P rule b _ h]

/-- A decidable property checked on the first `a + 1` states of an execution that
has stopped after `a` steps holds for every amount of fuel. -/
theorem exec_forall_of_bounded {E K G : Type} (P : Prog E K G) (rule : SlotRule)
    (Q : Machine K G → Prop) (a : Nat) (m : Machine K G)
    (hstop : (exec P rule a m).status ≠ Status.running)
    (hall : ∀ k, k < a + 1 → Q (exec P rule k m)) (fuel : Nat) :
    Q (exec P rule fuel m) := by
  by_cases hle : fuel < a + 1
  · exact hall fuel hle
  · rw [exec_stable P rule a fuel m hstop (by omega)]
    exact hall a (by omega)

end FiberC


namespace SieveSwitch
open FiberC

/-! ## Single steps of the sieve machine -/

theorem toInt32_id (i : Int) (h1 : -2147483648 ≤ i) (h2 : i ≤ 2147483647) :
    toInt32 i = i := by
  unfold toInt32
  omega

/-- `run` switches into the parked filter `j`. -/
theorem step_switch_parked (pf : Platform) (t : tuple) (r0 : Option (FiberRec Pt))
    (r1 : FiberRec Pt) (T : List (Option (FiberRec Pt))) (pc k : Pt) (rv v : Int)
    (rh : FiberHandle) (out o : List Char) (fr : List (Nat × FiberState))
    (rf : Option FiberHandle) (j : Nat) (f : Nat × Bool)
    (hT : T[j]? = some (parked f))
    (hcode : (program pf).code pc rv rh t =
      ⟨o, [], t, Request.fiber_switch (some (j + 2)) v k⟩) :
    step (program pf) SlotRule.waker (mk t r0 (some r1) T 1 pc rv rh out fr rf) =
      mk t r0 (some ⟨FiberState.Suspended, k, r1.last_caller, some (j + 2)⟩)
        (T.set j (active f)) (j + 2) (parkedPt f) v (some 1) (out ++ o) fr
        (some (some 1)) := by
  simp only [step, mk, hcode]
  simp [transfer, Machine.lookup, hT, parked, active]

/-- The running filter `j` answers a positive candidate and parks in its loop. -/
theorem step_filter_reply (pf : Platform) (t : tuple) (r0 : Option (FiberRec Pt))
    (T : List (Option (FiberRec Pt))) (k : Pt) (lc sw : FiberHandle) (v : Int)
    (out : List Char) (fr : List (Nat × FiberState)) (rf : Option FiberHandle)
    (j : Nat) (f : Nat × Bool) (hj : j < T.length) (hq : f.1 ≠ 0)
    (hv : 0 < v) (hv2 : v ≤ 2147483647) :
    step (program pf) SlotRule.waker
      (mk t r0 (some ⟨FiberState.Suspended, k, lc, sw⟩) (T.set j (active f)) (j + 2)
        (parkedPt f) v (some 1) out fr rf) =
      mk t r0 (some ⟨FiberState.Running, k, lc, sw⟩)
        (T.set j (parked (f.1, true))) 1 k
        (if Int.tmod v (f.1 : Int) = 0 then 1 else 0) (some (j + 2)) out fr (some sw) := by
  have hcode : (program pf).code (parkedPt f) v (some 1) t =
      ⟨[], [], t, Request.fiber_switch (some 1)
        (if Int.tmod v (f.1 : Int) = 0 then 1 else 0) (Pt.filter_L25 (f.1 : Int))⟩ := by
    obtain ⟨q, b⟩ := f
    cases b <;> simp [program, parkedPt, filter, toInt32_id v (by omega) hv2, hv] <;>
      simpa using hq
  simp only [step, mk, hcode]
  simp [transfer, Machine.lookup, hj, parked, parkedPt, active]

/-- The running filter `j` receives a candidate that is not positive, leaves its loop
and returns: the trampoline marks it `Finished` and transfers to its last caller,
`run`, with the value 0. -/
theorem step_filter_return (pf : Platform) (t : tuple) (r0 : Option (FiberRec Pt))
    (T : List (Option (FiberRec Pt))) (k : Pt) (lc sw : FiberHandle) (v : Int)
    (out : List Char) (fr : List (Nat × FiberState)) (rf : Option FiberHandle)
    (j : Nat) (f : Nat × Bool) (hj : j < T.length) (hv : toInt32 v ≤ 0) :
    step (program pf) SlotRule.waker
      (mk t r0 (some ⟨FiberState.Suspended, k, lc, sw⟩) (T.set j (active f)) (j + 2)
        (parkedPt f) v (some 1) out fr rf) =
      mk t r0 (some ⟨FiberState.Running, k, lc, sw⟩)
        (T.set j (finished f)) 1 k 0 (some (j + 2)) out fr (some sw) := by
  have hcode : (program pf).code (parkedPt f) v (some 1) t = ⟨[], [], t, Request.ret 0⟩ := by
    have hv' : ¬ toInt32 v > 0 := by omega
    obtain ⟨q, b⟩ := f
    cases b <;> simp [program, parkedPt, filter, hv']
  simp only [step, mk, hcode]
  simp [transfer, Machine.lookup, hj, parkedPt, active, finished]

/-- The running filter `j` receives 0 in the cleanup loop, leaves its loop and
returns. -/
theorem step_filter_winddown (pf : Platform) (t : tuple) (r0 : Option (FiberRec Pt))
    (T : List (Option (FiberRec Pt))) (k : Pt) (lc sw : FiberHandle)
    (out : List Char) (fr : List (Nat × FiberState)) (rf : Option FiberHandle)
    (j : Nat) (f : Nat × Bool) (hj : j < T.length) :
    step (program pf) SlotRule.waker
      (mk t r0 (some ⟨FiberState.Suspended, k, lc, sw⟩) (T.set j (active f)) (j + 2)
        (parkedPt f) 0 (some 1) out fr rf) =
      mk t r0 (some ⟨FiberState.Running, k, lc, sw⟩)
        (T.set j (finished f)) 1 k 0 (some (j + 2)) out fr (some sw) :=
  step_filter_return pf t r0 T k lc sw 0 out fr rf j f hj (by decide)

/-- `run` allocates the filter of a new prime. -/
theorem step_alloc (pf : Platform) (t : tuple) (r0 r1 : Option (FiberRec Pt))
    (T : List (Option (FiberRec Pt))) (pc k : Pt) (rv : Int) (rh : FiberHandle)
    (out o : List Char) (fr : List (Nat × FiberState)) (rf : Option FiberHandle)
    (hcode : (program pf).code pc rv rh t =
      ⟨o, [], t, Request.fiber_alloc Entry.filter k⟩) :
    step (program pf) SlotRule.waker (mk t r0 r1 T 1 pc rv rh out fr rf) =
      mk t r0 r1 (T ++ [some ⟨FiberState.Fresh, Pt.filter, none, none⟩]) 1 k 0
        (some (T.length + 2)) (out ++ o) fr none := by
  simp only [step, mk, hcode]
  simp [fiber_alloc, program]

/-- `run` switches into the fresh filter (line 78). -/
theorem step_switch_fresh (pf : Platform) (t : tuple) (r0 : Option (FiberRec Pt))
    (r1 : FiberRec Pt) (T : List (Option (FiberRec Pt))) (L : RunLocals) (rv : Int)
    (out : List Char) (fr : List (Nat × FiberState)) (rf : Option FiberHandle) :
    step (program pf) SlotRule.waker
      (mk t r0 (some r1) (T ++ [some ⟨FiberState.Fresh, Pt.filter, none, none⟩]) 1
        (Pt.run_L77 L) rv (some (T.length + 2)) out fr rf) =
      mk t r0 (some ⟨FiberState.Suspended, Pt.run_L78 L, r1.last_caller, some (T.length + 2)⟩)
        (T ++ [some ⟨FiberState.Running, Pt.filter, some 1, none⟩]) (T.length + 2)
        Pt.filter L.i (some 1) out fr none := by
  simp [step, mk, program, run, transfer, Machine.lookup]

/-- The new filter, entered with the word `v`, runs to its initial yield (line 22)
with `my_prime` the `int32_t` of `v`. -/
theorem step_filter_start (pf : Platform) (t : tuple) (r0 : Option (FiberRec Pt))
    (T : List (Option (FiberRec Pt))) (k : Pt) (lc sw : FiberHandle) (v : Int)
    (out : List Char) (fr : List (Nat × FiberState)) (rf : Option FiberHandle) :
    step (program pf) SlotRule.waker
      (mk t r0 (some ⟨FiberState.Suspended, k, lc, sw⟩)
        (T ++ [some ⟨FiberState.Running, Pt.filter, some 1, none⟩]) (T.length + 2)
        Pt.filter v (some 1) out fr rf) =
      mk t r0 (some ⟨FiberState.Running, k, lc, sw⟩)
        (T ++ [some ⟨FiberState.Suspended, Pt.filter_L22 (toInt32 v), some 1, some 1⟩]) 1 k 0
        (some (T.length + 2)) out fr (some sw) := by
  simp [step, mk, program, filter, transfer, Machine.lookup]

/-- The new filter of a candidate in range runs to its initial yield (line 22). -/
theorem step_filter_entry (pf : Platform) (t : tuple) (r0 : Option (FiberRec Pt))
    (T : List (Option (FiberRec Pt))) (k : Pt) (lc sw : FiberHandle) (c : Nat)
    (out : List Char) (fr : List (Nat × FiberState)) (rf : Option FiberHandle)
    (hc : c ≤ 2147483647) :
    step (program pf) SlotRule.waker
      (mk t r0 (some ⟨FiberState.Suspended, k, lc, sw⟩)
        (T ++ [some ⟨FiberState.Running, Pt.filter, some 1, none⟩]) (T.length + 2)
        Pt.filter (c : Int) (some 1) out fr rf) =
      mk t r0 (some ⟨FiberState.Running, k, lc, sw⟩)
        (T ++ [parked (c, false)]) 1 k 0 (some (T.length + 2)) out fr (some sw) := by
  have h32 : toInt32 (c : Int) = (c : Int) := toInt32_id _ (by omega) (by omega)
  rw [step_filter_start, h32]
  rfl

/-- `run` frees filter `j` (line 93). -/
theorem step_free (pf : Platform) (t : tuple) (r0 r1 : Option (FiberRec Pt))
    (T : List (Option (FiberRec Pt))) (pc k : Pt) (rv : Int) (rh : FiberHandle)
    (out : List Char) (fr : List (Nat × FiberState)) (rf : Option FiberHandle)
    (j : Nat) (f : Nat × Bool) (hT : T[j]? = some (finished f))
    (hcode : (program pf).code pc rv rh t =
      ⟨[], [], t, Request.fiber_free (some (j + 2)) k⟩) :
    step (program pf) SlotRule.waker (mk t r0 r1 T 1 pc rv rh out fr rf) =
      mk t r0 r1 (T.set j none) 1 k 0 none out
        (fr ++ [(j + 2, FiberState.Finished)]) none := by
  simp only [step, mk, hcode]
  simp [fiber_free, Machine.lookup, hT, finished]

/-- `run` makes its terminal transfer to the root (line 97). -/
theorem step_switch_return (pf : Platform) (t : tuple) (r1 : FiberRec Pt)
    (T : List (Option (FiberRec Pt))) (pc : Pt) (rv : Int) (rh : FiberHandle)
    (out o : List Char) (fr : List (Nat × FiberState)) (rf : Option FiberHandle)
    (hcode : (program pf).code pc rv rh t =
      ⟨o, [], t, Request.fiber_switch_return (some 0) 0⟩) :
    step (program pf) SlotRule.waker (mk t (some rootRec) (some r1) T 1 pc rv rh out fr rf) =
      mk t (some ⟨FiberState.Running, Pt.prog_L124, none, some 1⟩)
        (some ⟨FiberState.Finished, pc, r1.last_caller, some 0⟩) T 0 Pt.prog_L124 0
        (some 1) (out ++ o) fr (some (some 1)) := by
  simp only [step, mk, hcode]
  simp [transfer, Machine.lookup, rootRec]

/-- The root frees `run` (line 125). -/
theorem step_free_run (pf : Platform) (t : tuple) (r0 : Option (FiberRec Pt))
    (k : Pt) (lc sw : FiberHandle) (T : List (Option (FiberRec Pt)))
    (out : List Char) (fr : List (Nat × FiberState)) (rf : Option FiberHandle) :
    step (program pf) SlotRule.waker
      (mk t r0 (some ⟨FiberState.Finished, k, lc, sw⟩) T 0 Pt.prog_L124 0 (some 1) out fr rf) =
      mk t r0 none T 0 (Pt.prog_L125 0) 0 none out (fr ++ [(1, FiberState.Finished)])
        none := by
  simp [step, mk, program, prog, fiber_free, Machine.lookup, toInt32]

/-- The root returns from `prog` (line 126). -/
theorem step_prog_return (pf : Platform) (t : tuple) (r0 r1 : Option (FiberRec Pt))
    (T : List (Option (FiberRec Pt))) (rv : Int) (rh : FiberHandle)
    (out : List Char) (fr : List (Nat × FiberState)) (rf : Option FiberHandle) :
    step (program pf) SlotRule.waker (mk t r0 r1 T 0 (Pt.prog_L125 0) rv rh out fr rf) =
      { mk t r0 r1 T 0 (Pt.prog_L125 0) rv rh out fr rf with status := Status.returned 0 } := by
  simp [step, mk, program, prog]

/-- The first two steps: `prog` allocates `run` and switches into it. -/
theorem exec_two_mainFrom (pf : Platform) (quiet : Bool) (n : Int) :
    exec (program pf) SlotRule.waker 2 (mainFrom quiet n) =
      mk ⟨quiet, n⟩ (some rootRec) (some ⟨FiberState.Running, Pt.run, some 0, none⟩) [] 1
        Pt.run 1 (some 0) [] [] none := by
  simp [exec, step, mainFrom, fiber_main, program, prog, fiber_alloc, transfer,
    Machine.lookup, mk, rootRec]

end SieveSwitch


namespace SieveSwitch
open FiberC

/-! ## The code of `run` at each of its program points -/

theorem print_candidate_isSome (c : Nat) (hc : c ≤ 2147483647) :
    ∃ text, print_candidate (c : Int) = some text := by
  have hlen : (Nat.toDigits 10 c).length ≤ 10 :=
    Nat.toDigitsCore_length 10 (by norm_num) (c + 1) c 10 (by omega) (by norm_num)
  have hfmt : fmt_d (c : Int) = Nat.toDigits 10 c := by
    simp [fmt_d]
  unfold print_candidate
  simp only [hfmt]
  split
  · exact ⟨_, rfl⟩
  · rename_i h
    exfalso
    apply h
    simp only [List.length_append, List.length_take, List.length_singleton]
    omega

theorem arr_zero (M : Nat) : List.replicate M (none : Option FiberHandle) = arr M 0 := by
  simp [arr]

theorem arr_getElem (M p j : Nat) (hj : j < p) :
    (arr M p)[j]? = some (some (some (j + 2))) := by
  simp [arr, List.getElem?_append_left, hj]

theorem arr_set_self (M p j : Nat) (hj : j < p) :
    (arr M p).set j (some (some (j + 2))) = arr M p := by
  apply List.ext_getElem?
  intro k
  by_cases hk : k = j
  · subst hk
    simp [arr, List.getElem?_set, hj, List.getElem?_append_left]
  · simp [List.getElem?_set, Ne.symm hk]

theorem arr_length (M p : Nat) (hp : p ≤ M) : (arr M p).length = M := by
  simp [arr]
  omega

theorem arr_set_next (M p : Nat) (hp : p < M) :
    (arr M p).set p (some (some (p + 2))) = arr M (p + 1) := by
  apply List.ext_getElem?
  intro k
  simp only [arr, List.getElem?_set, List.length_append, List.length_map,
    List.length_range, List.length_replicate]
  rcases Nat.lt_trichotomy k p with h | h | h
  · have : ¬ p = k := by omega
    simp [this, List.getElem?_append_left, h, show k < p + 1 by omega]
  · subst h
    simp [List.getElem?_append_left, show k + (M - k) = M by omega, hp]
  · have : ¬ p = k := by omega
    simp [this, List.getElem?_append_right, show p ≤ k by omega, show p + 1 ≤ k by omega,
      List.getElem?_replicate]
    by_cases hk : k < M
    · simp [show k - p < M - p by omega, show k - (p + 1) < M - (p + 1) by omega]
    · simp [show ¬ k - p < M - p by omega, show ¬ k - (p + 1) < M - (p + 1) by omega]

/-- The `for` loop at an index below `p` switches into `filters[j]` with the
candidate. -/
theorem run_for_lt (pf : Platform) (t : tuple) (q : Bool) (M p : Nat) (c : Int) (j : Nat)
    (hj : j < p) :
    ∃ o, run_for pf (locals q M p c) j t =
      ⟨o, [], t, Request.fiber_switch (some (j + 2)) c (Pt.run_L62 (locals q M p c) j)⟩ := by
  simp only [run_for, locals, hj, if_true, List.get?_eq_getElem?, arr_getElem M p j hj]
  exact ⟨_, rfl⟩

/-- The `for` loop at index `p` ends with `divisible` false: the candidate is
printed unless quiet and its filter is allocated. -/
theorem run_for_end (pf : Platform) (t : tuple) (q : Bool) (M p : Nat) (c : Int) :
    ∃ o, run_for pf (locals q M p c) p t =
      ⟨o, [], t, Request.fiber_alloc Entry.filter (Pt.run_L77 (locals q M p c))⟩ := by
  simp only [run_for, locals, lt_irrefl, if_false, run_not_divisible]
  cases q
  · cases print_candidate c
    · exact ⟨_, rfl⟩
    · exact ⟨_, rfl⟩
  · exact ⟨_, rfl⟩

/-- The `while` test with fewer than `max_primes` primes and at least one filter. -/
theorem run_while_lt (pf : Platform) (t : tuple) (q : Bool) (M p : Nat) (c : Int)
    (hp : 0 < p) (hM : p < M) :
    ∃ o, run_while pf (locals q M p c) t =
      ⟨o, [], t, Request.fiber_switch (some 2) c (Pt.run_L62 (locals q M p c) 0)⟩ := by
  have h : (locals q M p c).p < (locals q M p c).max_primes := hM
  simp only [run_while, h, if_true]
  exact run_for_lt pf t q M p c 0 hp

/-- The `while` test once `max_primes` primes are found, with at least one filter:
the summary is written and the cleanup loop switches into `filters[0]` with 0. -/
theorem run_while_done (pf : Platform) (t : tuple) (q : Bool) (M : Nat) (c : Int)
    (hM : 0 < M) :
    ∃ o, run_while pf (locals q M M c) t =
      ⟨o, [], t, Request.fiber_switch (some 2) 0 (Pt.run_L92 (locals q M M c) 0)⟩ := by
  simp only [run_while, locals, lt_irrefl, if_false, run_after_loop, if_true, run_cleanup, hM,
    List.get?_eq_getElem?, arr_getElem M M 0 hM]
  exact ⟨_, rfl⟩

/-- The `while` test when `max_primes` is 0: summary, empty cleanup loop and the
terminal transfer to the caller. -/
theorem run_while_zero (pf : Platform) (t : tuple) (q : Bool) (c : Int) :
    ∃ o, run_while pf (locals q 0 0 c) t =
      ⟨o, [], t, Request.fiber_switch_return (some 0) 0⟩ := by
  simp only [run_while, locals, lt_irrefl, if_false, run_after_loop, if_true, run_cleanup]
  exact ⟨_, rfl⟩

/-- Line 81: the candidate becomes the `int32_t` of its successor. -/
theorem run_incr_eq (pf : Platform) (t : tuple) (q : Bool) (M p : Nat) (c : Int) :
    run_incr pf (locals q M p c) t = run_while pf (locals q M p (toInt32 (c + 1))) t := rfl

/-- Line 81 below `INT32_MAX`. -/
theorem run_incr_lt (pf : Platform) (t : tuple) (q : Bool) (M p c : Nat)
    (hc : c < 2147483647) :
    run_incr pf (locals q M p (c : Int)) t =
      run_while pf (locals q M p ((c + 1 : Nat) : Int)) t := by
  rw [run_incr_eq, toInt32_id _ (by omega) (by omega)]
  norm_cast

/-- Line 81 at `INT32_MAX`: the candidate wraps to `INT32_MIN`. -/
theorem run_incr_max (pf : Platform) (t : tuple) (q : Bool) (M p : Nat) :
    run_incr pf (locals q M p 2147483647) t =
      run_while pf (locals q M p (-2147483648)) t := by
  rw [run_incr_eq]
  rfl

/-- Entry of `run` when `malloc` succeeds: the locals are initialised from the tuple
and the `while` test follows. -/
theorem code_run_entry (pf : Platform) (q : Bool) (n : Int) (rv : Int)
    (hm : pf.malloc_ok (toUInt32 n) = true) :
    (program pf).code Pt.run rv (some 0) ⟨q, n⟩ =
      run_while pf (locals q (toUInt32 n) 0 2) ⟨q, n⟩ := by
  simp [program, run, locals, arr_zero, hm]

/-- Entry of `run` when `malloc` fails: `filters` is `NULL`. -/
theorem code_run_entry_null (pf : Platform) (q : Bool) (n : Int) (rv : Int)
    (hm : pf.malloc_ok (toUInt32 n) = false) :
    (program pf).code Pt.run rv (some 0) ⟨q, n⟩ =
      run_while pf ⟨q, toUInt32 n, 0, 2, [], some 0⟩ ⟨q, n⟩ := by
  simp [program, run, hm]

/-- Return of the switch of line 62 with `divisible` true: `break`, then line 81. -/
theorem code_L62_divisible (pf : Platform) (t : tuple) (q : Bool) (M p : Nat) (c : Int)
    (j : Nat) (d : Int) (hj : j < p) (hd : d ≠ 0) :
    (program pf).code (Pt.run_L62 (locals q M p c) j) d (some (j + 2)) t =
      run_incr pf (locals q M p c) t := by
  have h : ({ locals q M p c with
      filters := (locals q M p c).filters.set j (some (some (j + 2))) } : RunLocals) =
      locals q M p c := by
    simp [locals, arr_set_self M p j hj]
  simp only [program, run, hd, ne_eq, not_false_eq_true, if_true, h]

/-- Return of the switch of line 62 with `divisible` false: the next index. -/
theorem code_L62_next (pf : Platform) (t : tuple) (q : Bool) (M p : Nat) (c : Int)
    (j : Nat) (hj : j < p) (hp : p < 4294967296) :
    (program pf).code (Pt.run_L62 (locals q M p c) j) 0 (some (j + 2)) t =
      run_for pf (locals q M p c) (j + 1) t := by
  have h : ({ locals q M p c with
      filters := (locals q M p c).filters.set j (some (some (j + 2))) } : RunLocals) =
      locals q M p c := by
    simp [locals, arr_set_self M p j hj]
  have hmod : (j + 1) % 4294967296 = j + 1 := Nat.mod_eq_of_lt (by omega)
  simp only [program, run, ne_eq, not_true_eq_false, if_false, h, hmod]

/-- Return of the switch of line 78: the new filter is stored, `p++`, line 81. -/
theorem code_L78 (pf : Platform) (t : tuple) (q : Bool) (M p : Nat) (c : Int) (rv : Int)
    (hp : p < M) (hM : M < 4294967296) :
    (program pf).code (Pt.run_L78 (locals q M p c)) rv (some (p + 2)) t =
      run_incr pf (locals q M (p + 1) c) t := by
  have hlen : (locals q M p c).p < (locals q M p c).filters.length := by
    simp only [locals]
    rw [arr_length M p (by omega)]
    exact hp
  have hmod : (p + 1) % 4294967296 = p + 1 := Nat.mod_eq_of_lt (by omega)
  have h : ({ locals q M p c with
      filters := (locals q M p c).filters.set (locals q M p c).p (some (some (p + 2))),
      p := ((locals q M p c).p + 1) % 4294967296 } : RunLocals) = locals q M (p + 1) c := by
    simp [locals, arr_set_next M p hp, hmod]
  simp only [program, run, hlen, if_true, h]

/-- Return of the switch of line 78 through the `NULL` array: the write of line 79
is undefined. -/
theorem code_L78_null (pf : Platform) (t : tuple) (l : RunLocals) (rv : Int)
    (rh : FiberHandle) (hl : l.filters = []) :
    (program pf).code (Pt.run_L78 l) rv rh t = ⟨[], [], t, Request.undefined⟩ := by
  simp [program, run, hl, undefinedStep]

/-- Return of the switch of line 92: the filter is freed. -/
theorem code_L92 (pf : Platform) (t : tuple) (q : Bool) (M p : Nat) (c : Int) (j : Nat)
    (rv : Int) (hj : j < p) :
    (program pf).code (Pt.run_L92 (locals q M p c) j) rv (some (j + 2)) t =
      ⟨[], [], t, Request.fiber_free (some (j + 2)) (Pt.run_L93 (locals q M p c) j)⟩ := by
  have h : ({ locals q M p c with
      filters := (locals q M p c).filters.set j (some (some (j + 2))) } : RunLocals) =
      locals q M p c := by
    simp [locals, arr_set_self M p j hj]
  simp only [program, run, h]

/-- After line 93 with filters left: the cleanup loop switches into the next one. -/
theorem code_L93_next (pf : Platform) (t : tuple) (q : Bool) (M p : Nat) (c : Int)
    (j : Nat) (rv : Int) (rh : FiberHandle) (hj : j + 1 < p) (hp : p < 4294967296) :
    (program pf).code (Pt.run_L93 (locals q M p c) j) rv rh t =
      ⟨[], [], t, Request.fiber_switch (some (j + 1 + 2)) 0
        (Pt.run_L92 (locals q M p c) (j + 1))⟩ := by
  have hmod : (j + 1) % 4294967296 = j + 1 := Nat.mod_eq_of_lt (by omega)
  have h : j + 1 < (locals q M p c).p := hj
  simp only [program, run, run_cleanup, hmod, h, if_true, List.get?_eq_getElem?]
  simp only [locals, arr_getElem M p (j + 1) hj]

/-- After line 93 with no filter left: the terminal transfer of line 97. -/
theorem code_L93_last (pf : Platform) (t : tuple) (q : Bool) (M p : Nat) (c : Int)
    (j : Nat) (rv : Int) (rh : FiberHandle) (hj : j + 1 = p) (hp : p < 4294967296) :
    (program pf).code (Pt.run_L93 (locals q M p c) j) rv rh t =
      ⟨[], [], t, Request.fiber_switch_return (some 0) 0⟩ := by
  have hmod : (j + 1) % 4294967296 = j + 1 := Nat.mod_eq_of_lt (by omega)
  have h : ¬ j + 1 < (locals q M p c).p := by
    simp only [locals]
    omega
  simp only [program, run, run_cleanup, hmod, h, if_false]
  simp [locals]

end SieveSwitch


namespace SieveSwitch
open FiberC

/-! ## Primes below a candidate, and the filter tables -/

theorem mem_primesBelow (c q : Nat) : q ∈ primesBelow c ↔ q < c ∧ Nat.Prime q := by
  simp [primesBelow]

theorem primesBelow_length (c : Nat) : (primesBelow c).length = Nat.count Nat.Prime c := by
  simp [primesBelow, Nat.count, List.countP_eq_length_filter]

theorem primesBelow_succ_prime (c : Nat) (hc : Nat.Prime c) :
    primesBelow (c + 1) = primesBelow c ++ [c] := by
  simp [primesBelow, List.range_succ, List.filter_append, hc]

theorem primesBelow_succ_not (c : Nat) (hc : ¬ Nat.Prime c) :
    primesBelow (c + 1) = primesBelow c := by
  simp [primesBelow, List.range_succ, List.filter_append, hc]

/-- A candidate that no smaller prime divides is prime. -/
theorem prime_of_no_prime_divisor (c : Nat) (hc : 2 ≤ c)
    (h : ∀ q, q ∈ primesBelow c → ¬ q ∣ c) : Nat.Prime c := by
  have hne : c ≠ 1 := by omega
  have hmp : (Nat.minFac c).Prime := Nat.minFac_prime hne
  have hle : Nat.minFac c ≤ c := Nat.minFac_le (by omega)
  rcases Nat.lt_or_ge (Nat.minFac c) c with hlt | hge
  · exact absurd (Nat.minFac_dvd c) (h _ ((mem_primesBelow c _).2 ⟨hlt, hmp⟩))
  · have : Nat.minFac c = c := le_antisymm hle hge
    rwa [this] at hmp

/-- The C remainder of nonnegative operands vanishes exactly on divisibility. -/
theorem tmod_eq_zero_iff (c q : Nat) : Int.tmod (c : Int) (q : Int) = 0 ↔ q ∣ c := by
  rw [← Int.ofNat_tmod]
  constructor
  · intro h
    exact Nat.dvd_of_mod_eq_zero (by exact_mod_cast h)
  · intro h
    exact_mod_cast Nat.mod_eq_zero_of_dvd h

/-- Seeds of the filters are primes below the candidate. -/
theorem seed_prime (F : List (Nat × Bool)) (c j : Nat) (f : Nat × Bool)
    (hF : F.map Prod.fst = primesBelow c) (hj : F[j]? = some f) :
    f.1 < c ∧ Nat.Prime f.1 := by
  have hmem : f.1 ∈ F.map Prod.fst := by
    rcases List.getElem?_eq_some.1 hj with ⟨h1, h2⟩
    have : f ∈ F := h2 ▸ List.getElem_mem h1
    exact List.mem_map_of_mem Prod.fst this
  rw [hF] at hmem
  exact (mem_primesBelow c f.1).1 hmem

theorem map_fst_set (F : List (Nat × Bool)) (j : Nat) (f : Nat × Bool) (b : Bool)
    (hj : F[j]? = some f) : (F.set j (f.1, b)).map Prod.fst = F.map Prod.fst := by
  apply List.ext_getElem?
  intro k
  by_cases hk : j = k
  · subst hk
    rcases List.getElem?_eq_some.1 hj with ⟨hlt, h2⟩
    simp [List.getElem?_set, hlt, h2]
  · simp [List.getElem?_set, hk]

theorem getElem?_lt {α : Type} (l : List α) (j : Nat) (a : α) (h : l[j]? = some a) :
    j < l.length := by
  rcases List.getElem?_eq_some.1 h with ⟨h1, _⟩
  exact h1

theorem map_parked_getElem (F : List (Nat × Bool)) (j : Nat) (f : Nat × Bool)
    (hj : F[j]? = some f) : (F.map parked)[j]? = some (parked f) := by
  simp [hj]

theorem ctab_zero (F : List (Nat × Bool)) : ctab F 0 = F.map parked := by
  simp [ctab]

theorem ctab_length (F : List (Nat × Bool)) (j : Nat) (hj : j ≤ F.length) :
    (ctab F j).length = F.length := by
  simp [ctab]
  omega

theorem ctab_getElem (F : List (Nat × Bool)) (j : Nat) (f : Nat × Bool)
    (hj : F[j]? = some f) : (ctab F j)[j]? = some (parked f) := by
  have hlt := getElem?_lt F j f hj
  simp [ctab, List.getElem?_append_right, hj]

theorem ctab_set_none (F : List (Nat × Bool)) (j : Nat) (hj : j < F.length)
    (x : Option (FiberRec Pt)) :
    ((ctab F j).set j x).set j none = ctab F (j + 1) := by
  apply List.ext_getElem?
  intro k
  simp only [List.set_set, ctab, List.getElem?_set, List.length_append, List.length_replicate,
    List.length_map, List.length_drop]
  rcases Nat.lt_trichotomy k j with h | h | h
  · have : ¬ j = k := by omega
    simp [this, List.getElem?_append_left, h, show k < j + 1 by omega]
  · subst h
    simp [List.getElem?_append_left, show k < k + (F.length - k) by omega]
  · have : ¬ j = k := by omega
    simp only [this, if_false]
    rw [List.getElem?_append_right (by simp; omega), List.getElem?_append_right (by simp; omega)]
    simp only [List.length_replicate, List.getElem?_map, List.getElem?_drop]
    congr 2
    omega

theorem mersenne31_prime : Nat.Prime 2147483647 := by
  have h : (mersenne 31).Prime := lucas_lehmer_sufficiency 31 (by norm_num) (by norm_num)
  have e : mersenne 31 = 2147483647 := by norm_num [mersenne]
  rwa [e] at h

theorem primesBelow_int32 :
    primesBelow 2147483648 = primesBelow 2147483647 ++ [2147483647] :=
  primesBelow_succ_prime 2147483647 mersenne31_prime

theorem wtab_zero (F : List (Nat × Bool)) : wtab F 0 = F.map parked := by
  simp [wtab]

theorem wtab_length (F : List (Nat × Bool)) (j : Nat) : (wtab F j).length = F.length := by
  simp only [wtab, List.length_append, List.length_map, List.length_take, List.length_drop]
  omega

theorem wtab_getElem (F : List (Nat × Bool)) (j : Nat) (f : Nat × Bool)
    (hj : F[j]? = some f) : (wtab F j)[j]? = some (parked f) := by
  have hlt := getElem?_lt F j f hj
  have hlen : ((F.take j).map finished).length = j := by
    simp only [List.length_map, List.length_take]
    omega
  rw [wtab, List.getElem?_append_right (by omega), hlen]
  simp [hj]

theorem wtab_head (F : List (Nat × Bool)) (j : Nat) (f : Nat × Bool) (hj : 0 < j)
    (hf : F[0]? = some f) : (wtab F j)[0]? = some (finished f) := by
  have hlt := getElem?_lt F 0 f hf
  have hlen : 0 < ((F.take j).map finished).length := by
    simp only [List.length_map, List.length_take]
    omega
  rw [wtab, List.getElem?_append_left hlen]
  simp [List.getElem?_take, hj, hf]

theorem wtab_set (F : List (Nat × Bool)) (j : Nat) (f : Nat × Bool)
    (hj : F[j]? = some f) : (wtab F j).set j (finished f) = wtab F (j + 1) := by
  have hlt := getElem?_lt F j f hj
  apply List.ext_getElem?
  intro k
  rcases Nat.lt_trichotomy k j with h | h | h
  · have hne : ¬ j = k := by omega
    simp only [List.getElem?_set, hne, if_false, wtab]
    rw [List.getElem?_append_left (by simp; omega), List.getElem?_append_left (by simp; omega)]
    simp [List.getElem?_take, h, show k < j + 1 by omega]
  · subst h
    have h1 : k < (wtab F k).length := by rw [wtab_length]; exact hlt
    rw [List.getElem?_set_self h1, wtab]
    rw [List.getElem?_append_left (by simp; omega)]
    simp [List.getElem?_take, hj]
  · have hne : ¬ j = k := by omega
    simp only [List.getElem?_set, hne, if_false, wtab]
    rw [List.getElem?_append_right (by simp; omega),
      List.getElem?_append_right (by simp; omega)]
    simp only [List.length_map, List.length_take, List.getElem?_map, List.getElem?_drop]
    rw [show min j F.length = j by omega, show min (j + 1) F.length = j + 1 by omega]
    rw [show j + (k - j) = k by omega, show j + 1 + (k - (j + 1)) = k by omega]

end SieveSwitch


namespace SieveSwitch
open FiberC

/-! ## The candidate from one state to the next -/

theorem runLocals_run (t : tuple) (r0 r1 : Option (FiberRec Pt))
    (T : List (Option (FiberRec Pt))) (pc : Pt) (rv : Int) (rh : FiberHandle)
    (out : List Char) (fr : List (Nat × FiberState)) (rf : Option FiberHandle) :
    runLocals (mk t r0 r1 T 1 pc rv rh out fr rf) = localsOf pc := by
  simp [runLocals, mk]

theorem runLocals_filter (t : tuple) (r0 : Option (FiberRec Pt)) (r : FiberRec Pt)
    (T : List (Option (FiberRec Pt))) (k : Nat) (pc : Pt) (rv : Int) (rh : FiberHandle)
    (out : List Char) (fr : List (Nat × FiberState)) (rf : Option FiberHandle) :
    runLocals (mk t r0 (some r) T (k + 2) pc rv rh out fr rf) =
      localsOf r.saved_context := by
  simp [runLocals, mk, Machine.lookup]

theorem runLocals_root (t : tuple) (r0 r1 : Option (FiberRec Pt))
    (T : List (Option (FiberRec Pt))) (pc : Pt) (rv : Int) (rh : FiberHandle)
    (out : List Char) (fr : List (Nat × FiberState)) (rf : Option FiberHandle) :
    runLocals (mk t r0 r1 T 0 pc rv rh out fr rf) =
      r1.bind (fun r => localsOf r.saved_context) := by
  cases r1 <;> simp [runLocals, mk, Machine.lookup]

theorem runLocals_status (m : Machine Pt tuple) (s : Status) :
    runLocals { m with status := s } = runLocals m := rfl

theorem candStepOK_same (m m1 : Machine Pt tuple) (h : runLocals m1 = runLocals m) :
    candStepOK m m1 = true := by
  unfold candStepOK candOf
  rw [h]
  cases runLocals m <;> simp

theorem candStepOK_succ (m m1 : Machine Pt tuple) (l l1 : RunLocals)
    (h : runLocals m = some l) (h1 : runLocals m1 = some l1) (hi : l1.i = l.i + 1) :
    candStepOK m m1 = true := by
  unfold candStepOK candOf
  rw [h, h1]
  simp [hi]

theorem candStepOK_start (m m1 : Machine Pt tuple) (l1 : RunLocals)
    (h : runLocals m = none) (h1 : runLocals m1 = some l1) (hi : l1.i = 2) :
    candStepOK m m1 = true := by
  unfold candStepOK candOf
  rw [h, h1]
  simp [hi]

theorem candStepOK_end (m m1 : Machine Pt tuple) (h1 : m1.lookup 1 = none)
    (h0 : m1.current = 0) : candStepOK m m1 = true := by
  have hn : runLocals m1 = none := by
    simp [runLocals, h0, h1]
  unfold candStepOK candOf
  rw [hn]
  cases runLocals m <;> simp [h1]

theorem lookup_one_mk (t : tuple) (r0 r1 : Option (FiberRec Pt))
    (T : List (Option (FiberRec Pt))) (cur : Nat) (pc : Pt) (rv : Int) (rh : FiberHandle)
    (out : List Char) (fr : List (Nat × FiberState)) (rf : Option FiberHandle) :
    (mk t r0 r1 T cur pc rv rh out fr rf).lookup 1 = r1 := by
  cases r1 <;> rfl

end SieveSwitch


namespace SieveSwitch
open FiberC

/-! ## The main loop keeps its shape -/

theorem toUInt32_lt (n : Int) : toUInt32 n < 4294967296 := by
  unfold toUInt32
  omega

/-- The `while` test with no filter yet. -/
theorem run_while_first (pf : Platform) (t : tuple) (q : Bool) (M : Nat) (c : Int)
    (hM : 0 < M) :
    ∃ o, run_while pf (locals q M 0 c) t =
      ⟨o, [], t, Request.fiber_alloc Entry.filter (Pt.run_L77 (locals q M 0 c))⟩ := by
  have h : (locals q M 0 c).p < (locals q M 0 c).max_primes := hM
  simp only [run_while, h, if_true]
  exact run_for_end pf t q M 0 c

/-- The `while` test with no filter yet and the `NULL` array. -/
theorem run_while_null (pf : Platform) (t : tuple) (q : Bool) (M : Nat) (hM : 0 < M) :
    ∃ o, run_while pf ⟨q, M, 0, 2, [], some 0⟩ t =
      ⟨o, [], t, Request.fiber_alloc Entry.filter (Pt.run_L77 ⟨q, M, 0, 2, [], some 0⟩)⟩ := by
  simp only [run_while, hM, if_true, run_for, lt_irrefl, if_false, run_not_divisible]
  cases q
  · cases print_candidate 2
    · exact ⟨_, rfl⟩
    · exact ⟨_, rfl⟩
  · exact ⟨_, rfl⟩

theorem rank_drop (c W a b : Nat) (hc : c < 2147483648) (h : a < W + b) :
    (2147483648 - (c + 1)) * W + a < (2147483648 - c) * W + b := by
  have e : (2147483648 - c) * W = (2147483648 - (c + 1)) * W + W := by
    rw [show 2147483648 - c = (2147483648 - (c + 1)) + 1 by omega]
    ring
  rw [e]
  omega

/-- In a state whose filter table holds suspended filters only, all are parked. -/
theorem filtersParked_mk (G : List (Nat × Bool)) (t : tuple) (r0 r1 : Option (FiberRec Pt))
    (cur : Nat) (pc : Pt) (rv : Int) (rh : FiberHandle) (out : List Char)
    (fr : List (Nat × FiberState)) (rf : Option FiberHandle) :
    filtersParked (mk t r0 r1 (G.map parked) cur pc rv rh out fr rf) G.length = true := by
  simp only [filtersParked, List.all_eq_true, List.mem_range]
  intro k hk
  have hl : (mk t r0 r1 (G.map parked) cur pc rv rh out fr rf).lookup (k + 2) =
      parked G[k] := by
    simp [Machine.lookup, mk, List.getElem?_eq_getElem hk]
  rw [hl]
  obtain ⟨a, b⟩ := G[k]
  cases b <;> rfl

theorem main_step_entry (pf : Platform) (q : Bool) (n : Int) (m : Machine Pt tuple)
    (hm : m = mk ⟨q, n⟩ (some rootRec) (some ⟨FiberState.Running, Pt.run, some 0, none⟩) []
      1 Pt.run 1 (some 0) [] [] none) :
    (∃ r', r' < 2147483648 * (2 * toUInt32 n + 6) + 1 ∧
      MainShape pf q n r' (step (program pf) SlotRule.waker m) ∧
      candStepOK m (step (program pf) SlotRule.waker m) = true) ∨
    (∃ r', CleanShape pf q n r' (step (program pf) SlotRule.waker m) ∧
      (r' = 3 * toUInt32 n + 2 ∨ toUInt32 n = 0) ∧
      candStepOK m (step (program pf) SlotRule.waker m) = true ∧
      filtersParked m (toUInt32 n) = true) ∨
    (∃ r', NullShape pf q n r' (step (program pf) SlotRule.waker m) ∧
      candStepOK m (step (program pf) SlotRule.waker m) = true) := by
  subst hm
  rcases Nat.eq_zero_or_pos (toUInt32 n) with hM | hM
  · right
    left
    obtain ⟨o, ho⟩ := run_while_zero pf ⟨q, n⟩ q 2
    have hcode : (program pf).code Pt.run 1 (some 0) ⟨q, n⟩ =
        ⟨o, [], ⟨q, n⟩, Request.fiber_switch_return (some 0) 0⟩ := by
      rw [← ho]
      cases hmal : pf.malloc_ok (toUInt32 n)
      · rw [code_run_entry_null pf q n 1 hmal, hM]
        rfl
      · rw [code_run_entry pf q n 1 hmal, hM]
    rw [step_switch_return pf _ _ _ _ _ _ _ _ _ _ hcode]
    have key := @CleanShape.root pf q n [] 2 Pt.run (some 0) ([] ++ o)
      (by decide) (by omega) (by omega) (by simp [hM]) (Or.inl ⟨rfl, rfl⟩) (Or.inl rfl)
    exact ⟨2, key, Or.inr hM,
      candStepOK_same _ _ (by rw [runLocals_root, runLocals_run]; rfl),
      by rw [hM]; rfl⟩
  · cases hmal : pf.malloc_ok (toUInt32 n)
    · right
      right
      obtain ⟨o, ho⟩ := run_while_null pf ⟨q, n⟩ q (toUInt32 n) hM
      have hcode := code_run_entry_null pf q n 1 hmal
      rw [ho] at hcode
      rw [step_alloc pf _ _ _ _ _ _ _ _ _ _ _ _ hcode]
      exact ⟨3, NullShape.alloc ⟨FiberState.Running, Pt.run, some 0, none⟩ ([] ++ o) rfl
        hmal hM, candStepOK_start _ _ ⟨q, toUInt32 n, 0, 2, [], some 0⟩
        (by rw [runLocals_run]; rfl) (by rw [runLocals_run]; rfl) rfl⟩
    · left
      obtain ⟨o, ho⟩ := run_while_first pf ⟨q, n⟩ q (toUInt32 n) 2 hM
      have hcode := code_run_entry pf q n 1 hmal
      rw [ho] at hcode
      rw [step_alloc pf _ _ _ _ _ _ _ _ _ _ _ _ hcode]
      have key := @MainShape.alloc pf q n [] 2
        ⟨FiberState.Running, Pt.run, some 0, none⟩ ([] ++ o) rfl
        (by decide) (by norm_num) (by omega) (by simpa using hM)
      refine ⟨_, ?_, key, candStepOK_start _ _ (locals q (toUInt32 n) 0 2)
        (by rw [runLocals_run]; rfl) (by rw [runLocals_run]; rfl) rfl⟩
      have := rank_drop 1 (2 * toUInt32 n + 6) 3 0 (by omega) (by omega)
      have h2 : (2147483648 - 2) * (2 * toUInt32 n + 6) ≤
          2147483648 * (2 * toUInt32 n + 6) :=
        Nat.mul_le_mul_right _ (by omega)
      omega

theorem main_step_route (pf : Platform) (q : Bool) (n : Int) (F : List (Nat × Bool))
    (c j : Nat) (f : Nat × Bool) (lc : FiberHandle) (out : List Char)
    (hF : F.map Prod.fst = primesBelow c) (hc : 2 ≤ c) (hc2 : c ≤ 2147483647)
    (hp : F.length < toUInt32 n) (hj : F[j]? = some f)
    (hnd : ∀ k g, k < j → F[k]? = some g → ¬ g.1 ∣ c) (m : Machine Pt tuple)
    (hm : m = mk ⟨q, n⟩ (some rootRec)
      (some ⟨FiberState.Suspended, Pt.run_L62 (locals q (toUInt32 n) F.length c) j, lc,
        some (j + 2)⟩)
      ((F.map parked).set j (active f)) (j + 2) (parkedPt f) (c : Int) (some 1) out []
      (some (some 1))) :
    ∃ r', r' < (2147483648 - c) * (2 * toUInt32 n + 6) + 2 * (F.length - j) + 4 ∧
      MainShape pf q n r' (step (program pf) SlotRule.waker m) ∧
      candStepOK m (step (program pf) SlotRule.waker m) = true ∧
      (step (program pf) SlotRule.waker m).current = 1 ∧
      (step (program pf) SlotRule.waker m).pc =
        Pt.run_L62 (locals q (toUInt32 n) F.length c) j ∧
      (step (program pf) SlotRule.waker m).rv =
        (if Int.tmod (c : Int) (f.1 : Int) = 0 then 1 else 0) := by
  subst hm
  have hjlt := getElem?_lt F j f hj
  have hq := (seed_prime F c j f hF hj).2.pos
  rw [step_filter_reply pf _ _ _ _ _ _ (c : Int) _ _ _ j f (by simpa using hjlt) (by omega)
    (by omega) (by omega)]
  have key := @MainShape.reply pf q n (F.set j (f.1, true)) c j
    (f.1, true)
      ⟨FiberState.Running, Pt.run_L62 (locals q (toUInt32 n) F.length c) j, lc,
        some (j + 2)⟩ out rfl
    (by rw [map_fst_set F j f true hj]; exact hF) hc hc2 (by simpa using hp)
    (by simp [List.getElem?_set, hjlt])
    (by
      intro k g hk hg
      have hne : ¬ j = k := by omega
      rw [List.getElem?_set] at hg
      simp only [hne, if_false] at hg
      exact hnd k g hk hg)
  simp only [List.length_set, List.map_set] at key
  exact ⟨_, by omega, key,
    candStepOK_same _ _ (by rw [runLocals_run, runLocals_filter]), rfl, rfl, rfl⟩

theorem main_step_alloc (pf : Platform) (q : Bool) (n : Int) (F : List (Nat × Bool))
    (c : Nat) (r1 : FiberRec Pt) (out : List Char)
    (hF : F.map Prod.fst = primesBelow c) (hc : Nat.Prime c) (hc2 : c ≤ 2147483647)
    (hp : F.length < toUInt32 n) (m : Machine Pt tuple)
    (hm : m = mk ⟨q, n⟩ (some rootRec) (some r1)
      (F.map parked ++ [some ⟨FiberState.Fresh, Pt.filter, none, none⟩]) 1
      (Pt.run_L77 (locals q (toUInt32 n) F.length c)) 0 (some (F.length + 2)) out []
      none) :
    ∃ r', r' < (2147483648 - c) * (2 * toUInt32 n + 6) + 3 ∧
      MainShape pf q n r' (step (program pf) SlotRule.waker m) ∧
      candStepOK m (step (program pf) SlotRule.waker m) = true := by
  subst hm
  have hlen : (F.map parked).length = F.length := by simp
  have h := step_switch_fresh pf ⟨q, n⟩ (some rootRec) r1 (F.map parked)
    (locals q (toUInt32 n) F.length c) 0 out [] none
  rw [hlen] at h
  rw [h]
  exact ⟨_, by omega, MainShape.fresh F c r1.last_caller out hF hc hc2 hp,
    candStepOK_same _ _ (by rw [runLocals_run, runLocals_filter]; rfl)⟩

theorem main_step_fresh (pf : Platform) (q : Bool) (n : Int) (F : List (Nat × Bool))
    (c : Nat) (lc : FiberHandle) (out : List Char)
    (hF : F.map Prod.fst = primesBelow c) (hc : Nat.Prime c) (hc2 : c ≤ 2147483647)
    (hp : F.length < toUInt32 n) (m : Machine Pt tuple)
    (hm : m = mk ⟨q, n⟩ (some rootRec)
      (some ⟨FiberState.Suspended, Pt.run_L78 (locals q (toUInt32 n) F.length c), lc,
        some (F.length + 2)⟩)
      (F.map parked ++ [some ⟨FiberState.Running, Pt.filter, some 1, none⟩])
      (F.length + 2) Pt.filter (c : Int) (some 1) out [] none) :
    ∃ r', r' < (2147483648 - c) * (2 * toUInt32 n + 6) + 2 ∧
      MainShape pf q n r' (step (program pf) SlotRule.waker m) ∧
      candStepOK m (step (program pf) SlotRule.waker m) = true := by
  subst hm
  have hlen : (F.map parked).length = F.length := by simp
  have h := step_filter_entry pf ⟨q, n⟩ (some rootRec) (F.map parked)
    (Pt.run_L78 (locals q (toUInt32 n) F.length c)) lc (some (F.length + 2)) c out [] none hc2
  rw [hlen] at h
  rw [h]
  exact ⟨_, by omega, MainShape.stored F c _ out rfl hF hc hc2 hp,
    candStepOK_same _ _ (by rw [runLocals_run, runLocals_filter])⟩

theorem not_prime_of_seed_dvd (F : List (Nat × Bool)) (c j : Nat) (f : Nat × Bool)
    (hF : F.map Prod.fst = primesBelow c) (hj : F[j]? = some f) (hdiv : f.1 ∣ c) :
    ¬ Nat.Prime c := by
  intro hc
  obtain ⟨hlt, hpr⟩ := seed_prime F c j f hF hj
  rcases (Nat.dvd_prime hc).1 hdiv with h | h
  · exact hpr.one_lt.ne' h
  · omega

theorem main_step_reply (pf : Platform) (q : Bool) (n : Int) (F : List (Nat × Bool))
    (c j : Nat) (f : Nat × Bool) (r1 : FiberRec Pt) (out : List Char)
    (hr1 : r1.state = FiberState.Running)
    (hF : F.map Prod.fst = primesBelow c) (hc : 2 ≤ c) (hc2 : c ≤ 2147483647)
    (hp : F.length < toUInt32 n) (hj : F[j]? = some f)
    (hnd : ∀ k g, k < j → F[k]? = some g → ¬ g.1 ∣ c) (m : Machine Pt tuple)
    (hm : m = mk ⟨q, n⟩ (some rootRec) (some r1) (F.map parked) 1
      (Pt.run_L62 (locals q (toUInt32 n) F.length c) j)
      (if Int.tmod (c : Int) (f.1 : Int) = 0 then 1 else 0) (some (j + 2)) out []
      (some (some (j + 2)))) :
    ∃ r', r' < (2147483648 - c) * (2 * toUInt32 n + 6) + 2 * (F.length - j) + 3 ∧
      MainShape pf q n r' (step (program pf) SlotRule.waker m) ∧
      candStepOK m (step (program pf) SlotRule.waker m) = true ∧
      intOverflow m = false ∧
      (f.1 ∣ c → asking (step (program pf) SlotRule.waker m) =
        some (0, (c : Int) + 1, F.length)) ∧
      (¬ f.1 ∣ c → j + 1 < F.length → asking (step (program pf) SlotRule.waker m) =
        some (j + 1, (c : Int), F.length)) ∧
      (¬ f.1 ∣ c → j + 1 = F.length →
        (step (program pf) SlotRule.waker m).pc =
          Pt.run_L77 (locals q (toUInt32 n) F.length c) ∧
        (step (program pf) SlotRule.waker m).current = 1 ∧
        (step (program pf) SlotRule.waker m).fibers.length = m.fibers.length + 1) := by
  subst hm
  have hjlt := getElem?_lt F j f hj
  have hM := toUInt32_lt n
  by_cases hdiv : f.1 ∣ c
  · have hd : (if Int.tmod (c : Int) (f.1 : Int) = 0 then (1 : Int) else 0) = 1 := by
      simp [tmod_eq_zero_iff, hdiv]
    rw [hd]
    have hcode := code_L62_divisible pf ⟨q, n⟩ q (toUInt32 n) F.length c j 1 hjlt (by omega)
    have hnp := not_prime_of_seed_dvd F c j f hF hj hdiv
    have hlt : c < 2147483647 := by
      rcases Nat.lt_or_ge c 2147483647 with h | h
      · exact h
      · exfalso
        have hceq : c = 2147483647 := by omega
        rw [hceq] at hnp
        exact hnp mersenne31_prime
    rw [run_incr_lt pf _ q _ _ c hlt] at hcode
    obtain ⟨o, ho⟩ := run_while_lt pf ⟨q, n⟩ q (toUInt32 n) F.length ((c + 1 : Nat) : Int)
      (by omega) hp
    rw [ho] at hcode
    obtain ⟨f0, hf0⟩ : ∃ f0, F[0]? = some f0 :=
      ⟨F[0], List.getElem?_eq_getElem (by omega)⟩
    rw [step_switch_parked pf _ _ _ _ _ _ _ _ _ _ _ _ _ 0 f0
      (map_parked_getElem F 0 f0 hf0) hcode]
    have key := @MainShape.route pf q n F (c + 1) 0 f0 r1.last_caller
      (out ++ o) (by rw [primesBelow_succ_not c hnp]; exact hF) (by omega) (by omega) hp hf0
      (by intro k g hk; omega)
    refine ⟨_, ?_, key, candStepOK_succ _ _ (locals q (toUInt32 n) F.length c)
      (locals q (toUInt32 n) F.length ((c + 1 : Nat) : Int))
      (by rw [runLocals_run]; rfl) (by rw [runLocals_filter]; rfl)
      (by simp [locals]), ?_, fun _ => by simp [asking, mk, Machine.lookup, locals],
      fun h => absurd hdiv h, fun h => absurd hdiv h⟩
    · have := rank_drop c (2 * toUInt32 n + 6) (2 * (F.length - 0) + 4)
        (2 * (F.length - j) + 3) (by omega) (by omega)
      omega
    · have hne : ¬ ((c : Int) = 2147483647) := by omega
      simp [intOverflow, mk, locals, hne]
  · have hd : (if Int.tmod (c : Int) (f.1 : Int) = 0 then (1 : Int) else 0) = 0 := by
      simp [tmod_eq_zero_iff, hdiv]
    rw [hd]
    have hov : intOverflow (mk ⟨q, n⟩ (some rootRec) (some r1) (F.map parked) 1
        (Pt.run_L62 (locals q (toUInt32 n) F.length c) j) 0 (some (j + 2)) out []
        (some (some (j + 2)))) = false := by
      simp [intOverflow, mk]
    have hcode := code_L62_next pf ⟨q, n⟩ q (toUInt32 n) F.length c j hjlt (by omega)
    rcases Nat.lt_or_ge (j + 1) F.length with hlt | hge
    · obtain ⟨o, ho⟩ := run_for_lt pf ⟨q, n⟩ q (toUInt32 n) F.length c (j + 1) hlt
      rw [ho] at hcode
      obtain ⟨f1, hf1⟩ : ∃ f1, F[j + 1]? = some f1 :=
        ⟨F[j + 1], List.getElem?_eq_getElem hlt⟩
      rw [step_switch_parked pf _ _ _ _ _ _ _ _ _ _ _ _ _ (j + 1) f1
        (map_parked_getElem F (j + 1) f1 hf1) hcode]
      have key := @MainShape.route pf q n F c (j + 1) f1 r1.last_caller
        (out ++ o) hF hc hc2 hp hf1
        (by
          intro k g hk hg
          rcases Nat.lt_or_ge k j with h1 | h1
          · exact hnd k g h1 hg
          · have hkj : k = j := by omega
            subst hkj
            rw [hj] at hg
            cases hg
            exact hdiv)
      exact ⟨_, by omega, key,
        candStepOK_same _ _ (by rw [runLocals_run, runLocals_filter]; rfl), hov,
        fun h => absurd h hdiv, fun _ _ => by simp [asking, mk, Machine.lookup, locals],
        fun _ h => by omega⟩
    · have hlast : j + 1 = F.length := by omega
      rw [hlast] at hcode
      obtain ⟨o, ho⟩ := run_for_end pf ⟨q, n⟩ q (toUInt32 n) F.length c
      rw [ho] at hcode
      rw [step_alloc pf _ _ _ _ _ _ _ _ _ _ _ _ hcode]
      have hprime : Nat.Prime c := by
        apply prime_of_no_prime_divisor c hc
        intro p hpmem
        rw [← hF] at hpmem
        obtain ⟨g, hg, rfl⟩ := List.mem_map.1 hpmem
        obtain ⟨k, hk, hgk⟩ := List.getElem_of_mem hg
        have hgk' : F[k]? = some g := by rw [List.getElem?_eq_getElem hk, hgk]
        rcases Nat.lt_or_ge k j with h1 | h1
        · exact hnd k g h1 hgk'
        · have hkj : k = j := by omega
          subst hkj
          rw [hj] at hgk'
          cases hgk'
          exact hdiv
      have key := @MainShape.alloc pf q n F c r1 (out ++ o) hr1 hF
        hprime hc2 hp
      simp only [List.length_map] at *
      exact ⟨_, by omega, key,
        candStepOK_same _ _ (by rw [runLocals_run, runLocals_run]; rfl), hov,
        fun h => absurd h hdiv, fun _ h => by omega,
        fun _ _ => ⟨rfl, rfl, by simp [mk]⟩⟩

/-- A transfer into a filter that has returned is the fatal error. -/
theorem step_switch_finished (pf : Platform) (t : tuple) (r0 : Option (FiberRec Pt))
    (r1 : FiberRec Pt) (T : List (Option (FiberRec Pt))) (pc k : Pt) (rv v : Int)
    (rh : FiberHandle) (out o : List Char) (fr : List (Nat × FiberState))
    (rf : Option FiberHandle) (f : Nat × Bool)
    (hT : T[0]? = some (finished f))
    (hcode : (program pf).code pc rv rh t =
      ⟨o, [], t, Request.fiber_switch (some 2) v k⟩) :
    step (program pf) SlotRule.waker (mk t r0 (some r1) T 1 pc rv rh out fr rf) =
      { mk t r0 (some r1) T 1 pc rv rh (out ++ o) fr rf with status := Status.fatal } := by
  simp only [step, mk, hcode]
  simp [transfer, Machine.lookup, hT, finished]

theorem main_step_stored (pf : Platform) (q : Bool) (n : Int) (F : List (Nat × Bool))
    (c : Nat) (r1 : FiberRec Pt) (out : List Char)
    (hF : F.map Prod.fst = primesBelow c) (hc : Nat.Prime c) (hc2 : c ≤ 2147483647)
    (hp : F.length < toUInt32 n) (m : Machine Pt tuple)
    (hm : m = mk ⟨q, n⟩ (some rootRec) (some r1) (F.map parked ++ [parked (c, false)]) 1
      (Pt.run_L78 (locals q (toUInt32 n) F.length c)) 0 (some (F.length + 2)) out []
      (some (some (F.length + 2)))) :
    (∃ r', r' < (2147483648 - c) * (2 * toUInt32 n + 6) + 1 ∧
      MainShape pf q n r' (step (program pf) SlotRule.waker m) ∧
      candStepOK m (step (program pf) SlotRule.waker m) = true ∧
      intOverflow m = false) ∨
    (∃ r', CleanShape pf q n r' (step (program pf) SlotRule.waker m) ∧
      (r' = 3 * toUInt32 n + 2 ∨ toUInt32 n = 0) ∧
      ((candStepOK m (step (program pf) SlotRule.waker m) = true ∧ intOverflow m = false) ∨
        (intOverflow m = true ∧ c = 2147483647)) ∧
      filtersParked m (toUInt32 n) = true) ∨
    (∃ r', WrapShape pf q n r' (step (program pf) SlotRule.waker m) ∧
      intOverflow m = true ∧ 3 ≤ r') := by
  subst hm
  have hM := toUInt32_lt n
  have hcode := code_L78 pf ⟨q, n⟩ q (toUInt32 n) F.length c 0 hp hM
  have htab : F.map parked ++ [parked (c, false)] = (F ++ [(c, false)]).map parked := by
    simp
  have hF' : (F ++ [(c, false)]).map Prod.fst = primesBelow (c + 1) := by
    rw [primesBelow_succ_prime c hc, ← hF]
    simp
  obtain ⟨f0, hf0⟩ : ∃ f0, (F ++ [(c, false)])[0]? = some f0 :=
    ⟨(F ++ [(c, false)]).get ⟨0, by simp⟩, List.getElem?_eq_getElem (by simp)⟩
  have hc1 := hc.two_le
  rcases Nat.lt_or_ge c 2147483647 with hlt | hge
  · have hov : intOverflow (mk ⟨q, n⟩ (some rootRec) (some r1)
        (F.map parked ++ [parked (c, false)]) 1
        (Pt.run_L78 (locals q (toUInt32 n) F.length c)) 0 (some (F.length + 2)) out []
        (some (some (F.length + 2)))) = false := by
      have hne : ¬ ((c : Int) = 2147483647) := by omega
      simp [intOverflow, mk, locals, hne]
    have h32 : toInt32 ((c + 1 : Nat) : Int) = ((c + 1 : Nat) : Int) :=
      toInt32_id _ (by omega) (by omega)
    rw [run_incr_lt pf _ q _ _ c hlt] at hcode
    rcases Nat.lt_or_ge (F.length + 1) (toUInt32 n) with hlt2 | hge2
    · left
      obtain ⟨o, ho⟩ := run_while_lt pf ⟨q, n⟩ q (toUInt32 n) (F.length + 1)
        ((c + 1 : Nat) : Int) (by omega) hlt2
      rw [ho] at hcode
      rw [htab, step_switch_parked pf _ _ _ _ _ _ _ _ _ _ _ _ _ 0 f0
        (map_parked_getElem _ 0 _ hf0) hcode]
      have key := @MainShape.route pf q n (F ++ [(c, false)]) (c + 1) 0
        f0 r1.last_caller (out ++ o) hF' (by omega) (by omega) (by simpa using hlt2) hf0
        (by intro k g hk; omega)
      simp only [List.length_append, List.length_singleton] at key
      exact ⟨_, rank_drop c (2 * toUInt32 n + 6) (2 * (F.length + 1 - 0) + 4) 1 (by omega)
        (by omega), key, candStepOK_succ _ _ (locals q (toUInt32 n) F.length c)
        (locals q (toUInt32 n) (F.length + 1) ((c + 1 : Nat) : Int))
        (by rw [runLocals_run]; rfl) (by rw [runLocals_filter]; rfl)
        (by simp [locals]), hov⟩
    · right
      left
      have hMeq : F.length + 1 = toUInt32 n := by omega
      rw [hMeq] at hcode
      obtain ⟨o, ho⟩ := run_while_done pf ⟨q, n⟩ q (toUInt32 n) ((c + 1 : Nat) : Int)
        (by omega)
      rw [ho] at hcode
      rw [htab, step_switch_parked pf _ _ _ _ _ _ _ _ _ _ _ _ _ 0 f0
        (map_parked_getElem _ 0 _ hf0) hcode]
      have key := @CleanShape.wind pf q n (F ++ [(c, false)]) (c + 1) 0
        f0 r1.last_caller (out ++ o) hF' (by omega) (by omega) (by simpa using hMeq) hf0
        (Or.inr (by simpa using hc))
      simp only [List.length_append, List.length_singleton, ctab_zero] at key
      rw [hMeq, h32] at key
      have hpk := filtersParked_mk (F ++ [(c, false)]) ⟨q, n⟩ (some rootRec) (some r1) 1
        (Pt.run_L78 (locals q (toUInt32 n) F.length c)) 0 (some (F.length + 2)) out []
        (some (some (F.length + 2)))
      simp only [List.length_append, List.length_singleton] at hpk
      rw [hMeq] at hpk
      exact ⟨_, key, Or.inl (by omega), Or.inl ⟨candStepOK_succ _ _
        (locals q (toUInt32 n) F.length c)
        (locals q (toUInt32 n) (toUInt32 n) ((c + 1 : Nat) : Int))
        (by rw [runLocals_run]; rfl) (by rw [runLocals_filter]; rfl)
        (by simp [locals]), hov⟩, hpk⟩
  · have hceq : c = 2147483647 := by omega
    subst hceq
    have hov : intOverflow (mk ⟨q, n⟩ (some rootRec) (some r1)
        (F.map parked ++ [parked (2147483647, false)]) 1
        (Pt.run_L78 (locals q (toUInt32 n) F.length ((2147483647 : Nat) : Int))) 0
        (some (F.length + 2)) out [] (some (some (F.length + 2)))) = true := by
      simp [intOverflow, mk, locals]
    have hcode2 : (program pf).code
        (Pt.run_L78 (locals q (toUInt32 n) F.length ((2147483647 : Nat) : Int))) 0
        (some (F.length + 2)) ⟨q, n⟩ =
        run_while pf (locals q (toUInt32 n) (F.length + 1) (-2147483648)) ⟨q, n⟩ := by
      rw [hcode]
      exact run_incr_max pf _ q _ _
    rcases Nat.lt_or_ge (F.length + 1) (toUInt32 n) with hlt2 | hge2
    · right
      right
      obtain ⟨o, ho⟩ := run_while_lt pf ⟨q, n⟩ q (toUInt32 n) (F.length + 1)
        (-2147483648) (by omega) hlt2
      rw [ho] at hcode2
      rw [htab, step_switch_parked pf _ _ _ _ _ _ _ _ _ _ _ _ _ 0 f0
        (map_parked_getElem _ 0 _ hf0) hcode2]
      have key := @WrapShape.route pf q n (F ++ [(2147483647, false)]) 0
        f0 r1.last_caller (out ++ o) hF' (by simpa using hlt2) hf0
      simp only [List.length_append, List.length_singleton, wtab_zero] at key
      exact ⟨_, key, hov, by omega⟩
    · right
      left
      have hMeq : F.length + 1 = toUInt32 n := by omega
      rw [hMeq] at hcode2
      obtain ⟨o, ho⟩ := run_while_done pf ⟨q, n⟩ q (toUInt32 n) (-2147483648) (by omega)
      rw [ho] at hcode2
      rw [htab, step_switch_parked pf _ _ _ _ _ _ _ _ _ _ _ _ _ 0 f0
        (map_parked_getElem _ 0 _ hf0) hcode2]
      have key := @CleanShape.wind pf q n (F ++ [(2147483647, false)]) (2147483647 + 1) 0
        f0 r1.last_caller (out ++ o) hF' (by omega) (by omega) (by simpa using hMeq) hf0
        (Or.inr (by simpa using hc))
      simp only [List.length_append, List.length_singleton, ctab_zero] at key
      rw [hMeq] at key
      have hpk := filtersParked_mk (F ++ [(2147483647, false)]) ⟨q, n⟩ (some rootRec)
        (some r1) 1 (Pt.run_L78 (locals q (toUInt32 n) F.length ((2147483647 : Nat) : Int)))
        0 (some (F.length + 2)) out [] (some (some (F.length + 2)))
      simp only [List.length_append, List.length_singleton] at hpk
      rw [hMeq] at hpk
      exact ⟨_, key, Or.inl (by omega), Or.inr ⟨hov, rfl⟩, hpk⟩

/-- Every step from a state of the main loop leads to a state of the main loop of
smaller rank with the candidate kept or grown by one, to the cleanup, to the states
after the wrap of the candidate, or to the states after a failed `malloc`. -/
theorem main_step_full (pf : Platform) (q : Bool) (n : Int) (r : Nat)
    (m : Machine Pt tuple) (h : MainShape pf q n r m) :
    (∃ r', r' < r ∧ MainShape pf q n r' (step (program pf) SlotRule.waker m) ∧
      candStepOK m (step (program pf) SlotRule.waker m) = true ∧ intOverflow m = false) ∨
    (∃ r', CleanShape pf q n r' (step (program pf) SlotRule.waker m) ∧
      (r' = 3 * toUInt32 n + 2 ∨ toUInt32 n = 0) ∧
      ((candStepOK m (step (program pf) SlotRule.waker m) = true ∧ intOverflow m = false) ∨
        intOverflow m = true) ∧
      m.status = Status.running ∧ m.current = 1 ∧ filtersParked m (toUInt32 n) = true) ∨
    (∃ r', WrapShape pf q n r' (step (program pf) SlotRule.waker m) ∧
      intOverflow m = true ∧ 3 ≤ r') ∨
    (∃ r', NullShape pf q n r' (step (program pf) SlotRule.waker m) ∧
      candStepOK m (step (program pf) SlotRule.waker m) = true ∧ intOverflow m = false) := by
  cases h with
  | init0 =>
    refine Or.inl ⟨_, by omega, MainShape.init1, ?_, rfl⟩
    simp [candStepOK, candOf, runLocals, step, mainFrom, fiber_main, program, prog,
      fiber_alloc, Machine.lookup, localsOf]
  | init1 =>
    left
    have h1 : runLocals (exec (program pf) SlotRule.waker 1 (mainFrom q n)) = none := by
      simp [runLocals, exec, step, mainFrom, fiber_main, program, prog, fiber_alloc,
        Machine.lookup, localsOf]
    refine ⟨2147483648 * (2 * toUInt32 n + 6) + 1, by omega, ?_, ?_, ?_⟩
    · rw [← exec_succ_right, exec_two_mainFrom]
      exact MainShape.entry
    · apply candStepOK_same
      rw [h1, ← exec_succ_right, exec_two_mainFrom, runLocals_run]
      rfl
    · simp [intOverflow, exec, step, mainFrom, fiber_main, program, prog, fiber_alloc]
  | entry =>
    rcases main_step_entry pf q n _ rfl with ⟨r', h1, h2, h3⟩ | ⟨r', h1, h2, h3, h4⟩ | h
    · exact Or.inl ⟨r', h1, h2, h3, rfl⟩
    · exact Or.inr (Or.inl ⟨r', h1, h2, Or.inl ⟨h3, rfl⟩, rfl, rfl, h4⟩)
    · obtain ⟨r', h1, h2⟩ := h
      exact Or.inr (Or.inr (Or.inr ⟨r', h1, h2, rfl⟩))
  | route F c j f lc out hF hc hc2 hp hj hnd =>
    obtain ⟨r', h1, h2, h3, _⟩ :=
      main_step_route pf q n F c j f lc out hF hc hc2 hp hj hnd _ rfl
    exact Or.inl ⟨r', h1, h2, h3, by simp [intOverflow, mk]⟩
  | reply F c j f r1 out hr1 hF hc hc2 hp hj hnd =>
    obtain ⟨r', h1, h2, h3, h4, _⟩ :=
      main_step_reply pf q n F c j f r1 out hr1 hF hc hc2 hp hj hnd _ rfl
    exact Or.inl ⟨r', h1, h2, h3, h4⟩
  | alloc F c r1 out _ hF hc hc2 hp =>
    obtain ⟨r', h1, h2, h3⟩ := main_step_alloc pf q n F c r1 out hF hc hc2 hp _ rfl
    exact Or.inl ⟨r', h1, h2, h3, rfl⟩
  | fresh F c lc out hF hc hc2 hp =>
    obtain ⟨r', h1, h2, h3⟩ := main_step_fresh pf q n F c lc out hF hc hc2 hp _ rfl
    exact Or.inl ⟨r', h1, h2, h3, by simp [intOverflow, mk]⟩
  | stored F c r1 out _ hF hc hc2 hp =>
    rcases main_step_stored pf q n F c r1 out hF hc hc2 hp _ rfl with
      h | ⟨r', h1, h2, h3, h4⟩ | h
    · exact Or.inl h
    · refine Or.inr (Or.inl ⟨r', h1, h2, ?_, rfl, rfl, h4⟩)
      rcases h3 with h3 | ⟨h3, _⟩
      · exact Or.inl h3
      · exact Or.inr h3
    · exact Or.inr (Or.inr (Or.inl h))

/-- Every step from a state of the main loop leads to a state of the main loop of
smaller rank, to the cleanup, to the states after the wrap of the candidate, or to
the states after a failed `malloc`. -/
theorem main_step (pf : Platform) (q : Bool) (n : Int) (r : Nat) (m : Machine Pt tuple)
    (h : MainShape pf q n r m) :
    (∃ r', r' < r ∧ MainShape pf q n r' (step (program pf) SlotRule.waker m)) ∨
    (∃ r', CleanShape pf q n r' (step (program pf) SlotRule.waker m) ∧
      (r' = 3 * toUInt32 n + 2 ∨ toUInt32 n = 0)) ∨
    (∃ r', WrapShape pf q n r' (step (program pf) SlotRule.waker m) ∧ 3 ≤ r') ∨
    (∃ r', NullShape pf q n r' (step (program pf) SlotRule.waker m)) := by
  rcases main_step_full pf q n r m h with
    ⟨r', h1, h2, _⟩ | ⟨r', h1, h2, _⟩ | ⟨r', h1, _, h3⟩ | ⟨r', h1, _⟩
  · exact Or.inl ⟨r', h1, h2⟩
  · exact Or.inr (Or.inl ⟨r', h1, h2⟩)
  · exact Or.inr (Or.inr (Or.inl ⟨r', h1, h3⟩))
  · exact Or.inr (Or.inr (Or.inr ⟨r', h1⟩))

theorem frl_succ (j : Nat) : frl j ++ [(j + 2, FiberState.Finished)] = frl (j + 1) := by
  simp [frl, List.range_succ]

/-- Every step of the cleanup leads to the state of the cleanup of the next lower rank
and keeps the candidate, until `prog` has returned 0. -/
theorem clean_step_full (pf : Platform) (q : Bool) (n : Int) (r : Nat)
    (m : Machine Pt tuple) (h : CleanShape pf q n r m) :
    (r = 0 ∧ m.status = Status.returned 0) ∨
    (∃ r', r = r' + 1 ∧ CleanShape pf q n r' (step (program pf) SlotRule.waker m) ∧
      candStepOK m (step (program pf) SlotRule.waker m) = true) := by
  have hM := toUInt32_lt n
  cases h with
  | wind F c j f lc out hF hc hc2 hp hj hx =>
    right
    have hjlt := getElem?_lt F j f hj
    rw [step_filter_winddown pf _ _ _ _ _ _ _ _ _ j f
      (by rw [ctab_length F j (by omega)]; exact hjlt)]
    exact ⟨_, by omega, CleanShape.back F c j f _ out rfl hF hc hc2 hp hj hx,
      candStepOK_same _ _ (by rw [runLocals_run, runLocals_filter])⟩
  | back F c j f r1 out hr1 hF hc hc2 hp hj hx =>
    right
    have hjlt := getElem?_lt F j f hj
    have hcode := code_L92 pf ⟨q, n⟩ q (toUInt32 n) F.length (toInt32 c) j 0 hjlt
    have hT : ((ctab F j).set j (finished f))[j]? = some (finished f) := by
      simp [List.getElem?_set, ctab_length F j (by omega), hjlt]
    rw [step_free pf _ _ _ _ _ _ _ _ _ _ _ j f hT hcode, ctab_set_none F j hjlt, frl_succ]
    exact ⟨_, by omega, CleanShape.freed F c j r1 out hr1 hF hc hc2 hp hjlt hx,
      candStepOK_same _ _ (by rw [runLocals_run, runLocals_run]; rfl)⟩
  | freed F c j r1 out hr1 hF hc hc2 hp hj hx =>
    right
    rcases Nat.lt_or_ge (j + 1) F.length with hlt | hge
    · have hcode := code_L93_next pf ⟨q, n⟩ q (toUInt32 n) F.length (toInt32 c) j 0 none hlt
        (by omega)
      obtain ⟨f1, hf1⟩ : ∃ f1, F[j + 1]? = some f1 :=
        ⟨F[j + 1], List.getElem?_eq_getElem hlt⟩
      rw [step_switch_parked pf _ _ _ _ _ _ _ _ _ _ _ _ _ (j + 1) f1
        (ctab_getElem F (j + 1) f1 hf1) hcode]
      have key := @CleanShape.wind pf q n F c (j + 1) f1 r1.last_caller
        (out ++ []) hF hc hc2 hp hf1 hx
      exact ⟨_, by omega, key,
        candStepOK_same _ _ (by rw [runLocals_run, runLocals_filter]; rfl)⟩
    · have hlast : j + 1 = F.length := by omega
      have hcode := code_L93_last pf ⟨q, n⟩ q (toUInt32 n) F.length (toInt32 c) j 0 none
        hlast (by omega)
      rw [step_switch_return pf _ _ _ _ _ _ _ _ _ _ hcode, hlast]
      exact ⟨_, by omega, CleanShape.root F c _ r1.last_caller (out ++ []) hF hc hc2 hp hx
        (Or.inr ⟨_, rfl⟩),
        candStepOK_same _ _ (by rw [runLocals_root, runLocals_run]; rfl)⟩
  | root F c k lc out hF hc hc2 hp hx =>
    right
    rw [step_free_run]
    exact ⟨_, by omega, CleanShape.last F c out hF hc hc2 hp hx,
      candStepOK_end _ _ (lookup_one_mk _ _ _ _ _ _ _ _ _ _ _) rfl⟩
  | last F c out hF hc hc2 hp hx =>
    right
    rw [step_prog_return]
    exact ⟨_, by omega, CleanShape.done F c out hF hc hc2 hp hx,
      candStepOK_same _ _ rfl⟩
  | done F c out hF hc hc2 hp => exact Or.inl ⟨rfl, rfl⟩

/-- Every step of the cleanup leads to the state of the cleanup of the next lower
rank, until `prog` has returned 0. -/
theorem clean_step (pf : Platform) (q : Bool) (n : Int) (r : Nat) (m : Machine Pt tuple)
    (h : CleanShape pf q n r m) :
    (r = 0 ∧ m.status = Status.returned 0) ∨
    (∃ r', r = r' + 1 ∧ CleanShape pf q n r' (step (program pf) SlotRule.waker m)) := by
  rcases clean_step_full pf q n r m h with h1 | ⟨r', h1, h2, _⟩
  · exact Or.inl h1
  · exact Or.inr ⟨r', h1, h2⟩

theorem primes_nonempty (F : List (Nat × Bool))
    (hF : F.map Prod.fst = primesBelow 2147483648) : 0 < F.length := by
  have h1 : F.length = Nat.count Nat.Prime 2147483648 := by
    rw [← primesBelow_length, ← hF]
    simp
  have h2 : Nat.count Nat.Prime 3 ≤ Nat.count Nat.Prime 2147483648 :=
    Nat.count_monotone _ (by norm_num)
  have h3 : Nat.count Nat.Prime 3 = 1 := by decide
  omega

/-- After the wrap of the candidate every step leads to the state of the next lower
rank, until the fatal error. -/
theorem wrap_step (pf : Platform) (q : Bool) (n : Int) (r : Nat) (m : Machine Pt tuple)
    (h : WrapShape pf q n r m) :
    (r = 0 ∧ m.status = Status.fatal) ∨
    (∃ r', r = r' + 1 ∧ WrapShape pf q n r' (step (program pf) SlotRule.waker m)) := by
  have hM := toUInt32_lt n
  cases h with
  | route F j f lc out hF hp hj =>
    right
    have hjlt := getElem?_lt F j f hj
    rw [step_filter_return pf _ _ _ _ _ _ (-2147483648) _ _ _ j f
      (by rw [wtab_length]; exact hjlt) (by decide), wtab_set F j f hj]
    exact ⟨_, by omega, WrapShape.reply F j f _ out rfl hF hp hj⟩
  | reply F j f r1 out hr1 hF hp hj =>
    right
    have hjlt := getElem?_lt F j f hj
    have hcode := code_L62_next pf ⟨q, n⟩ q (toUInt32 n) F.length (-2147483648) j hjlt
      (by omega)
    rcases Nat.lt_or_ge (j + 1) F.length with hlt | hge
    · obtain ⟨o, ho⟩ := run_for_lt pf ⟨q, n⟩ q (toUInt32 n) F.length (-2147483648) (j + 1)
        hlt
      rw [ho] at hcode
      obtain ⟨f1, hf1⟩ : ∃ f1, F[j + 1]? = some f1 :=
        ⟨F[j + 1], List.getElem?_eq_getElem hlt⟩
      rw [step_switch_parked pf _ _ _ _ _ _ _ _ _ _ _ _ _ (j + 1) f1
        (wtab_getElem F (j + 1) f1 hf1) hcode]
      exact ⟨_, by omega, WrapShape.route F (j + 1) f1 r1.last_caller (out ++ o) hF hp hf1⟩
    · have hlast : j + 1 = F.length := by omega
      rw [hlast] at hcode ⊢
      obtain ⟨o, ho⟩ := run_for_end pf ⟨q, n⟩ q (toUInt32 n) F.length (-2147483648)
      rw [ho] at hcode
      rw [step_alloc pf _ _ _ _ _ _ _ _ _ _ _ _ hcode, wtab_length]
      exact ⟨_, by omega, WrapShape.alloc F r1 (out ++ o) hr1 hF hp⟩
  | alloc F r1 out hr1 hF hp =>
    right
    have h := step_switch_fresh pf ⟨q, n⟩ (some rootRec) r1 (wtab F F.length)
      (locals q (toUInt32 n) F.length (-2147483648)) 0 out [] none
    rw [wtab_length] at h
    rw [h]
    exact ⟨_, by omega, WrapShape.fresh F r1.last_caller out hF hp⟩
  | fresh F lc out hF hp =>
    right
    have h := step_filter_start pf ⟨q, n⟩ (some rootRec) (wtab F F.length)
      (Pt.run_L78 (locals q (toUInt32 n) F.length (-2147483648))) lc (some (F.length + 2))
      (-2147483648) out [] none
    rw [wtab_length] at h
    rw [h]
    exact ⟨_, by omega, WrapShape.stored F _ out rfl hF hp⟩
  | stored F r1 out hr1 hF hp =>
    right
    have hpos := primes_nonempty F hF
    obtain ⟨f0, hf0⟩ : ∃ f0, F[0]? = some f0 := ⟨F[0], List.getElem?_eq_getElem hpos⟩
    have hT : (wtab F F.length ++ [minFilter])[0]? = some (finished f0) := by
      rw [List.getElem?_append_left (by rw [wtab_length]; exact hpos)]
      exact wtab_head F F.length f0 hpos hf0
    have hcode := code_L78 pf ⟨q, n⟩ q (toUInt32 n) F.length (-2147483648) 0 hp hM
    rw [run_incr_eq] at hcode
    rcases Nat.lt_or_ge (F.length + 1) (toUInt32 n) with hlt | hge
    · obtain ⟨o, ho⟩ := run_while_lt pf ⟨q, n⟩ q (toUInt32 n) (F.length + 1)
        (toInt32 (-2147483648 + 1)) (by omega) hlt
      rw [ho] at hcode
      rw [step_switch_finished pf _ _ _ _ _ _ _ _ _ _ _ _ _ f0 hT hcode]
      exact ⟨0, by omega, WrapShape.fatal F r1 (out ++ o) hr1 hF hp⟩
    · have hMeq : F.length + 1 = toUInt32 n := by omega
      rw [hMeq] at hcode
      obtain ⟨o, ho⟩ := run_while_done pf ⟨q, n⟩ q (toUInt32 n)
        (toInt32 (-2147483648 + 1)) (by omega)
      rw [ho] at hcode
      rw [step_switch_finished pf _ _ _ _ _ _ _ _ _ _ _ _ _ f0 hT hcode]
      exact ⟨0, by omega, WrapShape.fatal F r1 (out ++ o) hr1 hF hp⟩
  | fatal => exact Or.inl ⟨rfl, rfl⟩

/-- After a failed `malloc` every step leads to the state of the next lower rank,
until the write through the `NULL` array. -/
theorem null_step (pf : Platform) (q : Bool) (n : Int) (r : Nat) (m : Machine Pt tuple)
    (h : NullShape pf q n r m) :
    (r = 0 ∧ m.status = Status.undefined) ∨
    (∃ r', r = r' + 1 ∧ NullShape pf q n r' (step (program pf) SlotRule.waker m)) := by
  cases h with
  | alloc r1 out hr1 hm hM =>
    right
    have h := step_switch_fresh pf ⟨q, n⟩ (some rootRec) r1 []
      ⟨q, toUInt32 n, 0, 2, [], some 0⟩ 0 out [] none
    exact ⟨2, by omega, h ▸ NullShape.fresh r1.last_caller out hm hM⟩
  | fresh lc out hm hM =>
    right
    have h := step_filter_entry pf ⟨q, n⟩ (some rootRec) []
      (Pt.run_L78 ⟨q, toUInt32 n, 0, 2, [], some 0⟩) lc (some 2) 2 out [] none (by omega)
    exact ⟨1, by omega, h ▸ NullShape.stored _ out rfl hm hM⟩
  | stored r1 out hr1 hm hM =>
    right
    have hcode := code_L78_null pf ⟨q, n⟩ ⟨q, toUInt32 n, 0, 2, [], some 0⟩ 0 (some 2) rfl
    have h : step (program pf) SlotRule.waker
        (mk ⟨q, n⟩ (some rootRec) (some r1) [parked (2, false)] 1
          (Pt.run_L78 ⟨q, toUInt32 n, 0, 2, [], some 0⟩) 0 (some 2) out []
          (some (some 2))) =
        { mk ⟨q, n⟩ (some rootRec) (some r1) [parked (2, false)] 1
            (Pt.run_L78 ⟨q, toUInt32 n, 0, 2, [], some 0⟩) 0 (some 2) out []
            (some (some 2)) with
          status := Status.undefined } := by
      simp only [step, mk, hcode]
      simp
    rw [h]
    exact ⟨0, by omega, NullShape.crashed r1 out hr1 hm hM⟩
  | crashed => exact Or.inl ⟨rfl, rfl⟩

/-- What is known of a state of the sieve machine after any number of steps. -/
theorem reach_exec (pf : Platform) (q : Bool) (n : Int) (fuel : Nat) :
    (∃ r, MainShape pf q n r (exec (program pf) SlotRule.waker fuel (mainFrom q n))) ∨
    (∃ r, CleanShape pf q n r (exec (program pf) SlotRule.waker fuel (mainFrom q n))) ∨
    (∃ r, WrapShape pf q n r (exec (program pf) SlotRule.waker fuel (mainFrom q n))) ∨
    (∃ r, NullShape pf q n r (exec (program pf) SlotRule.waker fuel (mainFrom q n))) := by
  apply exec_invariant (program pf) SlotRule.waker
    (fun m => (∃ r, MainShape pf q n r m) ∨ (∃ r, CleanShape pf q n r m) ∨
      (∃ r, WrapShape pf q n r m) ∨ (∃ r, NullShape pf q n r m))
  · intro m hm
    rcases hm with ⟨r, h⟩ | ⟨r, h⟩ | ⟨r, h⟩ | ⟨r, h⟩
    · rcases main_step pf q n r m h with ⟨r', _, h'⟩ | ⟨r', h', _⟩ | ⟨r', h', _⟩ | h'
      · exact Or.inl ⟨r', h'⟩
      · exact Or.inr (Or.inl ⟨r', h'⟩)
      · exact Or.inr (Or.inr (Or.inl ⟨r', h'⟩))
      · exact Or.inr (Or.inr (Or.inr h'))
    · rcases clean_step pf q n r m h with ⟨_, hs⟩ | ⟨r', _, h'⟩
      · rw [step_of_not_running _ _ _ (by rw [hs]; simp)]
        exact Or.inr (Or.inl ⟨r, h⟩)
      · exact Or.inr (Or.inl ⟨r', h'⟩)
    · rcases wrap_step pf q n r m h with ⟨_, hs⟩ | ⟨r', _, h'⟩
      · rw [step_of_not_running _ _ _ (by rw [hs]; simp)]
        exact Or.inr (Or.inr (Or.inl ⟨r, h⟩))
      · exact Or.inr (Or.inr (Or.inl ⟨r', h'⟩))
    · rcases null_step pf q n r m h with ⟨_, hs⟩ | ⟨r', _, h'⟩
      · rw [step_of_not_running _ _ _ (by rw [hs]; simp)]
        exact Or.inr (Or.inr (Or.inr ⟨r, h⟩))
      · exact Or.inr (Or.inr (Or.inr ⟨r', h'⟩))
  · exact Or.inl ⟨_, MainShape.init0⟩

/-- The candidate wraps inside the main loop only with `max_primes` above the number
of primes up to `INT32_MAX`. -/
theorem wrap_count (pf : Platform) (q : Bool) (n : Int) (r : Nat) (m : Machine Pt tuple)
    (h : WrapShape pf q n r m) : Nat.count Nat.Prime 2147483648 < toUInt32 n := by
  have key : ∀ (F : List (Nat × Bool)), F.map Prod.fst = primesBelow 2147483648 →
      F.length < toUInt32 n → Nat.count Nat.Prime 2147483648 < toUInt32 n := by
    intro F hF hp
    rw [← primesBelow_length, ← hF]
    simpa using hp
  cases h with
  | route F j f lc out hF hp => exact key F hF hp
  | reply F j f r1 out hr1 hF hp => exact key F hF hp
  | alloc F r1 out hr1 hF hp => exact key F hF hp
  | fresh F lc out hF hp => exact key F hF hp
  | stored F r1 out hr1 hF hp => exact key F hF hp
  | fatal F r1 out hr1 hF hp => exact key F hF hp

/-- The states after a failed `malloc` occur only where `malloc` fails for an array
of at least one handle. -/
theorem null_malloc (pf : Platform) (q : Bool) (n : Int) (r : Nat) (m : Machine Pt tuple)
    (h : NullShape pf q n r m) (hm : toUInt32 n = 0 ∨ pf.malloc_ok (toUInt32 n) = true) :
    False := by
  have key : pf.malloc_ok (toUInt32 n) = false → 0 < toUInt32 n → False := by
    intro h1 h2
    rcases hm with h3 | h3
    · omega
    · rw [h1] at h3
      cases h3
  cases h with
  | alloc r1 out hr1 h1 h2 => exact key h1 h2
  | fresh lc out h1 h2 => exact key h1 h2
  | stored r1 out hr1 h1 h2 => exact key h1 h2
  | crashed r1 out hr1 h1 h2 => exact key h1 h2

/-- With the array granted by `malloc` (or `max_primes = 0`) and `max_primes` at most
the number of primes up to `INT32_MAX`, every state is one of the main loop or of the
cleanup. -/
theorem reach_ok (pf : Platform) (q : Bool) (n : Int)
    (hm : toUInt32 n = 0 ∨ pf.malloc_ok (toUInt32 n) = true)
    (hN : toUInt32 n ≤ Nat.count Nat.Prime 2147483648) (fuel : Nat) :
    (∃ r, MainShape pf q n r (exec (program pf) SlotRule.waker fuel (mainFrom q n))) ∨
    (∃ r, CleanShape pf q n r (exec (program pf) SlotRule.waker fuel (mainFrom q n))) := by
  rcases reach_exec pf q n fuel with h | h | ⟨r, h⟩ | ⟨r, h⟩
  · exact Or.inl h
  · exact Or.inr h
  · have := wrap_count pf q n r _ h
    omega
  · exact (null_malloc pf q n r _ h hm).elim

/-- The main loop is left after finitely many steps: in the first state of the
cleanup, by the wrap of the candidate, or after a failed `malloc`. -/
theorem main_exits_general (pf : Platform) (q : Bool) (n : Int) (r : Nat) :
    ∀ m, MainShape pf q n r m →
      ∃ fuel, (∃ r', CleanShape pf q n r' (exec (program pf) SlotRule.waker fuel m) ∧
          (r' = 3 * toUInt32 n + 2 ∨ toUInt32 n = 0)) ∨
        (∃ r', WrapShape pf q n r' (exec (program pf) SlotRule.waker fuel m) ∧ 3 ≤ r') ∨
        (∃ r', NullShape pf q n r' (exec (program pf) SlotRule.waker fuel m)) := by
  induction r using Nat.strong_induction_on with
  | _ r ih =>
    intro m h
    rcases main_step pf q n r m h with ⟨r', hlt, h'⟩ | ⟨r', h', hr⟩ | h' | h'
    · obtain ⟨fuel, h2⟩ := ih r' hlt _ h'
      exact ⟨fuel + 1, h2⟩
    · exact ⟨1, Or.inl ⟨r', h', hr⟩⟩
    · exact ⟨1, Or.inr (Or.inl h')⟩
    · exact ⟨1, Or.inr (Or.inr h')⟩

/-- With the array granted by `malloc` (or `max_primes = 0`) and `max_primes` at most
the number of primes up to `INT32_MAX`, the main loop is left after finitely many
steps, in the first state of the cleanup. -/
theorem main_exits (pf : Platform) (q : Bool) (n : Int)
    (hm : toUInt32 n = 0 ∨ pf.malloc_ok (toUInt32 n) = true)
    (hN : toUInt32 n ≤ Nat.count Nat.Prime 2147483648) (r : Nat)
    (m : Machine Pt tuple) (h : MainShape pf q n r m) :
    ∃ fuel r', CleanShape pf q n r' (exec (program pf) SlotRule.waker fuel m) ∧
      (r' = 3 * toUInt32 n + 2 ∨ toUInt32 n = 0) := by
  obtain ⟨fuel, h1 | ⟨r', h1, _⟩ | ⟨r', h1⟩⟩ := main_exits_general pf q n r m h
  · obtain ⟨r', h2⟩ := h1
    exact ⟨fuel, r', h2⟩
  · have := wrap_count pf q n r' _ h1
    omega
  · exact (null_malloc pf q n r' _ h1 hm).elim

/-- The cleanup ends after finitely many steps with `prog` returning 0. -/
theorem clean_returns (pf : Platform) (q : Bool) (n : Int) (r : Nat) :
    ∀ m, CleanShape pf q n r m →
      ∃ fuel, CleanShape pf q n 0 (exec (program pf) SlotRule.waker fuel m) := by
  induction r using Nat.strong_induction_on with
  | _ r ih =>
    intro m h
    rcases clean_step pf q n r m h with ⟨hr, _⟩ | ⟨r', hlt, h'⟩
    · subst hr
      exact ⟨0, h⟩
    · obtain ⟨fuel, h2⟩ := ih r' (by omega) _ h'
      exact ⟨fuel + 1, h2⟩

/-- After the wrap of the candidate the fatal error is reached after finitely many
steps. -/
theorem wrap_fatal (pf : Platform) (q : Bool) (n : Int) (r : Nat) :
    ∀ m, WrapShape pf q n r m →
      ∃ fuel, WrapShape pf q n 0 (exec (program pf) SlotRule.waker fuel m) := by
  induction r using Nat.strong_induction_on with
  | _ r ih =>
    intro m h
    rcases wrap_step pf q n r m h with ⟨hr, _⟩ | ⟨r', hlt, h'⟩
    · subst hr
      exact ⟨0, h⟩
    · obtain ⟨fuel, h2⟩ := ih r' (by omega) _ h'
      exact ⟨fuel + 1, h2⟩

/-- With the array granted by `malloc` (or `max_primes = 0`) and `max_primes` at most
the number of primes up to `INT32_MAX`, every execution of the sieve ends with `prog`
returning 0. -/
theorem sieve_stops (pf : Platform) (q : Bool) (n : Int)
    (hm : toUInt32 n = 0 ∨ pf.malloc_ok (toUInt32 n) = true)
    (hN : toUInt32 n ≤ Nat.count Nat.Prime 2147483648) :
    ∃ fuel, CleanShape pf q n 0 (exec (program pf) SlotRule.waker fuel (mainFrom q n)) ∧
      (exec (program pf) SlotRule.waker fuel (mainFrom q n)).status = Status.returned 0 := by
  obtain ⟨f1, r', h2, _⟩ := main_exits pf q n hm hN _ _ (@MainShape.init0 pf q n)
  obtain ⟨f2, h3⟩ := clean_returns pf q n r' _ h2
  refine ⟨f1 + f2, ?_, ?_⟩
  · rw [exec_add]
    exact h3
  · rw [exec_add]
    rcases clean_step pf q n 0 _ h3 with ⟨_, hs⟩ | ⟨r2, hlt, _⟩
    · exact hs
    · omega

end SieveSwitch


namespace FiberC

/-! ## A step that is not the fatal error had its preconditions -/

end FiberC


namespace SieveSwitch
open FiberC

/-! ## What the shapes say about a state -/

theorem exec_one_mainFrom (pf : Platform) (q : Bool) (n : Int) :
    exec (program pf) SlotRule.waker 1 (mainFrom q n) =
      { fibers := [some ⟨FiberState.Running, Pt.prog_L122 q n, none, none⟩,
                   some ⟨FiberState.Fresh, Pt.run, none, none⟩],
        current := 0, pc := Pt.prog_L123, rv := 0, rh := some 1, mem := ⟨q, n⟩,
        stdout := [], stderr := [], freed := [], returned_from := none,
        status := Status.running } := by
  simp [exec, step, mainFrom, fiber_main, program, prog, fiber_alloc]

theorem main_status (pf : Platform) (q : Bool) (n : Int) (r : Nat) (m : Machine Pt tuple)
    (h : MainShape pf q n r m) : m.status = Status.running := by
  cases h <;> rfl

theorem clean_status (pf : Platform) (q : Bool) (n : Int) (r : Nat) (m : Machine Pt tuple)
    (h : CleanShape pf q n r m) :
    m.status = Status.running ∨ m.status = Status.returned 0 := by
  cases h <;> first | exact Or.inl rfl | exact Or.inr rfl

theorem wrap_status (pf : Platform) (q : Bool) (n : Int) (r : Nat) (m : Machine Pt tuple)
    (h : WrapShape pf q n r m) :
    m.status = Status.running ∨ m.status = Status.fatal := by
  cases h <;> first | exact Or.inl rfl | exact Or.inr rfl

theorem main_handleStable (pf : Platform) (q : Bool) (n : Int) (r : Nat)
    (m : Machine Pt tuple) (h : MainShape pf q n r m) : handleStable m = true := by
  cases h <;> first | rfl | simp [handleStable, mk]

theorem clean_handleStable (pf : Platform) (q : Bool) (n : Int) (r : Nat)
    (m : Machine Pt tuple) (h : CleanShape pf q n r m) : handleStable m = true := by
  cases h <;> first | rfl | simp [handleStable, mk]

theorem wrap_handleStable (pf : Platform) (q : Bool) (n : Int) (r : Nat)
    (m : Machine Pt tuple) (h : WrapShape pf q n r m) : handleStable m = true := by
  cases h <;> first | rfl | simp [handleStable, mk]

theorem null_handleStable (pf : Platform) (q : Bool) (n : Int) (r : Nat)
    (m : Machine Pt tuple) (h : NullShape pf q n r m) : handleStable m = true := by
  cases h <;> rfl

end SieveSwitch


namespace SieveSwitch
open FiberC

/-! ## The filters are seeded with the primes in order -/

theorem primesBelow_getElem (c k : Nat) (hk : k < (primesBelow c).length) :
    (primesBelow c)[k]? = some (Nat.nth Nat.Prime k) := by
  induction c with
  | zero => simp [primesBelow] at hk
  | succ c ih =>
    by_cases hc : Nat.Prime c
    · rw [primesBelow_succ_prime c hc] at hk ⊢
      rcases Nat.lt_or_ge k (primesBelow c).length with h | h
      · rw [List.getElem?_append_left h]
        exact ih h
      · have hk' : k = (primesBelow c).length := by
          simp at hk
          omega
        subst hk'
        rw [List.getElem?_append_right (le_refl _)]
        simp only [Nat.sub_self, List.getElem?_cons_zero, Option.some.injEq]
        rw [primesBelow_length]
        exact (Nat.nth_count hc).symm
    · rw [primesBelow_succ_not c hc] at hk ⊢
      exact ih hk

/-- The seed of filter `k` is the `(k+1)`-th prime. -/
theorem seed_eq_nth (F : List (Nat × Bool)) (c k : Nat) (g : Nat × Bool)
    (hF : F.map Prod.fst = primesBelow c) (hk : F[k]? = some g) :
    g.1 = Nat.nth Nat.Prime k := by
  have hlt := getElem?_lt F k g hk
  have h1 : (F.map Prod.fst)[k]? = some g.1 := by simp [hk]
  rw [hF, primesBelow_getElem c k (by rw [← hF]; simpa using hlt)] at h1
  exact (Option.some.inj h1).symm

/-- With the `n`-th prime at most `INT32_MAX`, `n` is at most the number of primes up
to `INT32_MAX` and fits `uint32_t`. -/
theorem bound_no_overflow (n : Nat) (hn : 1 ≤ n)
    (hb : Nat.nth Nat.Prime (n - 1) ≤ 2147483647) :
    toUInt32 (n : Int) ≤ Nat.count Nat.Prime 2147483648 ∧ toUInt32 (n : Int) = n := by
  have h1 : n - 1 < Nat.count Nat.Prime 2147483648 :=
    (Nat.lt_nth_iff_count_lt Nat.infinite_setOf_prime).2 (Nat.lt_succ_of_le hb)
  have h2 : Nat.count Nat.Prime 2147483648 ≤ 2147483648 := Nat.count_le _
  have h3 : toUInt32 (n : Int) = n := by
    unfold toUInt32
    omega
  rw [h3]
  exact ⟨by omega, rfl⟩

end SieveSwitch


namespace SieveSwitch
open FiberC

/-! ## Frees -/

end SieveSwitch


namespace SieveSwitch
open FiberC

/-! ## Runs in which the candidate wraps -/

end SieveSwitch


namespace SieveSwitch
open FiberC

/-! ## C1: the result of the sieve -/

/-- The first state of the cleanup, for `max_primes` at least 1, is the state in
which filter 0 has just been switched into. -/
theorem first_clean_state (pf : Platform) (q : Bool) (n : Int) (r : Nat)
    (m : Machine Pt tuple) (h : CleanShape pf q n r m) (hr : r = 3 * toUInt32 n + 2)
    (hM : 0 < toUInt32 n) :
    ∃ F c f lc out, F.map Prod.fst = primesBelow c ∧ F.length = toUInt32 n ∧
      F[0]? = some f ∧
      2 ≤ c ∧ c ≤ 2147483648 ∧ ((c = 2 ∧ F = []) ∨ Nat.Prime (c - 1)) ∧
      m = mk ⟨q, n⟩ (some rootRec)
          (some ⟨FiberState.Suspended,
            Pt.run_L92 (locals q (toUInt32 n) F.length (toInt32 c)) 0, lc, some (0 + 2)⟩)
          ((ctab F 0).set 0 (active f)) (0 + 2) (parkedPt f) 0 (some 1) out (frl 0)
          (some (some 1)) := by
  cases h with
  | wind F c j f lc out hF hc hc2 hp hj hx =>
    have hjlt := getElem?_lt F j f hj
    have hj0 : j = 0 := by omega
    subst hj0
    exact ⟨F, c, f, lc, out, hF, hp, hj, hc, hc2, hx, rfl⟩
  | back F c j f r1 out hr1 hF hc hc2 hp hj => omega
  | freed F c j r1 out hr1 hF hc hc2 hp hj => omega
  | root F c k lc out hF hc hc2 hp => omega
  | last F c out hF hc hc2 hp => omega
  | done F c out hF hc hc2 hp => omega

theorem count_prime_int32 :
    Nat.count Nat.Prime 2147483648 = Nat.count Nat.Prime 2147483647 + 1 := by
  rw [show 2147483648 = 2147483647 + 1 by norm_num, Nat.count_succ, if_pos mersenne31_prime]

end SieveSwitch


namespace HelloSwitch
open FiberC

/-! ## The hello program -/

theorem hello_stops :
    (exec (program true) SlotRule.waker 19 main).status ≠ Status.running := by
  decide

theorem hello_checked : ∀ k, k < 19 + 1 →
    (switchSafe (program true) (exec (program true) SlotRule.waker k main) = true ∧
      freeSafe (program true) (exec (program true) SlotRule.waker k main) = true ∧
      freedAtReturn (exec (program true) SlotRule.waker k main) = true ∧
      handleStable (exec (program true) SlotRule.waker k main) = true ∧
      (exec (program true) SlotRule.waker k main).status ≠ Status.fatal) := by
  decide

/-- C2: under `fiber_main`, with `hello` entered with the root's handle (handle 0, not
NULL) as `main_fiber`, `prog` of hello_switch.c writes exactly the 12 characters
"hello world\n" to stdout, nothing to stderr, and returns NULL; more fuel changes
nothing. -/
theorem hello_output (k : Nat) :
    (exec (program true) SlotRule.waker 2 main).pc = Pt.hello ∧
    (exec (program true) SlotRule.waker 2 main).rh = some 0 ∧
    (exec (program true) SlotRule.waker (19 + k) main).status = Status.returned 0 ∧
    (exec (program true) SlotRule.waker (19 + k) main).stdout =
      ['h', 'e', 'l', 'l', 'o', ' ', 'w', 'o', 'r', 'l', 'd', Char.ofNat 10] ∧
    (exec (program true) SlotRule.waker (19 + k) main).stderr = [] := by
  rw [exec_stable (program true) SlotRule.waker 19 (19 + k) main hello_stops (by omega)]
  decide

theorem hello_fallthrough_stops :
    (exec (program false) SlotRule.waker 19 main).status ≠ Status.running := by
  decide

theorem hello_fallthrough_lockstep : ∀ k, k < 19 + 1 →
    ((exec (program false) SlotRule.waker k main).stdout =
        (exec (program true) SlotRule.waker k main).stdout ∧
      (exec (program false) SlotRule.waker k main).stderr =
        (exec (program true) SlotRule.waker k main).stderr ∧
      (exec (program false) SlotRule.waker k main).status =
        (exec (program true) SlotRule.waker k main).status ∧
      (exec (program false) SlotRule.waker k main).current =
        (exec (program true) SlotRule.waker k main).current ∧
      (exec (program false) SlotRule.waker k main).pc =
        (exec (program true) SlotRule.waker k main).pc ∧
      (exec (program false) SlotRule.waker k main).freed =
        (exec (program true) SlotRule.waker k main).freed) := by
  decide

/-- C8: with the call `fiber_switch_return(main_fiber, i)` of line 39 removed, `hello`
returns after freeing `world_fiber` (state 16) and the trampoline transfers to its
cached `last_caller`, the root, where the original transfers to `main_fiber`, the
root as well; in both programs the next state has `prog` resumed after its
`fiber_switch` (line 52).  After any number of steps the two programs have the same
stdout, stderr, status, running fiber, program point and record of frees, and both
end with `prog` returning 0 and stdout "hello world\n". -/
theorem hello_return_falls_through (fuel : Nat) :
    nextRequest (program true) (exec (program true) SlotRule.waker 16 main) =
      Request.fiber_switch_return (some 0) 5 ∧
    nextRequest (program false) (exec (program false) SlotRule.waker 16 main) =
      Request.ret 0 ∧
    (exec (program false) SlotRule.waker 16 main).current = 1 ∧
    ((exec (program false) SlotRule.waker 16 main).lookup 1).map (fun r => r.last_caller) =
      some (some 0) ∧
    (exec (program false) SlotRule.waker 17 main).current = 0 ∧
    (exec (program false) SlotRule.waker 17 main).pc = Pt.prog_L52 ∧
    (exec (program true) SlotRule.waker 17 main).pc = Pt.prog_L52 ∧
    (exec (program false) SlotRule.waker fuel main).stdout =
      (exec (program true) SlotRule.waker fuel main).stdout ∧
    (exec (program false) SlotRule.waker fuel main).stderr =
      (exec (program true) SlotRule.waker fuel main).stderr ∧
    (exec (program false) SlotRule.waker fuel main).status =
      (exec (program true) SlotRule.waker fuel main).status ∧
    (exec (program false) SlotRule.waker fuel main).current =
      (exec (program true) SlotRule.waker fuel main).current ∧
    (exec (program false) SlotRule.waker fuel main).pc =
      (exec (program true) SlotRule.waker fuel main).pc ∧
    (exec (program false) SlotRule.waker fuel main).freed =
      (exec (program true) SlotRule.waker fuel main).freed ∧
    (exec (program false) SlotRule.waker (19 + fuel) main).status = Status.returned 0 ∧
    (exec (program false) SlotRule.waker (19 + fuel) main).stdout =
      ['h', 'e', 'l', 'l', 'o', ' ', 'w', 'o', 'r', 'l', 'd', Char.ofNat 10] := by
  refine ⟨by decide, by decide, by decide, by decide, by decide, by decide, by decide, ?_⟩
  have hfinal : (exec (program false) SlotRule.waker (19 + fuel) main).status =
        Status.returned 0 ∧
      (exec (program false) SlotRule.waker (19 + fuel) main).stdout =
        ['h', 'e', 'l', 'l', 'o', ' ', 'w', 'o', 'r', 'l', 'd', Char.ofNat 10] := by
    rw [exec_stable (program false) SlotRule.waker 19 (19 + fuel) main hello_fallthrough_stops
      (by omega)]
    decide
  rcases Nat.lt_or_ge fuel (19 + 1) with h | h
  · obtain ⟨h1, h2, h3, h4, h5, h6⟩ := hello_fallthrough_lockstep fuel h
    exact ⟨h1, h2, h3, h4, h5, h6, hfinal⟩
  · rw [exec_stable (program false) SlotRule.waker 19 fuel main hello_fallthrough_stops
      (by omega),
      exec_stable (program true) SlotRule.waker 19 fuel main hello_stops (by omega)]
    obtain ⟨h1, h2, h3, h4, h5, h6⟩ := hello_fallthrough_lockstep 19 (by omega)
    exact ⟨h1, h2, h3, h4, h5, h6, hfinal⟩

end HelloSwitch


namespace SieveSwitch
open FiberC

/-! ## Facts shared by the claims on switches and frees -/

end SieveSwitch

namespace Examples
open FiberC

/-! ## Both examples: handles, switches and frees -/

/-- Under the literal reading of section 4.E, in which the switching fiber writes its
own handle into the slot it passes, the first `fiber_switch(world_fiber, i,
&world_fiber)` of `hello` returns with `world_fiber` holding the handle of `hello`
itself (1) instead of that of `world` (2), and the next switch is the fatal error. -/
theorem literal_slot_rule_breaks_hello :
    (exec (HelloSwitch.program true) SlotRule.current 5 HelloSwitch.main).status =
      Status.running ∧
    (exec (HelloSwitch.program true) SlotRule.current 5 HelloSwitch.main).current = 1 ∧
    (exec (HelloSwitch.program true) SlotRule.current 5 HelloSwitch.main).returned_from =
      some (some 2) ∧
    (exec (HelloSwitch.program true) SlotRule.current 5 HelloSwitch.main).rh = some 1 ∧
    handleStable (exec (HelloSwitch.program true) SlotRule.current 5 HelloSwitch.main) =
      false ∧
    (exec (HelloSwitch.program true) SlotRule.current 6 HelloSwitch.main).status =
      Status.fatal := by
  decide

/-- C5: with the slot of a suspended `fiber_switch` call receiving the handle of the
fiber that transfers back, in hello and in the sieve (every `result`, quiet or not,
whatever `malloc` does) every `fiber_switch(h, v, &h)` call returns with `h` holding
the handle it held when the call was made; so does the first
`fiber_switch(world_fiber, i, &world_fiber)` of `hello`, with handle 2. -/
theorem handle_stable :
    (exec (HelloSwitch.program true) SlotRule.waker 5 HelloSwitch.main).returned_from =
      some (some 2) ∧
    (exec (HelloSwitch.program true) SlotRule.waker 5 HelloSwitch.main).rh = some 2 ∧
    (∀ fuel, handleStable
      (exec (HelloSwitch.program true) SlotRule.waker fuel HelloSwitch.main) = true) ∧
    (∀ pf quiet n fuel, handleStable
      (exec (SieveSwitch.program pf) SlotRule.waker fuel (SieveSwitch.mainFrom quiet n)) =
        true) := by
  refine ⟨by decide, by decide, ?_, ?_⟩
  · intro fuel
    exact exec_forall_of_bounded (HelloSwitch.program true) SlotRule.waker
      (fun m => handleStable m = true) 19 HelloSwitch.main HelloSwitch.hello_stops
      (fun k hk => (HelloSwitch.hello_checked k hk).2.2.2.1) fuel
  · intro pf quiet n fuel
    rcases SieveSwitch.reach_exec pf quiet n fuel with ⟨r, h⟩ | ⟨r, h⟩ | ⟨r, h⟩ | ⟨r, h⟩
    · exact SieveSwitch.main_handleStable pf quiet n r _ h
    · exact SieveSwitch.clean_handleStable pf quiet n r _ h
    · exact SieveSwitch.wrap_handleStable pf quiet n r _ h
    · exact SieveSwitch.null_handleStable pf quiet n r _ h

end Examples


namespace SieveSwitch
open FiberC

/-! ## Concrete runs of the sieve -/

/-- C3, failing input: with `max_primes = 3`, not quiet, stdout is not "2 3 5 " and the
summary: lines 57 to 60 write "Filter 1 fiber pointer: " and a pointer when candidate
5 reaches filter 1; the same line is written in quiet mode. -/
theorem sieve_stdout_has_debug_line :
    (exec (program pf0) SlotRule.waker 31 (mainFrom false 3)).status = Status.returned 0 ∧
    (exec (program pf0) SlotRule.waker 31 (mainFrom false 3)).stdout =
      "2 3 Filter 1 fiber pointer: ".toList ++ pf0.ptr_text ++ [Char.ofNat 10] ++
        "5 ".toList ++ [Char.ofNat 10] ++ "Computed 3 primes.".toList ++ [Char.ofNat 10] ∧
    (exec (program pf0) SlotRule.waker 31 (mainFrom false 3)).stdout ≠
      "2 3 5 ".toList ++ [Char.ofNat 10] ++ "Computed 3 primes.".toList ++ [Char.ofNat 10] ∧
    (exec (program pf0) SlotRule.waker 31 (mainFrom true 3)).stdout =
      "Filter 1 fiber pointer: ".toList ++ pf0.ptr_text ++ [Char.ofNat 10] ++
        "Computed 3 primes.".toList ++ [Char.ofNat 10] := by
  decide

/-- C4, failing input: `prog` given "0" prints no input error and runs the sieve with
`max_primes = 0`, returning 0; given "203280221", above `MAX_PRIMES_LIMIT`, it
allocates `run` with `result = 203280221`; the error is printed for "x". -/
theorem input_out_of_range_accepted :
    (exec (program pf0) SlotRule.waker 5 (main ["sieve".toList, "0".toList])).status =
      Status.returned 0 ∧
    (exec (program pf0) SlotRule.waker 5 (main ["sieve".toList, "0".toList])).stderr = [] ∧
    (exec (program pf0) SlotRule.waker 5 (main ["sieve".toList, "0".toList])).stdout =
      [Char.ofNat 10] ++ "Computed 0 primes.".toList ++ [Char.ofNat 10] ∧
    (exec (program pf0) SlotRule.waker 1
      (main ["sieve".toList, "203280221".toList])).status = Status.running ∧
    (exec (program pf0) SlotRule.waker 1
      (main ["sieve".toList, "203280221".toList])).mem = ⟨false, 203280221⟩ ∧
    (exec (program pf0) SlotRule.waker 1
      (main ["sieve".toList, "203280221".toList])).fibers.length = 2 ∧
    (exec (program pf0) SlotRule.waker 1
      (main ["sieve".toList, "203280221".toList])).stderr = [] ∧
    (exec (program pf0) SlotRule.waker 1 (main ["sieve".toList, "x".toList])).status =
      Status.exited 1 ∧
    (exec (program pf0) SlotRule.waker 1 (main ["sieve".toList, "x".toList])).stderr =
      "error: input must be a positive integer in the interval [1, 203280220]".toList
        ++ [Char.ofNat 10] := by
  decide

/-- C10, failing input: with four arguments of which `argv[2]` is not a number, `prog`
prints the input error and no usage line; with one argument it reads `argv[2]` beyond
the argument vector; the usage line is printed when `argv[2]` is a number. -/
theorem usage_check_after_input_check :
    (exec (program pf0) SlotRule.waker 1
      (main ["sieve".toList, "-q".toList, "x".toList, "7".toList])).status =
        Status.exited 1 ∧
    (exec (program pf0) SlotRule.waker 1
      (main ["sieve".toList, "-q".toList, "x".toList, "7".toList])).stdout = [] ∧
    (exec (program pf0) SlotRule.waker 1
      (main ["sieve".toList, "-q".toList, "x".toList, "7".toList])).stderr =
      "error: input must be a positive integer in the interval [1, 203280220]".toList
        ++ [Char.ofNat 10] ∧
    (exec (program pf0) SlotRule.waker 1 (main ["sieve".toList])).status =
      Status.undefined ∧
    (exec (program pf0) SlotRule.waker 1 (main ["sieve".toList])).stdout = [] ∧
    (exec (program pf0) SlotRule.waker 1
      (main ["sieve".toList, "-q".toList, "5".toList, "7".toList])).status =
        Status.exited 1 ∧
    (exec (program pf0) SlotRule.waker 1
      (main ["sieve".toList, "-q".toList, "5".toList, "7".toList])).stdout =
      "usage: sieve [-q] <n>".toList ++ [Char.ofNat 10] := by
  decide

end SieveSwitch


namespace SieveSwitch
open FiberC

/-! ## What the shapes say about the array, the seeds and the first reply -/

theorem main_writeInBounds (pf : Platform) (q : Bool) (n : Int) (r : Nat)
    (m : Machine Pt tuple) (h : MainShape pf q n r m) : writeInBounds m = true := by
  cases h with
  | init0 => rfl
  | init1 =>
    rw [exec_one_mainFrom]
    rfl
  | entry => rfl
  | route F c j f lc out hF hc hc2 hp hj hnd =>
    obtain ⟨a, b⟩ := f
    cases b <;> rfl
  | reply => rfl
  | alloc => rfl
  | fresh => rfl
  | stored F c r1 out hr1 hF hc hc2 hp =>
    simp [writeInBounds, mk, locals, arr_length _ _ (Nat.le_of_lt hp), hp]

theorem clean_writeInBounds (pf : Platform) (q : Bool) (n : Int) (r : Nat)
    (m : Machine Pt tuple) (h : CleanShape pf q n r m) : writeInBounds m = true := by
  cases h with
  | wind F c j f lc out hF hc hc2 hp hj hx =>
    obtain ⟨a, b⟩ := f
    cases b <;> rfl
  | back => rfl
  | freed => rfl
  | root => rfl
  | last => rfl
  | done => rfl

theorem readsWritten_running (t : tuple) (r0 : Option (FiberRec Pt)) (r1 : FiberRec Pt)
    (T : List (Option (FiberRec Pt))) (cur : Nat) (pc : Pt) (rv : Int) (rh : FiberHandle)
    (out : List Char) (fr : List (Nat × FiberState)) (rf : Option FiberHandle)
    (hr1 : r1.state ≠ FiberState.Suspended) :
    readsWritten (mk t r0 (some r1) T cur pc rv rh out fr rf) = true := by
  obtain ⟨st, sc, lc, sw⟩ := r1
  cases st <;> first | rfl | exact absurd rfl hr1

theorem main_readsWritten (pf : Platform) (q : Bool) (n : Int) (r : Nat)
    (m : Machine Pt tuple) (h : MainShape pf q n r m) : readsWritten m = true := by
  cases h with
  | init0 => rfl
  | init1 =>
    rw [exec_one_mainFrom]
    rfl
  | entry => rfl
  | route F c j f lc out hF hc hc2 hp hj hnd =>
    have hjlt := getElem?_lt F j f hj
    simp [readsWritten, mk, Machine.lookup, locals, arr_getElem _ _ _ hjlt, hjlt]
  | reply F c j f r1 out hr1 =>
    exact readsWritten_running _ _ _ _ _ _ _ _ _ _ _ (by rw [hr1]; simp)
  | alloc F c r1 out hr1 =>
    exact readsWritten_running _ _ _ _ _ _ _ _ _ _ _ (by rw [hr1]; simp)
  | fresh => rfl
  | stored F c r1 out hr1 =>
    exact readsWritten_running _ _ _ _ _ _ _ _ _ _ _ (by rw [hr1]; simp)

theorem clean_readsWritten (pf : Platform) (q : Bool) (n : Int) (r : Nat)
    (m : Machine Pt tuple) (h : CleanShape pf q n r m) : readsWritten m = true := by
  cases h with
  | wind F c j f lc out hF hc hc2 hp hj hx =>
    have hjlt := getElem?_lt F j f hj
    simp [readsWritten, mk, Machine.lookup, locals, arr_getElem _ _ _ hjlt, hjlt]
  | back F c j f r1 out hr1 =>
    exact readsWritten_running _ _ _ _ _ _ _ _ _ _ _ (by rw [hr1]; simp)
  | freed F c j r1 out hr1 =>
    exact readsWritten_running _ _ _ _ _ _ _ _ _ _ _ (by rw [hr1]; simp)
  | root => rfl
  | last => rfl
  | done => rfl

theorem wrap_writeInBounds (pf : Platform) (q : Bool) (n : Int) (r : Nat)
    (m : Machine Pt tuple) (h : WrapShape pf q n r m) : writeInBounds m = true := by
  cases h with
  | route F j f lc out hF hp hj =>
    obtain ⟨a, b⟩ := f
    cases b <;> rfl
  | reply => rfl
  | alloc => rfl
  | fresh => rfl
  | stored F r1 out hr1 hF hp =>
    simp [writeInBounds, mk, locals, arr_length _ _ (Nat.le_of_lt hp), hp]
  | fatal => rfl

theorem wrap_readsWritten (pf : Platform) (q : Bool) (n : Int) (r : Nat)
    (m : Machine Pt tuple) (h : WrapShape pf q n r m) : readsWritten m = true := by
  cases h with
  | route F j f lc out hF hp hj =>
    have hjlt := getElem?_lt F j f hj
    simp [readsWritten, mk, Machine.lookup, locals, arr_getElem _ _ _ hjlt, hjlt]
  | reply F j f r1 out hr1 =>
    exact readsWritten_running _ _ _ _ _ _ _ _ _ _ _ (by rw [hr1]; simp)
  | alloc F r1 out hr1 =>
    exact readsWritten_running _ _ _ _ _ _ _ _ _ _ _ (by rw [hr1]; simp)
  | fresh => rfl
  | stored F r1 out hr1 =>
    exact readsWritten_running _ _ _ _ _ _ _ _ _ _ _ (by rw [hr1]; simp)
  | fatal => rfl

end SieveSwitch


namespace SieveSwitch
open FiberC

/-! ## The routing of a candidate -/

theorem asking_running (t : tuple) (r0 : Option (FiberRec Pt)) (r1 : FiberRec Pt)
    (T : List (Option (FiberRec Pt))) (cur : Nat) (pc : Pt) (rv : Int) (rh : FiberHandle)
    (out : List Char) (fr : List (Nat × FiberState)) (rf : Option FiberHandle)
    (hr1 : r1.state ≠ FiberState.Suspended) :
    asking (mk t r0 (some r1) T cur pc rv rh out fr rf) = none := by
  obtain ⟨st, sc, lc, sw⟩ := r1
  cases st <;> first | rfl | exact absurd rfl hr1

theorem asking_suspended (t : tuple) (r0 : Option (FiberRec Pt)) (l : RunLocals) (j : Nat)
    (lc sw : FiberHandle) (T : List (Option (FiberRec Pt))) (cur : Nat) (pc : Pt)
    (rv : Int) (rh : FiberHandle) (out : List Char) (fr : List (Nat × FiberState))
    (rf : Option FiberHandle) :
    asking (mk t r0 (some ⟨FiberState.Suspended, Pt.run_L62 l j, lc, sw⟩) T cur pc rv rh
      out fr rf) = some (j, l.i, l.p) := rfl

/-- A state of the main loop in which `run` is suspended in the switch of line 62 is a
routing state. -/
theorem main_asking_inv (pf : Platform) (q : Bool) (n : Int) (r : Nat)
    (m : Machine Pt tuple) (h : MainShape pf q n r m) (j : Nat) (c : Int) (p : Nat)
    (ha : asking m = some (j, c, p)) :
    ∃ (F : List (Nat × Bool)) (cn : Nat) (f : Nat × Bool) (lc : FiberHandle)
      (out : List Char),
      F.map Prod.fst = primesBelow cn ∧ 2 ≤ cn ∧ cn ≤ 2147483647 ∧
      F.length < toUInt32 n ∧ F[j]? = some f ∧
      (∀ k g, k < j → F[k]? = some g → ¬ g.1 ∣ cn) ∧ c = (cn : Int) ∧ p = F.length ∧
      m = mk ⟨q, n⟩ (some rootRec)
        (some ⟨FiberState.Suspended, Pt.run_L62 (locals q (toUInt32 n) F.length cn) j, lc,
          some (j + 2)⟩)
        ((F.map parked).set j (active f)) (j + 2) (parkedPt f) (cn : Int) (some 1) out []
        (some (some 1)) := by
  cases h with
  | init0 => simp [asking, mainFrom, fiber_main, Machine.lookup] at ha
  | init1 =>
    rw [exec_one_mainFrom] at ha
    simp [asking, Machine.lookup] at ha
  | entry => simp [asking, mk, Machine.lookup] at ha
  | route F c' j' f lc out hF hc hc2 hp hj hnd =>
    rw [asking_suspended] at ha
    simp only [locals, Option.some.injEq, Prod.mk.injEq] at ha
    obtain ⟨h1, h2, h3⟩ := ha
    subst h1
    exact ⟨F, c', f, lc, out, hF, hc, hc2, hp, hj, hnd, h2.symm, h3.symm, rfl⟩
  | reply F c' j' f r1 out hr1 =>
    rw [asking_running _ _ _ _ _ _ _ _ _ _ _ (by rw [hr1]; simp)] at ha
    cases ha
  | alloc F c' r1 out hr1 =>
    rw [asking_running _ _ _ _ _ _ _ _ _ _ _ (by rw [hr1]; simp)] at ha
    cases ha
  | fresh => simp [asking, mk, Machine.lookup] at ha
  | stored F c' r1 out hr1 =>
    rw [asking_running _ _ _ _ _ _ _ _ _ _ _ (by rw [hr1]; simp)] at ha
    cases ha

theorem clean_asking (pf : Platform) (q : Bool) (n : Int) (r : Nat)
    (m : Machine Pt tuple) (h : CleanShape pf q n r m) : asking m = none := by
  cases h with
  | wind => simp [asking, mk, Machine.lookup]
  | back F c j f r1 out hr1 =>
    exact asking_running _ _ _ _ _ _ _ _ _ _ _ (by rw [hr1]; simp)
  | freed F c j r1 out hr1 =>
    exact asking_running _ _ _ _ _ _ _ _ _ _ _ (by rw [hr1]; simp)
  | root => simp [asking, mk, Machine.lookup]
  | last => simp [asking, mk, Machine.lookup]
  | done => rfl

/-- From a routing state, the reply of filter `j` and what `run` does with it: `break`
and the next candidate, the next filter, or a new filter when all have answered 0. -/
theorem route_two_steps (pf : Platform) (q : Bool) (n : Int) (F : List (Nat × Bool))
    (c j : Nat) (f : Nat × Bool) (lc : FiberHandle) (out : List Char)
    (hF : F.map Prod.fst = primesBelow c) (hc : 2 ≤ c) (hc2 : c ≤ 2147483647)
    (hp : F.length < toUInt32 n) (hj : F[j]? = some f)
    (hnd : ∀ k g, k < j → F[k]? = some g → ¬ g.1 ∣ c) (m : Machine Pt tuple)
    (hm : m = mk ⟨q, n⟩ (some rootRec)
      (some ⟨FiberState.Suspended, Pt.run_L62 (locals q (toUInt32 n) F.length c) j, lc,
        some (j + 2)⟩)
      ((F.map parked).set j (active f)) (j + 2) (parkedPt f) (c : Int) (some 1) out []
      (some (some 1))) :
    (step (program pf) SlotRule.waker m).current = 1 ∧
    (step (program pf) SlotRule.waker m).rv = (if f.1 ∣ c then 1 else 0) ∧
    (f.1 ∣ c → asking (step (program pf) SlotRule.waker (step (program pf) SlotRule.waker m)) =
      some (0, (c : Int) + 1, F.length)) ∧
    (¬ f.1 ∣ c → j + 1 < F.length →
      asking (step (program pf) SlotRule.waker (step (program pf) SlotRule.waker m)) =
        some (j + 1, (c : Int), F.length)) ∧
    (¬ f.1 ∣ c → j + 1 = F.length →
      (step (program pf) SlotRule.waker (step (program pf) SlotRule.waker m)).pc =
        Pt.run_L77 (locals q (toUInt32 n) F.length c) ∧
      (step (program pf) SlotRule.waker (step (program pf) SlotRule.waker m)).current = 1 ∧
      (step (program pf) SlotRule.waker (step (program pf) SlotRule.waker m)).fibers.length =
        F.length + 3) := by
  subst hm
  have hjlt := getElem?_lt F j f hj
  have hsp := seed_prime F c j f hF hj
  have hq := hsp.2.pos
  rw [step_filter_reply pf _ _ _ _ _ _ (c : Int) _ _ _ j f (by simpa using hjlt) (by omega)
    (by omega) (by omega)]
  have key := main_step_reply pf q n (F.set j (f.1, true)) c j (f.1, true)
    ⟨FiberState.Running, Pt.run_L62 (locals q (toUInt32 n) F.length c) j, lc,
      some (j + 2)⟩ out rfl
    (by rw [map_fst_set F j f true hj]; exact hF) hc hc2 (by simpa using hp)
    (by simp [List.getElem?_set, hjlt])
    (by
      intro k g hk hg
      have hne : ¬ j = k := by omega
      rw [List.getElem?_set] at hg
      simp only [hne, if_false] at hg
      exact hnd k g hk hg) _ rfl
  simp only [List.length_set, List.map_set] at key
  refine ⟨rfl, ?_, ?_⟩
  · show (if Int.tmod (c : Int) (f.1 : Int) = 0 then (1 : Int) else 0) = _
    simp only [tmod_eq_zero_iff]
  · obtain ⟨r', _, _, _, _, h1, h2, h3⟩ := key
    refine ⟨h1, h2, ?_⟩
    intro hd hl
    obtain ⟨h4, h5, h6⟩ := h3 hd hl
    refine ⟨h4, h5, ?_⟩
    rw [h6]
    simp [mk]

/-- After the wrap `run` is suspended in the switch of line 62 only with the candidate
`INT32_MIN`. -/
theorem wrap_asking (pf : Platform) (q : Bool) (n : Int) (r : Nat)
    (m : Machine Pt tuple) (h : WrapShape pf q n r m) (j : Nat) (c : Int) (p : Nat)
    (ha : asking m = some (j, c, p)) : c = -2147483648 := by
  cases h with
  | route F j' f lc out hF hp hj =>
    rw [asking_suspended] at ha
    simp only [locals, Option.some.injEq, Prod.mk.injEq] at ha
    exact ha.2.1.symm
  | reply F j' f r1 out hr1 =>
    rw [asking_running _ _ _ _ _ _ _ _ _ _ _ (by rw [hr1]; simp)] at ha
    cases ha
  | alloc F r1 out hr1 =>
    rw [asking_running _ _ _ _ _ _ _ _ _ _ _ (by rw [hr1]; simp)] at ha
    cases ha
  | fresh => simp [asking, mk, Machine.lookup] at ha
  | stored F r1 out hr1 =>
    rw [asking_running _ _ _ _ _ _ _ _ _ _ _ (by rw [hr1]; simp)] at ha
    cases ha
  | fatal => simp [asking] at ha

theorem null_asking (pf : Platform) (q : Bool) (n : Int) (r : Nat)
    (m : Machine Pt tuple) (h : NullShape pf q n r m) : asking m = none := by
  cases h with
  | alloc r1 out hr1 =>
    exact asking_running _ _ _ _ _ _ _ _ _ _ _ (by rw [hr1]; simp)
  | fresh => simp [asking, mk, Machine.lookup]
  | stored r1 out hr1 =>
    exact asking_running _ _ _ _ _ _ _ _ _ _ _ (by rw [hr1]; simp)
  | crashed => rfl

end SieveSwitch


namespace SieveSwitch
open FiberC

/-! ## The candidates along a run -/

theorem candOf_run (t : tuple) (r0 r1 : Option (FiberRec Pt))
    (T : List (Option (FiberRec Pt))) (pc : Pt) (rv : Int) (rh : FiberHandle)
    (out : List Char) (fr : List (Nat × FiberState)) (rf : Option FiberHandle) :
    candOf (mk t r0 r1 T 1 pc rv rh out fr rf) = (localsOf pc).map (fun l => l.i) := by
  rw [candOf, runLocals_run]

theorem candOf_filter (t : tuple) (r0 : Option (FiberRec Pt)) (r : FiberRec Pt)
    (T : List (Option (FiberRec Pt))) (k : Nat) (pc : Pt) (rv : Int) (rh : FiberHandle)
    (out : List Char) (fr : List (Nat × FiberState)) (rf : Option FiberHandle) :
    candOf (mk t r0 (some r) T (k + 2) pc rv rh out fr rf) =
      (localsOf r.saved_context).map (fun l => l.i) := by
  rw [candOf, runLocals_filter]

theorem testing_run (t : tuple) (r0 r1 : Option (FiberRec Pt))
    (T : List (Option (FiberRec Pt))) (pc : Pt) (rv : Int) (rh : FiberHandle)
    (out : List Char) (fr : List (Nat × FiberState)) (rf : Option FiberHandle) :
    testing (mk t r0 r1 T 1 pc rv rh out fr rf) = (loopLocalsOf pc).map (fun l => l.i) := by
  simp [testing, mk]

theorem testing_filter (t : tuple) (r0 : Option (FiberRec Pt)) (r : FiberRec Pt)
    (T : List (Option (FiberRec Pt))) (k : Nat) (pc : Pt) (rv : Int) (rh : FiberHandle)
    (out : List Char) (fr : List (Nat × FiberState)) (rf : Option FiberHandle) :
    testing (mk t r0 (some r) T (k + 2) pc rv rh out fr rf) =
      (loopLocalsOf r.saved_context).map (fun l => l.i) := by
  simp [testing, mk, Machine.lookup]

/-- In a state of the main loop no candidate is set yet, or the candidate `c` is being
tested, with fewer than `max_primes` primes below it. -/
theorem main_cand (pf : Platform) (q : Bool) (n : Int) (r : Nat) (m : Machine Pt tuple)
    (h : MainShape pf q n r m) :
    (candOf m = none ∧ testing m = none) ∨
    ∃ c : Nat, 2 ≤ c ∧ Nat.count Nat.Prime c < toUInt32 n ∧
      candOf m = some (c : Int) ∧ testing m = some (c : Int) := by
  have key : ∀ (F : List (Nat × Bool)) (c : Nat), F.map Prod.fst = primesBelow c →
      F.length < toUInt32 n → Nat.count Nat.Prime c < toUInt32 n := by
    intro F c hF hp
    rw [← primesBelow_length, ← hF]
    simpa using hp
  cases h with
  | init0 =>
    left
    simp [candOf, runLocals, testing, mainFrom, fiber_main, Machine.lookup]
  | init1 =>
    left
    rw [exec_one_mainFrom]
    simp [candOf, runLocals, testing, Machine.lookup, localsOf, loopLocalsOf]
  | entry =>
    left
    rw [candOf_run, testing_run]
    exact ⟨rfl, rfl⟩
  | route F c j f lc out hF hc hc2 hp hj hnd =>
    right
    rw [candOf_filter, testing_filter]
    exact ⟨c, hc, key F c hF hp, rfl, rfl⟩
  | reply F c j f r1 out hr1 hF hc hc2 hp hj hnd =>
    right
    rw [candOf_run, testing_run]
    exact ⟨c, hc, key F c hF hp, rfl, rfl⟩
  | alloc F c r1 out hr1 hF hc hc2 hp =>
    right
    rw [candOf_run, testing_run]
    exact ⟨c, hc.two_le, key F c hF hp, rfl, rfl⟩
  | fresh F c lc out hF hc hc2 hp =>
    right
    rw [candOf_filter, testing_filter]
    exact ⟨c, hc.two_le, key F c hF hp, rfl, rfl⟩
  | stored F c r1 out hr1 hF hc hc2 hp =>
    right
    rw [candOf_run, testing_run]
    exact ⟨c, hc.two_le, key F c hF hp, rfl, rfl⟩

/-- In a state of the cleanup no candidate is tested, and the value of `i`, while `run`
exists, is 2 for `max_primes = 0` and else the `int32_t` of the successor of a prime
with `max_primes` primes below it. -/
theorem clean_cand (pf : Platform) (q : Bool) (n : Int) (r : Nat) (m : Machine Pt tuple)
    (h : CleanShape pf q n r m) :
    testing m = none ∧
    (candOf m = none ∨ ∃ c : Nat, candOf m = some (toInt32 c) ∧ c ≤ 2147483648 ∧
      ((c = 2 ∧ toUInt32 n = 0) ∨
        (Nat.Prime (c - 1) ∧ Nat.count Nat.Prime c = toUInt32 n))) := by
  have key : ∀ (F : List (Nat × Bool)) (c : Nat), F.map Prod.fst = primesBelow c →
      F.length = toUInt32 n → ((c = 2 ∧ F = []) ∨ Nat.Prime (c - 1)) →
      ((c = 2 ∧ toUInt32 n = 0) ∨
        (Nat.Prime (c - 1) ∧ Nat.count Nat.Prime c = toUInt32 n)) := by
    intro F c hF hp hx
    rcases hx with ⟨h1, h2⟩ | h1
    · left
      rw [h2] at hp
      exact ⟨h1, hp.symm⟩
    · right
      refine ⟨h1, ?_⟩
      rw [← primesBelow_length, ← hF]
      simpa using hp
  cases h with
  | wind F c j f lc out hF hc hc2 hp hj hx =>
    rw [candOf_filter, testing_filter]
    exact ⟨rfl, Or.inr ⟨c, by simp [localsOf, locals], hc2, key F c hF hp hx⟩⟩
  | back F c j f r1 out hr1 hF hc hc2 hp hj hx =>
    rw [candOf_run, testing_run]
    exact ⟨rfl, Or.inr ⟨c, by simp [localsOf, locals], hc2, key F c hF hp hx⟩⟩
  | freed F c j r1 out hr1 hF hc hc2 hp hj hx =>
    rw [candOf_run, testing_run]
    exact ⟨rfl, Or.inr ⟨c, by simp [localsOf, locals], hc2, key F c hF hp hx⟩⟩
  | root F c k lc out hF hc hc2 hp hx hk =>
    rcases hk with hk | ⟨j, hk⟩
    · subst hk
      exact ⟨rfl, Or.inl rfl⟩
    · subst hk
      refine ⟨rfl, Or.inr ⟨c, ?_, hc2, key F c hF hp hx⟩⟩
      simp [candOf, runLocals, mk, Machine.lookup, localsOf, locals]
  | last F c out hF hc hc2 hp hx => exact ⟨rfl, Or.inl rfl⟩
  | done F c out hF hc hc2 hp hx => exact ⟨rfl, Or.inl rfl⟩

/-- After the wrap the value of `i` is `INT32_MIN`. -/
theorem wrap_cand (pf : Platform) (q : Bool) (n : Int) (r : Nat) (m : Machine Pt tuple)
    (h : WrapShape pf q n r m) : candOf m = some (-2147483648) := by
  cases h with
  | route => rw [candOf_filter]; rfl
  | reply => rw [candOf_run]; rfl
  | alloc => rw [candOf_run]; rfl
  | fresh => rw [candOf_filter]; rfl
  | stored => rw [candOf_run]; rfl
  | fatal => rfl

/-- After a failed `malloc` the value of `i` is 2. -/
theorem null_cand (pf : Platform) (q : Bool) (n : Int) (r : Nat) (m : Machine Pt tuple)
    (h : NullShape pf q n r m) : candOf m = some 2 := by
  cases h with
  | alloc => rw [candOf_run]; rfl
  | fresh => rw [candOf_filter]; rfl
  | stored => rw [candOf_run]; rfl
  | crashed => rfl

theorem candStepOK_of_eq (m m1 : Machine Pt tuple) (c : Int) (h : candOf m = some c)
    (h1 : candOf m1 = some c) : candStepOK m m1 = true := by
  simp [candStepOK, h, h1]

/-- Along every run the candidate stays or grows by one from each state to the next,
except in the step that increments it at `INT32_MAX`. -/
theorem state_candStepOK (pf : Platform) (q : Bool) (n : Int) (k : Nat)
    (hno : intOverflow (exec (program pf) SlotRule.waker k (mainFrom q n)) = false) :
    candStepOK (exec (program pf) SlotRule.waker k (mainFrom q n))
      (exec (program pf) SlotRule.waker (k + 1) (mainFrom q n)) = true := by
  rw [exec_succ_right]
  rcases reach_exec pf q n k with ⟨r, h⟩ | ⟨r, h⟩ | ⟨r, h⟩ | ⟨r, h⟩
  · rcases main_step_full pf q n r _ h with
      ⟨_, _, _, h', _⟩ | ⟨_, _, _, h', _⟩ | ⟨_, _, h', _⟩ | ⟨_, _, h', _⟩
    · exact h'
    · rcases h' with ⟨h', _⟩ | h'
      · exact h'
      · rw [hno] at h'
        cases h'
    · rw [hno] at h'
      cases h'
    · exact h'
  · rcases clean_step_full pf q n r _ h with ⟨_, hs⟩ | ⟨_, _, _, h'⟩
    · rw [step_of_not_running _ _ _ (by rw [hs]; simp)]
      exact candStepOK_same _ _ rfl
    · exact h'
  · rcases wrap_step pf q n r _ h with ⟨_, hs⟩ | ⟨r', _, h'⟩
    · rw [step_of_not_running _ _ _ (by rw [hs]; simp)]
      exact candStepOK_same _ _ rfl
    · exact candStepOK_of_eq _ _ _ (wrap_cand pf q n r _ h) (wrap_cand pf q n r' _ h')
  · rcases null_step pf q n r _ h with ⟨_, hs⟩ | ⟨r', _, h'⟩
    · rw [step_of_not_running _ _ _ (by rw [hs]; simp)]
      exact candStepOK_same _ _ rfl
    · exact candStepOK_of_eq _ _ _ (null_cand pf q n r _ h) (null_cand pf q n r' _ h')

/-- While no increment has overflowed, every value from 2 to the candidate of a state
is the candidate of an earlier state. -/
theorem cand_reached (pf : Platform) (q : Bool) (n : Int) (t : Nat)
    (hno : ∀ k, k < t →
      intOverflow (exec (program pf) SlotRule.waker k (mainFrom q n)) = false) :
    ∀ d, candOf (exec (program pf) SlotRule.waker t (mainFrom q n)) = some d →
      ∀ c, 2 ≤ c → c ≤ d →
        ∃ k, k ≤ t ∧ candOf (exec (program pf) SlotRule.waker k (mainFrom q n)) = some c := by
  induction t with
  | zero =>
    intro d hd
    simp [candOf, runLocals, exec, mainFrom, fiber_main, Machine.lookup] at hd
  | succ t ih =>
    intro d hd c hc hcd
    have hstep := state_candStepOK pf q n t (hno t (by omega))
    unfold candStepOK at hstep
    rw [hd] at hstep
    cases h0 : candOf (exec (program pf) SlotRule.waker t (mainFrom q n)) with
    | none =>
      rw [h0] at hstep
      simp only [beq_iff_eq] at hstep
      have hc2 : c = d := by omega
      exact ⟨t + 1, le_refl _, by rw [hd, hc2]⟩
    | some d0 =>
      rw [h0] at hstep
      simp only [Bool.or_eq_true, beq_iff_eq] at hstep
      rcases Int.lt_or_le d0 c with hlt | hle
      · have hc2 : c = d := by omega
        exact ⟨t + 1, le_refl _, by rw [hd, hc2]⟩
      · obtain ⟨k, hk, hk2⟩ := ih (fun k hk => hno k (by omega)) d0 h0 c hc hle
        exact ⟨k, by omega, hk2⟩

/-- While no increment has overflowed, the candidate is at least 2. -/
theorem cand_ge_two (pf : Platform) (q : Bool) (n : Int) (t : Nat)
    (hno : ∀ k, k < t →
      intOverflow (exec (program pf) SlotRule.waker k (mainFrom q n)) = false) :
    ∀ d, candOf (exec (program pf) SlotRule.waker t (mainFrom q n)) = some d → 2 ≤ d := by
  induction t with
  | zero =>
    intro d hd
    simp [candOf, runLocals, exec, mainFrom, fiber_main, Machine.lookup] at hd
  | succ t ih =>
    intro d hd
    have hstep := state_candStepOK pf q n t (hno t (by omega))
    unfold candStepOK at hstep
    rw [hd] at hstep
    cases h0 : candOf (exec (program pf) SlotRule.waker t (mainFrom q n)) with
    | none =>
      rw [h0] at hstep
      simp only [beq_iff_eq] at hstep
      omega
    | some d0 =>
      rw [h0] at hstep
      simp only [Bool.or_eq_true, beq_iff_eq] at hstep
      have := ih (fun k hk => hno k (by omega)) d0 h0
      omega

theorem exit_candidate (c n : Nat) (hp : Nat.Prime (c - 1))
    (hcount : Nat.count Nat.Prime c = n) : c = Nat.nth Nat.Prime (n - 1) + 1 := by
  have h2 := hp.two_le
  have hc : c = (c - 1) + 1 := by omega
  have h1 : Nat.count Nat.Prime c = Nat.count Nat.Prime (c - 1) + 1 := by
    conv_lhs => rw [hc]
    rw [Nat.count_succ, if_pos hp]
  have h3 : n - 1 = Nat.count Nat.Prime (c - 1) := by omega
  rw [h3, Nat.nth_count hp]
  exact hc

theorem cand_le_nth (c n : Nat) (hcount : Nat.count Nat.Prime c < n) :
    c ≤ Nat.nth Nat.Prime (n - 1) := by
  have h : Nat.count Nat.Prime c ≤ n - 1 := by omega
  exact (Nat.count_le_iff_le_nth Nat.infinite_setOf_prime).1 h

end SieveSwitch


namespace SieveSwitch
open FiberC

/-! ## C9: winding the filters down -/

end SieveSwitch


namespace SieveSwitch
open FiberC

/-! ## Claims on the functions of the sieve -/

theorem sanitise_append (a b : List Char) (c : Char) :
    sanitise_input_number (a ++ c :: b) =
      (sanitise_input_number a && isdigit c && sanitise_input_number b) := by
  induction a with
  | nil => cases h : isdigit c <;> simp [sanitise_input_number, h]
  | cons x a ih => cases h : isdigit x <;> simp [sanitise_input_number, h, ih]

/-- C14: `sanitise_input_number s` is true exactly when every character of `s` is one
of '0'..'9'; it is true for the empty string, false as soon as one character is not a
digit, and a sign, a space or a letter is not a digit.  In `prog` a string that fails
the test leads to the input error and `exit(1)`. -/
theorem sanitise_input_number_iff_digits (s a b : List Char) (c : Char) (pf : Platform)
    (a0 : List Char) (rv : Word) (rh : FiberHandle) (t : tuple) :
    (sanitise_input_number s = true ↔ ∀ x ∈ s, '0' ≤ x ∧ x ≤ '9') ∧
    sanitise_input_number [] = true ∧
    sanitise_input_number (a ++ c :: b) =
      (sanitise_input_number a && isdigit c && sanitise_input_number b) ∧
    isdigit '+' = false ∧ isdigit '-' = false ∧ (isspace c && isdigit c) = false ∧
    (c.isAlpha && isdigit c) = false ∧
    (sanitise_input_number s = true ∨
      prog pf (Pt.prog [a0, s]) rv rh t = print_input_error_and_exit t) := by
  refine ⟨?_, rfl, sanitise_append a b c, by decide, by decide, ?_, ?_, ?_⟩
  · induction s with
    | nil => simp [sanitise_input_number]
    | cons x s ih =>
      cases h : isdigit x
      · have h' := h
        simp only [isdigit, Bool.and_eq_false_iff, decide_eq_false_iff_not] at h'
        simp only [sanitise_input_number, h, List.mem_cons, forall_eq_or_imp]
        constructor
        · intro hf
          simp at hf
        · intro hx
          rcases h' with h1 | h1
          · exact absurd hx.1.1 h1
          · exact absurd hx.1.2 h1
      · have h' := h
        simp only [isdigit, Bool.and_eq_true, decide_eq_true_eq] at h'
        simp only [sanitise_input_number, h, List.mem_cons, forall_eq_or_imp]
        simp [ih, h']
  · cases h : isdigit c
    · simp
    · simp only [isdigit, Bool.and_eq_true, decide_eq_true_eq] at h
      have h1 : 48 ≤ c.val.toNat := by
        have := h.1
        simpa [Char.le_def, Char.lt_def] using this
      simp only [isspace, Bool.and_true, Bool.or_eq_false_iff, Bool.and_eq_false_iff,
        decide_eq_false_iff_not, beq_eq_false_iff_ne]
      constructor
      · rintro rfl
        exact absurd h.1 (by decide)
      · right
        intro h2
        have : c.val.toNat ≤ 13 := by
          simpa [Char.le_def, Char.lt_def] using h2
        omega
  · cases h : isdigit c
    · simp
    · simp only [isdigit, Bool.and_eq_true, decide_eq_true_eq] at h
      have h1 : 48 ≤ c.val.toNat := by
        have := h.1
        simpa [Char.le_def, Char.lt_def] using this
      have h2 : c.val.toNat ≤ 57 := by
        have := h.2
        simpa [Char.le_def, Char.lt_def] using this
      simp only [Bool.and_true, Char.isAlpha, Char.isUpper, Char.isLower,
        Bool.or_eq_false_iff, Bool.and_eq_false_iff, decide_eq_false_iff_not]
      constructor
      · left
        intro h3
        have : 65 ≤ c.val.toNat := by simpa [UInt32.le_def] using h3
        omega
      · left
        intro h3
        have : 97 ≤ c.val.toNat := by simpa [UInt32.le_def] using h3
        omega
  · cases h : sanitise_input_number s
    · right
      simp [prog, h]
    · exact Or.inl rfl

end SieveSwitch


namespace SieveSwitch
open FiberC

theorem fmt_d_1000000007 :
    fmt_d 1000000007 = ['1', '0', '0', '0', '0', '0', '0', '0', '0', '7'] := by
  have h : (1000000007 : Int).natAbs = 1000000007 := by norm_num
  have hd : Nat.toDigits 10 1000000007 =
      ['1', '0', '0', '0', '0', '0', '0', '0', '0', '7'] := by
    simp [Nat.toDigits, Nat.toDigitsCore, Nat.digitChar]
  simp only [fmt_d, h, hd]
  norm_num

theorem fmt_d_2147483647 :
    fmt_d 2147483647 = ['2', '1', '4', '7', '4', '8', '3', '6', '4', '7'] := by
  have h : (2147483647 : Int).natAbs = 2147483647 := by norm_num
  have hd : Nat.toDigits 10 2147483647 =
      ['2', '1', '4', '7', '4', '8', '3', '6', '4', '7'] := by
    simp [Nat.toDigits, Nat.toDigitsCore, Nat.digitChar]
  simp only [fmt_d, h, hd]
  norm_num

theorem fmt_d_999999937 :
    fmt_d 999999937 = ['9', '9', '9', '9', '9', '9', '9', '3', '7'] := by
  have h : (999999937 : Int).natAbs = 999999937 := by norm_num
  have hd : Nat.toDigits 10 999999937 = ['9', '9', '9', '9', '9', '9', '9', '3', '7'] := by
    simp [Nat.toDigits, Nat.toDigitsCore, Nat.digitChar]
  simp only [fmt_d, h, hd]
  norm_num

theorem print_candidate_1000000007 : print_candidate 1000000007 =
    some ['1', '0', '0', '0', '0', '0', '0', '0', '0', '7', Char.ofNat 0] := by
  simp only [print_candidate, fmt_d_1000000007]
  decide

theorem digits_nul_ne_digits_space
    (h : some ['1', '0', '0', '0', '0', '0', '0', '0', '0', '7', Char.ofNat 0] =
      some (fmt_d 1000000007 ++ [' '])) : False := by
  rw [fmt_d_1000000007] at h
  simp at h

theorem print_candidate_no_space :
    print_candidate 1000000007 ≠ some (fmt_d 1000000007 ++ [' ']) := by
  rw [print_candidate_1000000007]
  exact digits_nul_ne_digits_space

theorem print_candidate_2147483647 : print_candidate 2147483647 =
    some ['2', '1', '4', '7', '4', '8', '3', '6', '4', '7', Char.ofNat 0] := by
  simp only [print_candidate, fmt_d_2147483647]
  decide

theorem print_candidate_999999937 : print_candidate 999999937 =
    some ['9', '9', '9', '9', '9', '9', '9', '3', '7', ' '] := by
  simp only [print_candidate, fmt_d_999999937]
  decide

theorem text_length_1000000007 : (fmt_d 1000000007 ++ [' ']).length = 11 := by
  rw [fmt_d_1000000007]
  rfl

theorem run_not_divisible_out (pf : Platform) (l : RunLocals) (t : tuple)
    (text : List Char) (hq : l.quiet = false) (h : print_candidate l.i = some text) :
    (run_not_divisible pf l [] t).out = text := by
  simp [run_not_divisible, hq, h]

theorem run_not_divisible_1000000007 (pf : Platform) (M p : Nat)
    (fs : List (Option FiberHandle)) (c : FiberHandle) (t : tuple) :
    (run_not_divisible pf ⟨false, M, p, 1000000007, fs, c⟩ [] t).out =
      ['1', '0', '0', '0', '0', '0', '0', '0', '0', '7', Char.ofNat 0] :=
  run_not_divisible_out pf ⟨false, M, p, 1000000007, fs, c⟩ t _ rfl
    print_candidate_1000000007

/-- C17: for the candidate 1000000007 (ten digits, as for 2147483647) the characters
that lines 67 to 75 write are the ten digits followed by the NUL that `snprintf`
stored at `sbuf[10]`, not by a space; `len` is 11 and the indices read are 0 to 10.
A candidate of nine digits is followed by the space. -/
theorem print_candidate_ten_digits (pf : Platform) (M p : Nat)
    (fs : List (Option FiberHandle)) (c : FiberHandle) (t : tuple) :
    print_candidate 1000000007 =
      some ['1', '0', '0', '0', '0', '0', '0', '0', '0', '7', Char.ofNat 0] ∧
    print_candidate 1000000007 ≠ some (fmt_d 1000000007 ++ [' ']) ∧
    print_candidate 2147483647 =
      some ['2', '1', '4', '7', '4', '8', '3', '6', '4', '7', Char.ofNat 0] ∧
    (fmt_d 1000000007 ++ [' ']).length = 11 ∧
    (run_not_divisible pf ⟨false, M, p, 1000000007, fs, c⟩ [] t).out =
      ['1', '0', '0', '0', '0', '0', '0', '0', '0', '7', Char.ofNat 0] ∧
    print_candidate 999999937 =
      some ['9', '9', '9', '9', '9', '9', '9', '3', '7', ' '] :=
  ⟨print_candidate_1000000007, print_candidate_no_space, print_candidate_2147483647,
    text_length_1000000007, run_not_divisible_1000000007 pf M p fs c t,
    print_candidate_999999937⟩

end SieveSwitch


namespace HelloSwitch
open FiberC

/-- C13: in round `k` (from 0) `hello` prints `s[k]` of "hlowrd" (6 rounds) and
`world` prints `s[k]` of "el ol" (5 rounds), the two alternating, and no state reads
an index at or beyond the length of its string; `world_done` is false up to the state
in which `world` has printed its 5 characters and leaves its loop, true after that
step, and at its next test `hello` leaves its loop and frees `world`. -/
theorem hello_index_stepping (fuel : Nat) :
    (∀ k : Fin 6,
      helloIndex (exec (program true) SlotRule.waker (3 + 2 * (k : Nat)) main) = some k ∧
      (exec (program true) SlotRule.waker (3 + 2 * (k : Nat)) main).current = 1 ∧
      (exec (program true) SlotRule.waker (4 + 2 * (k : Nat)) main).stdout =
        (exec (program true) SlotRule.waker (3 + 2 * (k : Nat)) main).stdout ++
          (hello_s.get? k).toList) ∧
    (∀ k : Fin 5,
      worldIndex (exec (program true) SlotRule.waker (4 + 2 * (k : Nat)) main) = some k ∧
      (exec (program true) SlotRule.waker (4 + 2 * (k : Nat)) main).current = 2 ∧
      (exec (program true) SlotRule.waker (5 + 2 * (k : Nat)) main).stdout =
        (exec (program true) SlotRule.waker (4 + 2 * (k : Nat)) main).stdout ++
          (world_s.get? k).toList) ∧
    (∀ f : Fin 20,
      (helloIndex (exec (program true) SlotRule.waker f main)).isSome =
        decide ((f : Nat) % 2 = 1 ∧ 3 ≤ (f : Nat) ∧ (f : Nat) ≤ 13) ∧
      (worldIndex (exec (program true) SlotRule.waker f main)).isSome =
        decide ((f : Nat) % 2 = 0 ∧ 4 ≤ (f : Nat) ∧ (f : Nat) ≤ 12)) ∧
    strlen hello_s = 6 ∧ strlen world_s = 5 ∧
    indexInBounds (exec (program true) SlotRule.waker fuel main) = true ∧
    (∀ f : Fin 15, (exec (program true) SlotRule.waker f main).mem = false) ∧
    (exec (program true) SlotRule.waker 14 main).current = 2 ∧
    worldIndex (exec (program true) SlotRule.waker 14 main) = none ∧
    (exec (program true) SlotRule.waker 14 main).stdout =
      ['h', 'e', 'l', 'l', 'o', ' ', 'w', 'o', 'r', 'l', 'd'] ∧
    (exec (program true) SlotRule.waker 15 main).mem = true ∧
    (exec (program true) SlotRule.waker 15 main).current = 1 ∧
    (exec (program true) SlotRule.waker 15 main).pc = Pt.hello_L36 (some 0) ∧
    helloIndex (exec (program true) SlotRule.waker 15 main) = none ∧
    nextRequest (program true) (exec (program true) SlotRule.waker 15 main) =
      Request.fiber_free (some 2) (Pt.hello_L38 (some 0) 5) := by
  refine ⟨by decide, by decide, by decide, by decide, by decide, ?_, by decide, by decide,
    by decide, by decide, by decide, by decide, by decide, by decide, by decide⟩
  exact exec_forall_of_bounded (program true) SlotRule.waker
    (fun m => indexInBounds m = true) 19 main hello_stops (by decide) fuel

end HelloSwitch


namespace SieveSwitch
open FiberC

/-! ## Filters, the array and the assertion -/

/-- C15, counterexample: on a platform whose `malloc` fails for an array of 2^32 - 1
handles, `run` with `result = 4294967295` does not test the `NULL` it receives: it
declares 2 prime, starts its filter and reaches line 79 with `p = 0` and no array;
the write `filters[p++] = filter_fiber` goes through `NULL` and the next state is
undefined. -/
theorem write_through_null_array :
    pf1.malloc_ok (toUInt32 4294967295) = false ∧
    (exec (program pf1) SlotRule.waker 5 (mainFrom false 4294967295)).status =
      Status.running ∧
    (exec (program pf1) SlotRule.waker 5 (mainFrom false 4294967295)).current = 1 ∧
    (exec (program pf1) SlotRule.waker 5 (mainFrom false 4294967295)).pc =
      Pt.run_L78 ⟨false, 4294967295, 0, 2, [], some 0⟩ ∧
    writeInBounds (exec (program pf1) SlotRule.waker 5 (mainFrom false 4294967295)) =
      false ∧
    (exec (program pf1) SlotRule.waker 6 (mainFrom false 4294967295)).status =
      Status.undefined := by
  decide

/-- C15, amended: for every `max_primes` whose array `malloc` grants (and for
`max_primes = 0`), in every state of the run: the assertion of line 89 has not failed
and no step was undefined; when `run` is about to store a filter (line 79) the index
`p` is below `max_primes`, the size of the array; when `run` is suspended in a switch
into `filters[j]` (lines 62 and 92) `j` is below `p` and the slot holds the handle of
the fiber it switched into, so no slot is read before it is written. -/
theorem run_array_bounds (pf : Platform) (quiet : Bool) (n : Int)
    (hm : toUInt32 n = 0 ∨ pf.malloc_ok (toUInt32 n) = true) (fuel : Nat) :
    (exec (program pf) SlotRule.waker fuel (mainFrom quiet n)).status ≠ Status.aborted ∧
    (exec (program pf) SlotRule.waker fuel (mainFrom quiet n)).status ≠ Status.undefined ∧
    writeInBounds (exec (program pf) SlotRule.waker fuel (mainFrom quiet n)) = true ∧
    readsWritten (exec (program pf) SlotRule.waker fuel (mainFrom quiet n)) = true := by
  rcases reach_exec pf quiet n fuel with ⟨r, h⟩ | ⟨r, h⟩ | ⟨r, h⟩ | ⟨r, h⟩
  · refine ⟨by rw [main_status pf quiet n r _ h]; simp,
      by rw [main_status pf quiet n r _ h]; simp, main_writeInBounds pf quiet n r _ h,
      main_readsWritten pf quiet n r _ h⟩
  · refine ⟨?_, ?_, clean_writeInBounds pf quiet n r _ h, clean_readsWritten pf quiet n r _ h⟩
    · rcases clean_status pf quiet n r _ h with h2 | h2 <;> rw [h2] <;> simp
    · rcases clean_status pf quiet n r _ h with h2 | h2 <;> rw [h2] <;> simp
  · refine ⟨?_, ?_, wrap_writeInBounds pf quiet n r _ h, wrap_readsWritten pf quiet n r _ h⟩
    · rcases wrap_status pf quiet n r _ h with h2 | h2 <;> rw [h2] <;> simp
    · rcases wrap_status pf quiet n r _ h with h2 | h2 <;> rw [h2] <;> simp
  · exact (null_malloc pf quiet n r _ h hm).elim

/-- C15, witness: `max_primes = 3` on a platform whose `malloc` grants the array; in
state 10 `run` is about to store the second filter. -/
theorem run_array_bounds_witness :
    (toUInt32 3 = 0 ∨ pf0.malloc_ok (toUInt32 3) = true) ∧
    (exec (program pf0) SlotRule.waker 10 (mainFrom false 3)).status ≠ Status.aborted ∧
    (exec (program pf0) SlotRule.waker 10 (mainFrom false 3)).status ≠ Status.undefined ∧
    writeInBounds (exec (program pf0) SlotRule.waker 10 (mainFrom false 3)) = true ∧
    readsWritten (exec (program pf0) SlotRule.waker 10 (mainFrom false 3)) = true :=
  ⟨Or.inr rfl, run_array_bounds pf0 false 3 (Or.inr rfl) 10⟩

end SieveSwitch


namespace SieveSwitch
open FiberC

/-! ## C11: the routing of a candidate through the filters -/

theorem sieve3_stops :
    (exec (program pf0) SlotRule.waker 31 (mainFrom false 3)).status ≠ Status.running := by
  decide

/-- What follows a state in which `run` is suspended in the switch of line 62 into
filter `j` with candidate `c`. -/
theorem asking_step (pf : Platform) (q : Bool) (n : Int) (t j : Nat) (c : Int) (p : Nat)
    (h : asking (exec (program pf) SlotRule.waker t (mainFrom q n)) = some (j, c, p))
    (hc0 : 0 < c) :
    j < p ∧ (∀ k, k < j → ¬ ((Nat.nth Nat.Prime k : Int) ∣ c)) ∧
    (exec (program pf) SlotRule.waker t (mainFrom q n)).current = j + 2 ∧
    (exec (program pf) SlotRule.waker t (mainFrom q n)).rv = c ∧
    (exec (program pf) SlotRule.waker (t + 1) (mainFrom q n)).current = 1 ∧
    (exec (program pf) SlotRule.waker (t + 1) (mainFrom q n)).rv =
      (if (Nat.nth Nat.Prime j : Int) ∣ c then 1 else 0) ∧
    ((Nat.nth Nat.Prime j : Int) ∣ c →
      asking (exec (program pf) SlotRule.waker (t + 2) (mainFrom q n)) =
        some (0, c + 1, p)) ∧
    (¬ (Nat.nth Nat.Prime j : Int) ∣ c → j + 1 < p →
      asking (exec (program pf) SlotRule.waker (t + 2) (mainFrom q n)) =
        some (j + 1, c, p)) ∧
    (¬ (Nat.nth Nat.Prime j : Int) ∣ c → j + 1 = p →
      (∃ l, (exec (program pf) SlotRule.waker (t + 2) (mainFrom q n)).pc = Pt.run_L77 l ∧
        l.i = c ∧ l.p = p) ∧
      (exec (program pf) SlotRule.waker (t + 2) (mainFrom q n)).current = 1 ∧
      (exec (program pf) SlotRule.waker (t + 2) (mainFrom q n)).fibers.length = p + 3) := by
  have e2 : exec (program pf) SlotRule.waker (t + 2) (mainFrom q n) =
      step (program pf) SlotRule.waker (step (program pf) SlotRule.waker
        (exec (program pf) SlotRule.waker t (mainFrom q n))) := by
    rw [← exec_succ_right, ← exec_succ_right]
  rw [e2, exec_succ_right]
  rcases reach_exec pf q n t with ⟨r, hm⟩ | ⟨r, hm⟩ | ⟨r, hm⟩ | ⟨r, hm⟩
  · obtain ⟨F, cn, f, lc, out, hF, hc, hc2, hp, hj, hnd, rfl, rfl, he⟩ :=
      main_asking_inv pf q n r _ hm j c p h
    have hjlt := getElem?_lt F j f hj
    have hseed := seed_eq_nth F cn j f hF hj
    obtain ⟨h1, h2, h3, h4, h5⟩ :=
      route_two_steps pf q n F cn j f lc out hF hc hc2 hp hj hnd _ he
    rw [hseed] at h2 h3 h4 h5
    simp only [Int.natCast_dvd_natCast]
    refine ⟨hjlt, ?_, by rw [he]; rfl, by rw [he]; rfl, h1, ?_, h3, h4, ?_⟩
    · intro k hk hd
      have hkF : k < F.length := by omega
      have hg : F[k]? = some F[k] := List.getElem?_eq_getElem hkF
      have h6 := hnd k _ hk hg
      rw [seed_eq_nth F cn k _ hF hg] at h6
      exact h6 hd
    · rw [h2]
    · intro hd hl
      obtain ⟨h7, h8, h9⟩ := h5 hd hl
      exact ⟨⟨_, h7, rfl, rfl⟩, h8, h9⟩
  · rw [clean_asking pf q n r _ hm] at h
    cases h
  · have := wrap_asking pf q n r _ hm j c p h
    omega
  · rw [null_asking pf q n r _ hm] at h
    cases h

theorem routing_reaches (pf : Platform) (q : Bool) (n : Int) (t : Nat) (c : Int) (p : Nat)
    (h0 : asking (exec (program pf) SlotRule.waker t (mainFrom q n)) = some (0, c, p))
    (hc0 : 0 < c) (j : Nat) (hj : j < p) (hnd : ∀ k, k < j → ¬ ((Nat.nth Nat.Prime k : Int) ∣ c)) :
    asking (exec (program pf) SlotRule.waker (t + 2 * j) (mainFrom q n)) =
      some (j, c, p) := by
  induction j with
  | zero => exact h0
  | succ j ih =>
    have h1 := ih (by omega) (fun k hk => hnd k (by omega))
    have h2 := (asking_step pf q n (t + 2 * j) j c p h1 hc0).2.2.2.2.2.2.2.1
      (hnd j (by omega)) hj
    have e : t + 2 * (j + 1) = t + 2 * j + 2 := by ring
    rw [e]
    exact h2

theorem nth_prime_zero : Nat.nth Nat.Prime 0 = 2 := by
  have h : Nat.count Nat.Prime 2 = 0 := by decide
  rw [← h]
  exact Nat.nth_count (by norm_num)

theorem nth_prime_one : Nat.nth Nat.Prime 1 = 3 := by
  have h : Nat.count Nat.Prime 3 = 1 := by decide
  rw [← h]
  exact Nat.nth_count (by norm_num)

/-- C11, counterexample: with `max_primes = 3` the candidate 4 is tested while 2
filters exist; `run` switches into filter 0 with it (state 11), the reply is 1, and the
next state in which `run` is suspended in the switch of line 62 has candidate 5: no
state of the run has `run` switched into filter 1 with candidate 4. -/
theorem candidate_four_skips_filter_one :
    asking (exec (program pf0) SlotRule.waker 11 (mainFrom false 3)) = some (0, 4, 2) ∧
    (exec (program pf0) SlotRule.waker 12 (mainFrom false 3)).rv = 1 ∧
    asking (exec (program pf0) SlotRule.waker 13 (mainFrom false 3)) = some (0, 5, 2) ∧
    ∀ fuel, (asking (exec (program pf0) SlotRule.waker fuel (mainFrom false 3))).map
      (fun a => (a.1, a.2.1)) ≠ some (1, 4) := by
  refine ⟨by decide, by decide, by decide, ?_⟩
  exact exec_forall_of_bounded (program pf0) SlotRule.waker
    (fun m => (asking m).map (fun a => (a.1, a.2.1)) ≠ some (1, 4)) 31
    (mainFrom false 3) sieve3_stops (by decide)

/-- C11, amended: when `run` starts the routing of a candidate `c > 0` with `p` filters
(it is suspended in the switch into filter 0 with value `c`), it switches with `c`
into filter `j` for every `j < p` such that none of the first `j` primes divides
`c`, two steps per filter; filter `j` delivers 1 if its prime divides `c` and 0
otherwise; on 1 the routing ends (`break`) and the next candidate starts at filter 0;
on 0 the next filter follows, and after the last one `run` is at line 77 with one
more fiber allocated, the candidate being declared prime. -/
theorem routing_until_divisible (pf : Platform) (quiet : Bool) (n : Int) (t : Nat)
    (c : Int) (p j : Nat)
    (h0 : asking (exec (program pf) SlotRule.waker t (mainFrom quiet n)) = some (0, c, p))
    (hc : 0 < c) (hj : j < p) (hnd : ∀ k, k < j → ¬ ((Nat.nth Nat.Prime k : Int) ∣ c)) :
    asking (exec (program pf) SlotRule.waker (t + 2 * j) (mainFrom quiet n)) =
      some (j, c, p) ∧
    (exec (program pf) SlotRule.waker (t + 2 * j) (mainFrom quiet n)).current = j + 2 ∧
    (exec (program pf) SlotRule.waker (t + 2 * j) (mainFrom quiet n)).rv = c ∧
    (exec (program pf) SlotRule.waker (t + 2 * j + 1) (mainFrom quiet n)).current = 1 ∧
    (exec (program pf) SlotRule.waker (t + 2 * j + 1) (mainFrom quiet n)).rv =
      (if (Nat.nth Nat.Prime j : Int) ∣ c then 1 else 0) ∧
    ((Nat.nth Nat.Prime j : Int) ∣ c →
      asking (exec (program pf) SlotRule.waker (t + 2 * j + 2) (mainFrom quiet n)) =
        some (0, c + 1, p)) ∧
    (¬ (Nat.nth Nat.Prime j : Int) ∣ c → j + 1 < p →
      asking (exec (program pf) SlotRule.waker (t + 2 * j + 2) (mainFrom quiet n)) =
        some (j + 1, c, p)) ∧
    (¬ (Nat.nth Nat.Prime j : Int) ∣ c → j + 1 = p →
      (∃ l, (exec (program pf) SlotRule.waker (t + 2 * j + 2) (mainFrom quiet n)).pc =
          Pt.run_L77 l ∧ l.i = c ∧ l.p = p) ∧
      (exec (program pf) SlotRule.waker (t + 2 * j + 2) (mainFrom quiet n)).current = 1 ∧
      (exec (program pf) SlotRule.waker (t + 2 * j + 2) (mainFrom quiet n)).fibers.length =
        p + 3) :=
  have h1 := routing_reaches pf quiet n t c p h0 hc j hj hnd
  ⟨h1, (asking_step pf quiet n (t + 2 * j) j c p h1 hc).2.2⟩

/-- C11, witness: with `max_primes = 3` the routing of the candidate 5 starts in state
13 with 2 filters; 2 does not divide 5, so state 15 has `run` switched into filter 1
with 5, the reply is 0 and, filter 1 being the last, a third filter is allocated. -/
theorem routing_until_divisible_witness :
    asking (exec (program pf0) SlotRule.waker 13 (mainFrom false 3)) = some (0, 5, 2) ∧
    asking (exec (program pf0) SlotRule.waker (13 + 2 * 1) (mainFrom false 3)) =
      some (1, 5, 2) ∧
    (exec (program pf0) SlotRule.waker (13 + 2 * 1 + 1) (mainFrom false 3)).rv =
      (if (Nat.nth Nat.Prime 1 : Int) ∣ 5 then 1 else 0) ∧
    (exec (program pf0) SlotRule.waker (13 + 2 * 1 + 1) (mainFrom false 3)).rv = 0 ∧
    (exec (program pf0) SlotRule.waker (13 + 2 * 1 + 2) (mainFrom false 3)).fibers.length =
      2 + 3 :=
  have hnd : ∀ k, k < 1 → ¬ ((Nat.nth Nat.Prime k : Int) ∣ 5) := by
    intro k hk
    have hk0 : k = 0 := by omega
    rw [hk0, nth_prime_zero]
    decide
  have h := routing_until_divisible pf0 false 3 13 5 2 1 (by decide) (by decide)
    (by decide) hnd
  ⟨by decide, h.1, h.2.2.2.2.1, by decide,
    (h.2.2.2.2.2.2.2 (by rw [nth_prime_one]; decide) rfl).2.2⟩

end SieveSwitch


namespace SieveSwitch
open FiberC

/-! ## C16: termination of the main loop -/

theorem toUInt32_count : toUInt32 ((Nat.count Nat.Prime 2147483648 : Nat) : Int) =
    Nat.count Nat.Prime 2147483648 := by
  have hle : Nat.count Nat.Prime 2147483648 ≤ 2147483648 := Nat.count_le _
  unfold toUInt32
  omega

theorem intOverflow_testing (m : Machine Pt tuple) (hs : m.status = Status.running)
    (h : intOverflow m = true) : testing m = some 2147483647 := by
  unfold intOverflow at h
  simp only [Bool.and_eq_true, beq_iff_eq] at h
  obtain ⟨hcur, h2⟩ := h
  cases hpc : m.pc <;> rw [hpc] at h2 <;>
    simp only [Bool.and_eq_true, beq_iff_eq, Bool.false_eq_true, and_false] at h2
  · simp [testing, hs, hcur, hpc, loopLocalsOf, h2.2]
  · simp [testing, hs, hcur, hpc, loopLocalsOf, h2]

/-- With the n-th prime at most `INT32_MAX` and the array granted, every state is one
of the main loop or of the cleanup. -/
theorem bounded_states (pf : Platform) (q : Bool) (n : Nat) (hn : 1 ≤ n)
    (hb : Nat.nth Nat.Prime (n - 1) ≤ 2147483647) (hm : pf.malloc_ok n = true) (k : Nat) :
    (∃ r, MainShape pf q n r (exec (program pf) SlotRule.waker k (mainFrom q n))) ∨
    (∃ r, CleanShape pf q n r (exec (program pf) SlotRule.waker k (mainFrom q n))) := by
  obtain ⟨hN, hM⟩ := bound_no_overflow n hn hb
  exact reach_ok pf q n (Or.inr (by rw [hM]; exact hm)) hN k

/-- With the n-th prime at most `INT32_MAX` and the array granted, no state of the run
is undefined. -/
theorem state_defined (pf : Platform) (q : Bool) (n : Nat) (hn : 1 ≤ n)
    (hb : Nat.nth Nat.Prime (n - 1) ≤ 2147483647) (hm : pf.malloc_ok n = true) (k : Nat) :
    (exec (program pf) SlotRule.waker k (mainFrom q n)).status ≠ Status.undefined := by
  rcases bounded_states pf q n hn hb hm k with ⟨r, h⟩ | ⟨r, h⟩
  · rw [main_status pf q n r _ h]
    simp
  · rcases clean_status pf q n r _ h with h2 | h2 <;> rw [h2] <;> simp

/-- With the n-th prime at most `INT32_MAX` and the array granted, only candidates
from 2 to the n-th prime are tested. -/
theorem state_testing_bound (pf : Platform) (q : Bool) (n : Nat) (hn : 1 ≤ n)
    (hb : Nat.nth Nat.Prime (n - 1) ≤ 2147483647) (hm : pf.malloc_ok n = true) (k : Nat) :
    testing (exec (program pf) SlotRule.waker k (mainFrom q n)) = none ∨
    ∃ i : Int, testing (exec (program pf) SlotRule.waker k (mainFrom q n)) = some i ∧
      2 ≤ i ∧ i ≤ (Nat.nth Nat.Prime (n - 1) : Int) := by
  obtain ⟨_, hM⟩ := bound_no_overflow n hn hb
  rcases bounded_states pf q n hn hb hm k with ⟨r, h⟩ | ⟨r, h⟩
  · rcases main_cand pf q n r _ h with ⟨_, h1⟩ | ⟨c, hc, hcount, _, h1⟩
    · exact Or.inl h1
    · rw [hM] at hcount
      have h2 := cand_le_nth c n hcount
      exact Or.inr ⟨c, h1, by exact_mod_cast hc, by exact_mod_cast h2⟩
  · exact Or.inl (clean_cand pf q n r _ h).1

theorem clean_intOverflow (pf : Platform) (q : Bool) (n : Int) (r : Nat)
    (m : Machine Pt tuple) (h : CleanShape pf q n r m) : intOverflow m = false := by
  cases h with
  | wind => simp [intOverflow, mk]
  | back => rfl
  | freed => rfl
  | root => rfl
  | last => rfl
  | done => rfl

theorem state_no_overflow (pf : Platform) (q : Bool) (n : Nat) (hn : 1 ≤ n)
    (hb : Nat.nth Nat.Prime (n - 1) < 2147483647) (hm : pf.malloc_ok n = true) (k : Nat) :
    intOverflow (exec (program pf) SlotRule.waker k (mainFrom q n)) = false := by
  rcases bounded_states pf q n hn (by omega) hm k with ⟨r, h⟩ | ⟨r, h⟩
  · cases hov : intOverflow (exec (program pf) SlotRule.waker k (mainFrom q n)) with
    | false => rfl
    | true =>
      exfalso
      have h1 := intOverflow_testing _ (main_status pf q n r _ h) hov
      rcases state_testing_bound pf q n hn (by omega) hm k with h2 | ⟨i, h2, _, h3⟩
      · rw [h1] at h2
        cases h2
      · rw [h1] at h2
        cases h2
        omega
  · exact clean_intOverflow pf q n r _ h

/-- With the n-th prime at most `INT32_MAX` and the array granted, `run` leaves its
main loop with `p = n` and `i` the `int32_t` of the successor of the n-th prime. -/
theorem loop_exit_state (pf : Platform) (q : Bool) (n : Nat) (hn : 1 ≤ n)
    (hb : Nat.nth Nat.Prime (n - 1) ≤ 2147483647) (hm : pf.malloc_ok n = true) :
    ∃ t L lc sw,
      (exec (program pf) SlotRule.waker t (mainFrom q n)).status = Status.running ∧
      (exec (program pf) SlotRule.waker t (mainFrom q n)).lookup 1 =
        some ⟨FiberState.Suspended, Pt.run_L92 L 0, lc, sw⟩ ∧
      L.p = n ∧ L.i = toInt32 ((Nat.nth Nat.Prime (n - 1) + 1 : Nat) : Int) ∧
      candOf (exec (program pf) SlotRule.waker t (mainFrom q n)) =
        some (toInt32 ((Nat.nth Nat.Prime (n - 1) + 1 : Nat) : Int)) := by
  obtain ⟨hN, hM⟩ := bound_no_overflow n hn hb
  obtain ⟨fuel, r, hclean, hr⟩ := main_exits pf q n (Or.inr (by rw [hM]; exact hm)) hN _ _
    MainShape.init0
  have hr' : r = 3 * toUInt32 (n : Int) + 2 := by
    rcases hr with h | h
    · exact h
    · omega
  obtain ⟨F, c, f, lc, out, hF, hlen, hf, _, _, hx, hst⟩ :=
    first_clean_state pf q n r _ hclean hr' (by omega)
  have hcount : Nat.count Nat.Prime c = n := by
    rw [← primesBelow_length, ← hF, List.length_map, hlen, hM]
  have hc : c = Nat.nth Nat.Prime (n - 1) + 1 := by
    rcases hx with ⟨_, h2⟩ | h2
    · rw [h2] at hlen
      simp at hlen
      omega
    · exact exit_candidate c n h2 hcount
  refine ⟨fuel, locals q (toUInt32 (n : Int)) F.length (toInt32 c), lc, some (0 + 2), ?_, ?_,
    ?_, ?_, ?_⟩
  · rw [hst]
    rfl
  · rw [hst, lookup_one_mk]
  · rw [hM] at hlen
    exact hlen
  · rw [hc]
    rfl
  · rw [hst, candOf_filter, hc]
    rfl

theorem toInt32_succ_nth (n : Nat) (hb : Nat.nth Nat.Prime (n - 1) < 2147483647) :
    toInt32 ((Nat.nth Nat.Prime (n - 1) + 1 : Nat) : Int) =
      (Nat.nth Nat.Prime (n - 1) : Int) + 1 := by
  rw [toInt32_id _ (by omega) (by omega)]
  push_cast
  rfl

/-- With the n-th prime below `INT32_MAX` and the array granted, every value from 2 to
the n-th prime is tested. -/
theorem every_candidate_tested (pf : Platform) (q : Bool) (n : Nat) (hn : 1 ≤ n)
    (hb : Nat.nth Nat.Prime (n - 1) < 2147483647) (hm : pf.malloc_ok n = true) (c : Int)
    (hc : 2 ≤ c) (hc2 : c ≤ (Nat.nth Nat.Prime (n - 1) : Int)) :
    ∃ t, testing (exec (program pf) SlotRule.waker t (mainFrom q n)) = some c := by
  obtain ⟨_, hM⟩ := bound_no_overflow n hn (by omega)
  obtain ⟨t0, L, lc, sw, _, _, _, _, hcand⟩ := loop_exit_state pf q n hn (by omega) hm
  rw [toInt32_succ_nth n hb] at hcand
  obtain ⟨k, _, hk⟩ := cand_reached pf q n t0
    (fun k _ => state_no_overflow pf q n hn hb hm k) _ hcand c hc (by omega)
  refine ⟨k, ?_⟩
  rcases bounded_states pf q n hn (by omega) hm k with ⟨r, h⟩ | ⟨r, h⟩
  · rcases main_cand pf q n r _ h with ⟨h1, _⟩ | ⟨c', _, _, h1, h2⟩
    · rw [h1] at hk
      cases hk
    · rw [h2, ← h1, hk]
  · exfalso
    rcases (clean_cand pf q n r _ h).2 with h1 | ⟨c', h1, hle, h2⟩
    · rw [h1] at hk
      cases hk
    · rw [h1] at hk
      have h3 : toInt32 (c' : Int) = c := Option.some.inj hk
      rcases h2 with ⟨_, h4⟩ | ⟨h4, h5⟩
      · omega
      · rw [hM] at h5
        have h6 := exit_candidate c' n h4 h5
        rw [toInt32_id _ (by omega) (by omega)] at h3
        omega

theorem state_not_testing_zero (pf : Platform) (q : Bool) (k : Nat) :
    testing (exec (program pf) SlotRule.waker k (mainFrom q 0)) = none := by
  rcases reach_ok pf q 0 (Or.inl rfl) (Nat.zero_le _) k with ⟨r, h⟩ | ⟨r, h⟩
  · rcases main_cand pf q 0 r _ h with ⟨_, h1⟩ | ⟨c, _, hcount, _, _⟩
    · exact h1
    · simp [toUInt32] at hcount
  · exact (clean_cand pf q 0 r _ h).1

theorem sieve_returns_zero (pf : Platform) (q : Bool) :
    ∃ t, (exec (program pf) SlotRule.waker t (mainFrom q 0)).status = Status.returned 0 := by
  obtain ⟨fuel, _, h⟩ := sieve_stops pf q 0 (Or.inl rfl) (Nat.zero_le _)
  exact ⟨fuel, h⟩

theorem wrap_testing (pf : Platform) (q : Bool) (n : Int) (r : Nat) (m : Machine Pt tuple)
    (h : WrapShape pf q n r m) : testing m = none ∨ testing m = candOf m := by
  cases h with
  | route => exact Or.inr (by rw [candOf_filter, testing_filter]; rfl)
  | reply => exact Or.inr (by rw [candOf_run, testing_run]; rfl)
  | alloc => exact Or.inr (by rw [candOf_run, testing_run]; rfl)
  | fresh => exact Or.inr (by rw [candOf_filter, testing_filter]; rfl)
  | stored => exact Or.inr (by rw [candOf_run, testing_run]; rfl)
  | fatal => exact Or.inl rfl

theorem null_testing (pf : Platform) (q : Bool) (n : Int) (r : Nat) (m : Machine Pt tuple)
    (h : NullShape pf q n r m) : testing m = none ∨ testing m = candOf m := by
  cases h with
  | alloc => exact Or.inr (by rw [candOf_run, testing_run]; rfl)
  | fresh => exact Or.inr (by rw [candOf_filter, testing_filter]; rfl)
  | stored => exact Or.inr (by rw [candOf_run, testing_run]; rfl)
  | crashed => exact Or.inl rfl

theorem testing_eq_candOf (pf : Platform) (q : Bool) (n : Int) (k : Nat) :
    testing (exec (program pf) SlotRule.waker k (mainFrom q n)) = none ∨
    testing (exec (program pf) SlotRule.waker k (mainFrom q n)) =
      candOf (exec (program pf) SlotRule.waker k (mainFrom q n)) := by
  rcases reach_exec pf q n k with ⟨r, h⟩ | ⟨r, h⟩ | ⟨r, h⟩ | ⟨r, h⟩
  · rcases main_cand pf q n r _ h with ⟨h1, h2⟩ | ⟨c, _, _, h1, h2⟩
    · exact Or.inl h2
    · exact Or.inr (by rw [h1, h2])
  · exact Or.inl (clean_cand pf q n r _ h).1
  · exact wrap_testing pf q n r _ h
  · exact null_testing pf q n r _ h

theorem nth_prime_two : Nat.nth Nat.Prime 2 = 5 := by
  have h : Nat.count Nat.Prime 5 = 2 := by decide
  rw [← h]
  exact Nat.nth_count (by norm_num)

/-- C16, counterexample: the n-th prime is 2^31-1 for n the number of primes up to
2^31-1; for this n a state of the run is about to execute `i++` with `i = INT32_MAX`,
which overflows `int32_t`, and the main loop is left with `p = n` and `i = INT32_MIN`,
not the n-th prime plus 1. -/
theorem main_loop_overflows_at_int32_max :
    Nat.nth Nat.Prime (Nat.count Nat.Prime 2147483648 - 1) ≤ 2147483647 ∧
    (∃ fuel,
      (exec (program pf0) SlotRule.waker fuel
        (mainFrom false (Nat.count Nat.Prime 2147483648 : Nat))).status = Status.running ∧
      intOverflow (exec (program pf0) SlotRule.waker fuel
        (mainFrom false (Nat.count Nat.Prime 2147483648 : Nat))) = true) ∧
    ∃ t L lc sw,
      (exec (program pf0) SlotRule.waker t
        (mainFrom false (Nat.count Nat.Prime 2147483648 : Nat))).status = Status.running ∧
      (exec (program pf0) SlotRule.waker t
        (mainFrom false (Nat.count Nat.Prime 2147483648 : Nat))).lookup 1 =
        some ⟨FiberState.Suspended, Pt.run_L92 L 0, lc, sw⟩ ∧
      L.p = Nat.count Nat.Prime 2147483648 ∧ L.i = -2147483648 ∧
      L.i ≠ (Nat.nth Nat.Prime (Nat.count Nat.Prime 2147483648 - 1) : Int) + 1 := by
  have hN := count_prime_int32
  have hnth : Nat.nth Nat.Prime (Nat.count Nat.Prime 2147483648 - 1) = 2147483647 := by
    rw [hN, Nat.add_sub_cancel, Nat.nth_count mersenne31_prime]
  obtain ⟨t, L, lc, sw, h1, h2, h3, h4, h5⟩ := loop_exit_state pf0 false
    (Nat.count Nat.Prime 2147483648) (by omega) (by omega) rfl
  have hmin : toInt32 ((2147483647 + 1 : Nat) : Int) = -2147483648 := by decide
  rw [hnth, hmin] at h4 h5
  refine ⟨by omega, ?_, t, L, lc, sw, h1, h2, h3, h4, ?_⟩
  · by_contra hno
    have hall : ∀ k, k < t → intOverflow (exec (program pf0) SlotRule.waker k
        (mainFrom false (Nat.count Nat.Prime 2147483648 : Nat))) = false := by
      intro k _
      cases hov : intOverflow (exec (program pf0) SlotRule.waker k
        (mainFrom false (Nat.count Nat.Prime 2147483648 : Nat))) with
      | false => rfl
      | true =>
        exfalso
        apply hno
        refine ⟨k, ?_, hov⟩
        rcases bounded_states pf0 false (Nat.count Nat.Prime 2147483648) (by omega)
          (by omega) rfl k with ⟨r, h⟩ | ⟨r, h⟩
        · exact main_status pf0 false _ r _ h
        · rw [clean_intOverflow pf0 false _ r _ h] at hov
          cases hov
    have := cand_ge_two pf0 false _ t hall _ h5
    omega
  · rw [h4, hnth]
    decide

/-- C16, amended: for every n >= 1 whose n-th prime is below 2^31-1 and whose array
`malloc` grants, the main loop of `run` started with `max_primes = n` terminates: a
state is reached in which `run` is in the first switch of its cleanup loop with `p = n`
and `i` the n-th prime plus 1; no state is undefined or about to overflow the
candidate; from each state to the next the value of `i` stays or grows by one,
starting at 2; the candidates tested are between 2 and the n-th prime, and each `c` of
that interval is tested.  For n = 0 the loop is not entered (`i = 2`, `p = 0` at line
83), no candidate is tested and `prog` returns 0. -/
theorem main_loop_terminates (pf : Platform) (quiet : Bool) (n k : Nat) (c : Int)
    (hn : 1 ≤ n) (hb : Nat.nth Nat.Prime (n - 1) < 2147483647) (hm : pf.malloc_ok n = true)
    (hc : 2 ≤ c) (hc2 : c ≤ (Nat.nth Nat.Prime (n - 1) : Int)) :
    (∃ t L lc sw,
      (exec (program pf) SlotRule.waker t (mainFrom quiet n)).status = Status.running ∧
      (exec (program pf) SlotRule.waker t (mainFrom quiet n)).lookup 1 =
        some ⟨FiberState.Suspended, Pt.run_L92 L 0, lc, sw⟩ ∧
      L.p = n ∧ L.i = (Nat.nth Nat.Prime (n - 1) : Int) + 1) ∧
    (exec (program pf) SlotRule.waker k (mainFrom quiet n)).status ≠ Status.undefined ∧
    intOverflow (exec (program pf) SlotRule.waker k (mainFrom quiet n)) = false ∧
    candStepOK (exec (program pf) SlotRule.waker k (mainFrom quiet n))
      (exec (program pf) SlotRule.waker (k + 1) (mainFrom quiet n)) = true ∧
    (testing (exec (program pf) SlotRule.waker k (mainFrom quiet n)) = none ∨
      testing (exec (program pf) SlotRule.waker k (mainFrom quiet n)) =
        candOf (exec (program pf) SlotRule.waker k (mainFrom quiet n))) ∧
    (testing (exec (program pf) SlotRule.waker k (mainFrom quiet n)) = none ∨
      ∃ i : Int, testing (exec (program pf) SlotRule.waker k (mainFrom quiet n)) = some i ∧
        2 ≤ i ∧ i ≤ (Nat.nth Nat.Prime (n - 1) : Int)) ∧
    (∃ t, testing (exec (program pf) SlotRule.waker t (mainFrom quiet n)) = some c) ∧
    (program pf).code Pt.run 1 (some 0) ⟨quiet, 0⟩ =
      run_after_loop ⟨quiet, 0, 0, 2, [], some 0⟩ ⟨quiet, 0⟩ ∧
    testing (exec (program pf) SlotRule.waker k (mainFrom quiet 0)) = none ∧
    ∃ t, (exec (program pf) SlotRule.waker t (mainFrom quiet 0)).status =
      Status.returned 0 := by
  refine ⟨?_, state_defined pf quiet n hn (by omega) hm k,
    state_no_overflow pf quiet n hn hb hm k,
    state_candStepOK pf quiet n k (state_no_overflow pf quiet n hn hb hm k),
    testing_eq_candOf pf quiet n k,
    state_testing_bound pf quiet n hn (by omega) hm k,
    every_candidate_tested pf quiet n hn hb hm c hc hc2,
    ?_, state_not_testing_zero pf quiet k, sieve_returns_zero pf quiet⟩
  · obtain ⟨t, L, lc, sw, h1, h2, h3, h4, _⟩ := loop_exit_state pf quiet n hn (by omega) hm
    rw [toInt32_succ_nth n hb] at h4
    exact ⟨t, L, lc, sw, h1, h2, h3, h4⟩
  · cases hmal : pf.malloc_ok (toUInt32 0) <;>
      simp [program, run, run_while, toUInt32, hmal]

/-- C16, witness: n = 3, whose third prime is 5: the candidate 4 is tested, and the
loop is left with `p = 3` and `i = 6`. -/
theorem main_loop_terminates_witness :
    1 ≤ 3 ∧ Nat.nth Nat.Prime (3 - 1) < 2147483647 ∧ pf0.malloc_ok 3 = true ∧
    (∃ t, testing (exec (program pf0) SlotRule.waker t (mainFrom false (3 : Nat))) =
      some 4) ∧
    candStepOK (exec (program pf0) SlotRule.waker 12 (mainFrom false (3 : Nat)))
      (exec (program pf0) SlotRule.waker (12 + 1) (mainFrom false (3 : Nat))) = true ∧
    ∃ t L lc sw,
      (exec (program pf0) SlotRule.waker t (mainFrom false (3 : Nat))).status =
        Status.running ∧
      (exec (program pf0) SlotRule.waker t (mainFrom false (3 : Nat))).lookup 1 =
        some ⟨FiberState.Suspended, Pt.run_L92 L 0, lc, sw⟩ ∧
      L.p = 3 ∧ L.i = (Nat.nth Nat.Prime (3 - 1) : Int) + 1 :=
  have hb : Nat.nth Nat.Prime (3 - 1) < 2147483647 := by
    rw [nth_prime_two]
    decide
  have hc2 : (4 : Int) ≤ (Nat.nth Nat.Prime (3 - 1) : Int) := by
    rw [nth_prime_two]
    decide
  have h := main_loop_terminates pf0 false 3 12 4 (by decide) hb rfl (by decide) hc2
  ⟨by decide, hb, rfl, h.2.2.2.2.2.2.1, h.2.2.2.1, h.1⟩

end SieveSwitch
